import Mathlib

/-!
# EdgeVoiceRAG: query classification and response orchestration

A shallow embedding of `query_classifier.cpp` and `edge_llm_rag_system.cpp`.

* A `std::string` is the list of its bytes; the string literals of the sources are
  their UTF-8 encodings.
* A C++ `float` is an IEEE-754 binary32 value; every arithmetic operation rounds to
  nearest, ties to even. Only finite non-negative values occur in the program.
* The three collaborators (retrieval, generative model, speech output) are an
  environment that answers each request as a function of the requests made so far;
  a request may fail, which in the program is an exception leaving the call.
* Console logging is not part of the model.
-/

namespace EdgeVoiceRAG

/-! ## Strings -/

/-- One `char` of a `std::string`. -/
abbrev Byte := Fin 256

/-- A `std::string`: its bytes. -/
abbrev Str := List Byte

/-- The byte with the given value (taken modulo 256). -/
def byte (n : Nat) : Byte := ⟨n % 256, Nat.mod_lt n (by decide)⟩

/-- UTF-8 encoding of one code point. -/
def utf8_encode (c : Nat) : Str :=
  if c < 0x80 then [byte c]
  else if c < 0x800 then [byte (0xC0 + c / 64), byte (0x80 + c % 64)]
  else if c < 0x10000 then
    [byte (0xE0 + c / 4096), byte (0x80 + c / 64 % 64), byte (0x80 + c % 64)]
  else
    [byte (0xF0 + c / 262144), byte (0x80 + c / 4096 % 64), byte (0x80 + c / 64 % 64),
      byte (0x80 + c % 64)]

/-- A narrow string literal of the (UTF-8 encoded) sources, as a `std::string`. -/
def utf8 (s : String) : Str := s.data.flatMap fun c => utf8_encode c.toNat

/-- Expression `s.find(w)` of `std::string`: the position of the first occurrence of `w` in `s`,
or `none` for `npos`. -/
def str_find : Str → Str → Option Nat
  | [], w => if w.isPrefixOf [] then some 0 else none
  | c :: s, w =>
    if w.isPrefixOf (c :: s) then some 0 else (str_find s w).map fun i => i + 1

/-- Expression `s.find(w) != std::string::npos`. -/
def str_contains (s w : Str) : Bool := (str_find s w).isSome

/-! ## Binary32 arithmetic -/

/-- A finite non-negative binary32 value, stored as the number of units of `2^-149`
(the smallest positive binary32 value) it is made of. The values of the program stay
far below the largest binary32 value, so overflow to infinity is not represented. -/
structure F32 where
  ulps : Nat
deriving DecidableEq, Repr

/-- Nearest integer to `num / den`, ties to even. -/
def roundNearestEven (num den : Nat) : Nat :=
  let q := num / den
  let r := num % den
  if 2 * r < den then q
  else if den < 2 * r then q + 1
  else if q % 2 = 0 then q else q + 1

/-- Number of halvings that bring `q` below `2^24` (added to `s`); `fuel = q` is enough. -/
def F32.excess : Nat → Nat → Nat → Nat
  | 0, _, s => s
  | fuel + 1, q, s => if q < 2 ^ 24 then s else F32.excess fuel (q / 2) (s + 1)

/-- The binary32 value nearest to `num / den` units of `2^-149` (ties to even): a
24-bit significand scaled by a power of two. -/
def F32.round (num den : Nat) : F32 :=
  let s := F32.excess (num / den) (num / den) 0
  ⟨roundNearestEven num (den * 2 ^ s) * 2 ^ s⟩

/-- The `float` literal written as the decimal fraction `num / den`. -/
def F32.lit (num den : Nat) : F32 := F32.round (num * 2 ^ 149) den

/-- Expression `static_cast<float>(n)` of a non-negative integer. -/
def F32.ofNat (n : Nat) : F32 := F32.round (n * 2 ^ 149) 1

/-- Binary32 addition. -/
def F32.add (a b : F32) : F32 := F32.round (a.ulps + b.ulps) 1

/-- Binary32 multiplication. -/
def F32.mul (a b : F32) : F32 := F32.round (a.ulps * b.ulps) (2 ^ 149)

/-- Binary32 division (by a non-zero value). -/
def F32.div (a b : F32) : F32 := F32.round (a.ulps * 2 ^ 149) b.ulps

/-- Comparison `a < b` on binary32 values. -/
def F32.lt (a b : F32) : Bool := decide (a.ulps < b.ulps)

/-- Comparison `a > b` on binary32 values. -/
def F32.gt (a b : F32) : Bool := F32.lt b a

/-- Comparison `a >= b` on binary32 values. -/
def F32.ge (a b : F32) : Bool := decide (b.ulps ≤ a.ulps)

/-- Expression `std::min(a, b)`: `b` when `b < a`, else `a`. -/
def F32.min (a b : F32) : F32 := if F32.lt b a then b else a

/-! ## Query classifier (`query_classifier.h`, `query_classifier.cpp`) -/

/-- The keys of `keyword_dict_`. -/
inductive Category
  | emergency | technical | maintenance | feature | question | creative
deriving DecidableEq, Repr

/-- Member `keyword_dict_` as filled by `initialize_keyword_dictionary`. -/
def keyword_dict_ : Category → List Str
  | .emergency => List.map utf8
      ["故障", "警告", "危险", "紧急", "异常", "失灵", "失效", "损坏",
       "发动机故障", "制动故障", "转向故障", "电气故障", "安全气囊", "ABS故障"]
  | .technical => List.map utf8
      ["发动机", "制动", "变速箱", "电气", "空调", "转向", "悬挂", "轮胎",
       "机油", "冷却液", "制动液", "变速箱油", "电瓶", "发电机", "起动机"]
  | .maintenance => List.map utf8
      ["保养", "维修", "更换", "检查", "清洁", "调整", "润滑", "紧固",
       "定期保养", "机油更换", "滤清器", "火花塞", "制动片", "轮胎更换"]
  | .feature => List.map utf8
      ["自动泊车", "车道保持", "定速巡航", "导航", "娱乐", "空调控制",
       "座椅调节", "后视镜", "雨刷", "灯光", "音响", "蓝牙"]
  | .question => List.map utf8
      ["什么", "怎么", "如何", "为什么", "哪里", "何时", "多少", "哪个",
       "吗", "呢", "嘛", "能不能", "可不可以", "有没有", "推荐一下", "怎么去", "去哪里",
       "怎么玩"]
  | .creative => List.map utf8
      ["推荐", "建议", "想法", "创意", "优化", "改进", "设计", "规划",
       "旅游", "旅行", "出行", "景点", "门票", "酒店", "民宿", "机票", "火车票", "高铁",
       "行程", "路线", "攻略", "签证", "租车", "自驾", "海岛", "海滩", "公园", "博物馆",
       "古镇", "温泉", "夜市", "特产", "美食", "摄影", "网红", "打卡", "露营", "徒步",
       "游玩", "娱乐", "主题乐园", "游乐园", "迪士尼", "环球影城", "水上乐园",
       "演唱会", "音乐节", "展览", "赛事", "滑雪", "潜水", "骑行", "登山",
       "预订", "订票", "订酒店", "退改签", "行李", "登机", "值机", "改签", "延误", "转机",
       "天气", "笑话", "故事", "新闻", "百科", "科普", "翻译", "计算", "单位换算",
       "今天", "明天", "现在", "附近", "哪里有", "怎么走"]

/-- All six categories, in the order `initialize_keyword_dictionary` inserts them. -/
def Category.all : List Category :=
  [.emergency, .technical, .maintenance, .feature, .question, .creative]

/-- A `QueryClassifier` object. Its dictionary is the constant `keyword_dict_`; what the
source leaves open is the order in which iterating the `std::unordered_map` visits
the six keys, each exactly once. -/
structure QueryClassifier where
  iteration : List Category
  iteration_perm : iteration.Perm Category.all

/-- Expression `std::find(dict[c].begin(), dict[c].end(), keyword) != dict[c].end()`. -/
def in_category (c : Category) (keyword : Str) : Bool := (keyword_dict_ c).contains keyword

/-- Function `QueryClassifier::extract_keywords`. -/
def QueryClassifier.extract_keywords (qc : QueryClassifier) (query : Str) : List Str :=
  qc.iteration.flatMap fun category =>
    (keyword_dict_ category).filter fun word => str_contains query word

/-- Function `QueryClassifier::calculate_urgency_score`. -/
def calculate_urgency_score (keywords : List Str) : F32 :=
  let emergency_count : Nat :=
    keywords.foldl (fun n keyword => if in_category .emergency keyword then n + 1 else n) 0
  F32.min (F32.lit 1 1) (F32.mul (F32.ofNat emergency_count) (F32.lit 3 10))

/-- Function `QueryClassifier::calculate_complexity_score`. -/
def calculate_complexity_score (query : Str) (keywords : List Str) : F32 :=
  let score := F32.lit 0 1
  let score := F32.add score
    (F32.mul (F32.min (F32.lit 1 1) (F32.div (F32.ofNat query.length) (F32.lit 100 1)))
      (F32.lit 3 10))
  let score := F32.add score
    (F32.mul (F32.min (F32.lit 1 1) (F32.div (F32.ofNat keywords.length) (F32.lit 10 1)))
      (F32.lit 4 10))
  let technical_count : Nat :=
    keywords.foldl (fun n keyword => if in_category .technical keyword then n + 1 else n) 0
  let score := F32.add score
    (F32.mul (F32.min (F32.lit 1 1) (F32.div (F32.ofNat technical_count) (F32.lit 5 1)))
      (F32.lit 3 10))
  F32.min (F32.lit 1 1) score

/-- Function `QueryClassifier::calculate_factual_score`. -/
def calculate_factual_score (keywords : List Str) : F32 :=
  let score := keywords.foldl (fun score keyword =>
    let score := if in_category .technical keyword then F32.add score (F32.lit 4 10) else score
    let score := if in_category .maintenance keyword then F32.add score (F32.lit 4 10) else score
    if in_category .feature keyword then F32.add score (F32.lit 5 10) else score) (F32.lit 0 1)
  F32.min (F32.lit 1 1) score

/-- Function `QueryClassifier::calculate_creative_score`. -/
def calculate_creative_score (keywords : List Str) : F32 :=
  let score := keywords.foldl (fun score keyword =>
    if in_category .creative keyword then F32.add score (F32.lit 3 10) else score) (F32.lit 0 1)
  F32.min (F32.lit 1 1) score

/-- Functions `detect_question_words`, `detect_emergency_words` and `detect_technical_words`: the
first word of the category found in the query ends the loop with `true`. -/
def detect_words (c : Category) (query : Str) : Bool :=
  (keyword_dict_ c).any fun word => str_contains query word

/-- Type `struct QueryFeatures`. -/
structure QueryFeatures where
  keywords : List Str
  urgency_score : F32
  complexity_score : F32
  factual_score : F32
  creative_score : F32
  query_length : Int
  contains_question_words : Bool
  contains_emergency_words : Bool
  contains_technical_words : Bool

/-- Expression `static_cast<int>(n)` of a `size_t`: the 32-bit twos-complement reading. -/
def to_int (n : Nat) : Int :=
  if n % 2 ^ 32 < 2 ^ 31 then (n % 2 ^ 32 : Nat) else (n % 2 ^ 32 : Nat) - 2 ^ 32

/-- Function `QueryClassifier::analyze_query_features`. -/
def QueryClassifier.analyze_query_features (qc : QueryClassifier) (query : Str) : QueryFeatures :=
  let keywords := qc.extract_keywords query
  { query_length := to_int query.length
    keywords := keywords
    urgency_score := calculate_urgency_score keywords
    complexity_score := calculate_complexity_score query keywords
    factual_score := calculate_factual_score keywords
    creative_score := calculate_creative_score keywords
    contains_question_words := detect_words .question query
    contains_emergency_words := detect_words .emergency query
    contains_technical_words := detect_words .technical query }

/-- Type `QueryClassification::QueryType`. -/
inductive QueryType
  | FACTUAL_QUERY | COMPLEX_QUERY | CREATIVE_QUERY | EMERGENCY_QUERY | UNKNOWN_QUERY
deriving DecidableEq, Repr

/-- Type `struct QueryClassification`. A `confidence` of `none` is a field that was never
assigned. -/
structure QueryClassification where
  query_type : QueryType
  confidence : Option F32
  reasoning : Str
  requires_immediate_response : Bool
deriving DecidableEq

/-- Function `QueryClassifier::classify_query`. -/
def QueryClassifier.classify_query (qc : QueryClassifier) (query : Str) : QueryClassification :=
  let features := qc.analyze_query_features query
  { confidence := none
    reasoning := []
    requires_immediate_response := F32.gt features.urgency_score (F32.lit 7 10)
    query_type :=
      if F32.gt features.urgency_score (F32.lit 7 10) || features.contains_emergency_words then
        .EMERGENCY_QUERY
      else if F32.ge features.factual_score (F32.lit 5 10) then .FACTUAL_QUERY
      else if F32.gt features.creative_score (F32.lit 6 10) then .CREATIVE_QUERY
      else if F32.gt features.complexity_score (F32.lit 6 10) then .COMPLEX_QUERY
      else .UNKNOWN_QUERY }

/-! ## Sentence segmentation (`EdgeLLMRAGSystem::rag_message_worker`) -/

/-- A `std::wstring` holding Unicode scalar values (32-bit `wchar_t`). -/
abbrev WStr := List Char

/-- Whether a byte is a UTF-8 continuation byte `10xxxxxx`. -/
def is_continuation (b : Byte) : Bool := decide (0x80 ≤ b.val ∧ b.val < 0xC0)

/-- Function `std::wstring_convert<std::codecvt_utf8<wchar_t>>::from_bytes`: UTF-8 decoding; `none`
is the `std::range_error` thrown on a malformed sequence (truncated or overlong
encodings, stray continuation bytes, surrogates, code points above U+10FFFF). -/
def from_bytes : Str → Option WStr
  | [] => some []
  | c1 :: rest =>
    if c1.val < 0x80 then (from_bytes rest).map fun w => Char.ofNat c1.val :: w
    else if c1.val < 0xC2 then none
    else if c1.val < 0xE0 then
      match rest with
      | c2 :: rest =>
        if is_continuation c2 then
          (from_bytes rest).map fun w =>
            Char.ofNat ((c1.val - 0xC0) * 64 + (c2.val - 0x80)) :: w
        else none
      | _ => none
    else if c1.val < 0xF0 then
      match rest with
      | c2 :: c3 :: rest =>
        if is_continuation c2 && is_continuation c3
            && !(c1.val = 0xE0 && c2.val < 0xA0) && !(c1.val = 0xED && 0xA0 ≤ c2.val) then
          (from_bytes rest).map fun w =>
            Char.ofNat ((c1.val - 0xE0) * 4096 + (c2.val - 0x80) * 64 + (c3.val - 0x80)) :: w
        else none
      | _ => none
    else if c1.val < 0xF5 then
      match rest with
      | c2 :: c3 :: c4 :: rest =>
        if is_continuation c2 && is_continuation c3 && is_continuation c4
            && !(c1.val = 0xF0 && c2.val < 0x90) && !(c1.val = 0xF4 && 0x90 ≤ c2.val) then
          (from_bytes rest).map fun w =>
            Char.ofNat ((c1.val - 0xF0) * 262144 + (c2.val - 0x80) * 4096
              + (c3.val - 0x80) * 64 + (c4.val - 0x80)) :: w
        else none
      | _ => none
    else none

/-- Function `std::wstring_convert<std::codecvt_utf8<wchar_t>>::to_bytes`. -/
def to_bytes (w : WStr) : Str := w.flatMap fun c => utf8_encode c.toNat

/-- The bracket alternative `[。！？；：\n]` of `wide_delimiter`. -/
def in_delimiter_class (c : Char) : Bool := "。！？；：\n".data.contains c

/-- The regex class `\s` in the classic locale. -/
def is_space (c : Char) : Bool := " \t\n\x0b\x0c\r".data.contains c

/-- The alternatives `\?\s` and `\!\s` of `wide_delimiter`. -/
def is_mark_then_space (c d : Char) : Bool := (c == '?' || c == '!') && is_space d

/-- The alternatives `\；`, `\，`, `\、` and `\|` of `wide_delimiter`. -/
def is_escaped_delimiter (c : Char) : Bool := "；，、|".data.contains c

/-- The matches `(position, length)` a `std::wsregex_iterator` over `wide_delimiter`
yields on a text whose first character has index `pos`: leftmost first, each search
resuming where the previous match ended. -/
def regex_matches : Nat → WStr → List (Nat × Nat)
  | _, [] => []
  | pos, [c] =>
    if in_delimiter_class c || is_escaped_delimiter c then [(pos, 1)] else []
  | pos, c :: d :: rest =>
    if in_delimiter_class c then (pos, 1) :: regex_matches (pos + 1) (d :: rest)
    else if is_mark_then_space c d then (pos, 2) :: regex_matches (pos + 2) rest
    else if is_escaped_delimiter c then (pos, 1) :: regex_matches (pos + 1) (d :: rest)
    else regex_matches (pos + 1) (d :: rest)

/-- Expression `w.substr(pos, n)`. -/
def substr (w : WStr) (pos n : Nat) : WStr := (w.drop pos).take n

/-- Membership in the trim set `L" \t\n\r"`. -/
def is_trimmed_char (c : Char) : Bool := " \t\n\r".data.contains c

/-- The two `erase` calls on `wide_segment`: leading, then trailing, characters of
`L" \t\n\r"` are removed. -/
def trim (w : WStr) : WStr :=
  ((w.dropWhile is_trimmed_char).reverse.dropWhile is_trimmed_char).reverse

/-- The first loop of `rag_message_worker`: up to two matches are consumed and only
move `last_pos`. Returns `last_pos` and the matches left. -/
def skip_loop : Nat → Nat → List (Nat × Nat) → Nat × List (Nat × Nat)
  | _, last_pos, [] => (last_pos, [])
  | skip_counter, last_pos, m :: it =>
    if skip_counter < 2 then skip_loop (skip_counter + 1) (m.1 + m.2) it
    else (last_pos, m :: it)

/-- The second loop of `rag_message_worker`: the segments handed to the speech output,
in order, and the final `last_pos`. -/
def segment_loop (wide_text : WStr) : Nat → List (Nat × Nat) → List WStr × Nat
  | last_pos, [] => ([], last_pos)
  | last_pos, m :: it =>
    let seg_start := last_pos
    let seg_end := m.1
    let wide_segment := trim (substr wide_text seg_start (seg_end - seg_start))
    let later := segment_loop wide_text (seg_end + m.2) it
    (if wide_segment.isEmpty then later.1 else wide_segment :: later.1, later.2)

/-- The chunks `rag_message_worker` sends for an already decoded text, in order. -/
def wide_chunks (decoded : WStr) : List WStr :=
  let wide_text := decoded ++ "END".data
  let skipped := skip_loop 0 0 (regex_matches 0 wide_text)
  let scanned := segment_loop wide_text skipped.1 skipped.2
  let last_pos := scanned.2
  let last :=
    if last_pos < wide_text.length then
      let last_segment := wide_text.drop last_pos
      if last_segment.isEmpty then [] else [last_segment]
    else []
  scanned.1 ++ last

/-- The chunks `rag_message_worker` sends for `rag_text`, in order; `none` when
`from_bytes` throws. -/
def speech_chunks (rag_text : Str) : Option (List Str) :=
  (from_bytes rag_text).map fun decoded => (wide_chunks decoded).map to_bytes

/-! ## Orchestrator (`edge_llm_rag_system.h`, `edge_llm_rag_system.cpp`) -/

/-- One item of the list returned by the retrieval engine. -/
structure SearchResult where
  similarity : ℚ
  text : Str
  section_ : Str
  subsection : Str

/-- A request sent to a collaborator. -/
inductive Request
  | search (query : Str) (top_k : Nat) (threshold : ℚ)
  | llm (prompt : Str)
  | tts (chunk : Str)
deriving DecidableEq

/-- The collaborators: `searcher.search`, `llm_client_.request`, `tts_client_.request`.
Each answers as a function of the requests made before and of the request itself;
`none` is a failed call (an exception in the program), for `search` also a result whose
items cannot be read. -/
structure Collaborators where
  search : List Request → Str → Nat → ℚ → Option (List SearchResult)
  llm_request : List Request → Str → Option Str
  tts_request : List Request → Str → Option Str

/-- Type `class EdgeLLMRAGSystem`: its data members, and `requests`, the log of the requests
sent to the collaborators so far. `query_cache_` is a `std::unordered_map`: a finite map
with one entry per key. -/
structure EdgeLLMRAGSystem where
  is_initialized_ : Bool
  query_classifier_ : Option QueryClassifier
  query_cache_ : AList fun _ : Str => Str
  requests : List Request

namespace EdgeLLMRAGSystem

/-- The object after its constructor. -/
def constructed : EdgeLLMRAGSystem :=
  { is_initialized_ := false, query_classifier_ := none, query_cache_ := ∅, requests := [] }

/-- Function `EdgeLLMRAGSystem::initialize`, given the classifier object it creates. -/
def initialize_ (s : EdgeLLMRAGSystem) (classifier : QueryClassifier) :
    Bool × EdgeLLMRAGSystem :=
  (true, { s with query_classifier_ := some classifier, query_cache_ := ∅,
                  is_initialized_ := true })

/-- Expression `query_cache_.size()`. -/
def cache_size (s : EdgeLLMRAGSystem) : Nat := s.query_cache_.entries.length

/-- Function `EdgeLLMRAGSystem::add_to_cache`. -/
def add_to_cache (s : EdgeLLMRAGSystem) (query response : Str) : Bool × EdgeLLMRAGSystem :=
  let cache := if 100 ≤ s.cache_size then ∅ else s.query_cache_
  (true, { s with query_cache_ := cache.insert query response })

/-- Function `EdgeLLMRAGSystem::get_from_cache`. -/
def get_from_cache (s : EdgeLLMRAGSystem) (query : Str) : Str :=
  match s.query_cache_.lookup query with
  | some response => response
  | none => []

/-- Function `EdgeLLMRAGSystem::is_cache_valid`. -/
def is_cache_valid (s : EdgeLLMRAGSystem) (query : Str) : Bool :=
  (s.query_cache_.lookup query).isSome

/-- Function `EdgeLLMRAGSystem::classify_query`. -/
def classify_query (s : EdgeLLMRAGSystem) (query : Str) : QueryClassification :=
  match s.query_classifier_ with
  | none =>
    { query_type := .UNKNOWN_QUERY, confidence := some (F32.lit 0 1),
      reasoning := utf8 "分类器未初始化", requires_immediate_response := false }
  | some classifier => classifier.classify_query query

/-- The `tts_client_.request` calls of `rag_message_worker`, one per chunk; a failed
request ends the call. -/
def send_chunks (env : Collaborators) :
    List Str → EdgeLLMRAGSystem → Option Unit × EdgeLLMRAGSystem
  | [], s => (some (), s)
  | chunk :: rest, s =>
    let s1 := { s with requests := s.requests ++ [.tts chunk] }
    match env.tts_request s.requests chunk with
    | none => (none, s1)
    | some _ => send_chunks env rest s1

/-- Function `EdgeLLMRAGSystem::rag_message_worker`. -/
def rag_message_worker (s : EdgeLLMRAGSystem) (env : Collaborators) (rag_text : Str) :
    Option Unit × EdgeLLMRAGSystem :=
  match speech_chunks rag_text with
  | none => (none, s)
  | some chunks => send_chunks env chunks s

/-- Function `EdgeLLMRAGSystem::rag_only_response`. -/
def rag_only_response (s : EdgeLLMRAGSystem) (env : Collaborators) (query : Str)
    (preload : Bool) : Option Str × EdgeLLMRAGSystem :=
  let s1 := { s with requests := s.requests ++ [.search query 1 (1 / 2)] }
  match env.search s.requests query 1 (1 / 2) with
  | none => (none, s1)
  | some results =>
    if results.length = 0 then (some (utf8 "No results !!!"), s1)
    else
      let answer := results.foldl (fun _ item => item.text) []
      if !preload then
        match s1.rag_message_worker env answer with
        | (none, s2) => (none, s2)
        | (some _, s2) => (some answer, s2)
      else (some answer, s1)

/-- Function `EdgeLLMRAGSystem::llm_only_response`. -/
def llm_only_response (s : EdgeLLMRAGSystem) (env : Collaborators) (query : Str) :
    Option Str × EdgeLLMRAGSystem :=
  (env.llm_request s.requests query, { s with requests := s.requests ++ [.llm query] })

/-- Function `EdgeLLMRAGSystem::hybrid_response`. -/
def hybrid_response (s : EdgeLLMRAGSystem) (env : Collaborators) (query : Str) :
    Option Str × EdgeLLMRAGSystem :=
  match s.rag_only_response env query true with
  | (none, s1) => (none, s1)
  | (some rag_part, s1) =>
    if str_contains rag_part (utf8 "No results") then s1.llm_only_response env query
    else
      let llm_query := query ++ utf8 "<rag>" ++ rag_part
      s1.llm_only_response env llm_query

/-- Function `EdgeLLMRAGSystem::process_query`; the parameters `user_id` and `context` are not
used by the body. -/
def process_query (s : EdgeLLMRAGSystem) (env : Collaborators) (query _user_id _context : Str) :
    Option Str × EdgeLLMRAGSystem :=
  if !s.is_initialized_ then (some (utf8 "系统未初始化"), s)
  else
    let cached_response := s.get_from_cache query
    if !cached_response.isEmpty then (some cached_response, s)
    else
      let classification := s.classify_query query
      let outcome :=
        match classification.query_type with
        | .EMERGENCY_QUERY => s.rag_only_response env query false
        | .FACTUAL_QUERY => s.rag_only_response env query false
        | .COMPLEX_QUERY => s.hybrid_response env query
        | .CREATIVE_QUERY => s.llm_only_response env query
        | _ => s.hybrid_response env query
      match outcome with
      | (none, s1) => (none, s1)
      | (some response, s1) => (some response, (s1.add_to_cache query response).2)

/-- The loop body of `preload_common_queries` over the queries still to visit. -/
def preload_loop (env : Collaborators) :
    List Str → EdgeLLMRAGSystem → Option Unit × EdgeLLMRAGSystem
  | [], s => (some (), s)
  | query :: rest, s =>
    if (s.query_cache_.lookup query).isNone then
      match s.rag_only_response env query true with
      | (none, s1) => (none, s1)
      | (some response, s1) => preload_loop env rest (s1.add_to_cache query response).2
    else preload_loop env rest s

/-- Function `EdgeLLMRAGSystem::preload_common_queries`. -/
def preload_common_queries (s : EdgeLLMRAGSystem) (env : Collaborators) :
    Option Bool × EdgeLLMRAGSystem :=
  let common_queries := List.map utf8 ["发动机故障", "制动系统", "空调不制冷", "保养周期"]
  match preload_loop env common_queries s with
  | (none, s1) => (none, s1)
  | (some _, s1) => (some true, s1)

end EdgeLLMRAGSystem

/-! ## Vocabulary of the properties -/

/-- The rule list of the classifier decision as the specification words it: guards in
order, each with the variant it selects. -/
def decision_rules (f : QueryFeatures) : List (Bool × QueryType) :=
  [ (F32.gt f.urgency_score (F32.lit 7 10) || f.contains_emergency_words, .EMERGENCY_QUERY),
    (F32.ge f.factual_score (F32.lit 5 10), .FACTUAL_QUERY),
    (F32.gt f.creative_score (F32.lit 6 10), .CREATIVE_QUERY),
    (F32.gt f.complexity_score (F32.lit 6 10), .COMPLEX_QUERY),
    (true, .UNKNOWN_QUERY) ]

/-- The variant selected by the first rule of `decision_rules` whose guard holds. -/
def first_matching_rule (f : QueryFeatures) : Option QueryType :=
  ((decision_rules f).find? fun rule => rule.1).map fun rule => rule.2

/-- An operation that may touch the response cache. -/
inductive Operation
  | add_to_cache (query response : Str)
  | process_query (query user_id context : Str)
  | preload_common_queries

/-- The object after one operation (also when the operation ends by an exception). -/
def Operation.apply (env : Collaborators) (s : EdgeLLMRAGSystem) : Operation → EdgeLLMRAGSystem
  | .add_to_cache query response => (s.add_to_cache query response).2
  | .process_query query user_id context => (s.process_query env query user_id context).2
  | .preload_common_queries => (s.preload_common_queries env).2

/-- The object after a sequence of operations. -/
def run_operations (env : Collaborators) (s : EdgeLLMRAGSystem) (ops : List Operation) :
    EdgeLLMRAGSystem :=
  ops.foldl (fun s op => op.apply env s) s

/-! ## Sample objects -/

/-- A classifier whose dictionary is visited in insertion order. -/
def sample_classifier : QueryClassifier := ⟨Category.all, List.Perm.refl _⟩

/-- An initialized orchestrator with an empty cache. -/
def ready : EdgeLLMRAGSystem := (EdgeLLMRAGSystem.constructed.initialize_ sample_classifier).2

/-- Collaborators that find nothing, complete every prompt with `answer` and acknowledge
every chunk. -/
def plain_collaborators (answer : Str) : Collaborators :=
  { search := fun _ _ _ _ => some []
    llm_request := fun _ _ => some answer
    tts_request := fun _ _ => some (utf8 "ok") }

/-- A cache of one hundred entries, with the keys `[0]`, ..., `[99]`. -/
def hundred_entries : AList fun _ : Str => Str :=
  (List.range 100).foldl (fun cache i => cache.insert [byte i] (utf8 "answer")) ∅

/-- An initialized orchestrator whose cache is full. -/
def full : EdgeLLMRAGSystem := { ready with query_cache_ := hundred_entries }

/-- An initialized orchestrator whose cache holds the single entry `"a" ↦ "b"`. -/
def one_entry : EdgeLLMRAGSystem := (ready.add_to_cache (utf8 "a") (utf8 "b")).2

/-- Collaborators that find nothing and acknowledge every chunk; the generative model
completes with the empty text while fewer than two requests were made, and with
`"later"` afterwards. -/
def changing_collaborators : Collaborators :=
  { search := fun _ _ _ _ => some []
    llm_request := fun history _ => if history.length < 2 then some [] else some (utf8 "later")
    tts_request := fun _ _ => some (utf8 "ok") }

/-- The orchestrator after `ready` has processed `"你好"` with `changing_collaborators`. -/
def after_empty_answer : EdgeLLMRAGSystem :=
  (ready.process_query changing_collaborators (utf8 "你好") [] []).2

/-- Collaborators whose retrieval always returns the given items; the generative model
completes every prompt with `"reply"` and every chunk is acknowledged. -/
def retrieving_collaborators (items : List SearchResult) : Collaborators :=
  { search := fun _ _ _ _ => some items
    llm_request := fun _ _ => some (utf8 "reply")
    tts_request := fun _ _ => some (utf8 "ok") }

/-- A retrieved item with the given text. -/
def item_with_text (text : Str) : SearchResult :=
  { similarity := 9 / 10, text := text, section_ := utf8 "manual", subsection := [] }

/-- The urgency formula `min(1, 0.3 × n)` of the specification, in binary32 arithmetic. -/
def urgency_of_count (n : Nat) : F32 :=
  F32.min (F32.lit 1 1) (F32.mul (F32.ofNat n) (F32.lit 3 10))

/-- A query of 25 code points (U+1F600, four bytes each): 100 bytes. -/
def emoji_query : Str :=
  utf8 "😀😀😀😀😀😀😀😀😀😀😀😀😀😀😀😀😀😀😀😀😀😀😀😀😀"

/-- The chunks occur in the text one after the other, from left to right and without
overlap. -/
def occur_in_order {α : Type} : List (List α) → List α → Prop
  | [], _ => True
  | chunk :: rest, text =>
    ∃ before after, text = before ++ chunk ++ after ∧ occur_in_order rest after

/-- A wide string that is not empty and neither starts nor ends with a character of
`L" \t\n\r"`. -/
def outer_trimmed (w : WStr) : Bool :=
  match w.head?, w.getLast? with
  | some first, some last => !is_trimmed_char first && !is_trimmed_char last
  | _, _ => false

/-- Whether a byte is a space, a tab, a newline or a carriage return. -/
def is_whitespace_byte (b : Byte) : Bool :=
  b.val = 0x20 || b.val = 0x09 || b.val = 0x0A || b.val = 0x0D

/-- A segment in the sense of the specification, as a text of its own: not empty, with
no leading and no trailing whitespace. -/
def is_segment_text (chunk : Str) : Bool :=
  match chunk.head?, chunk.getLast? with
  | some first, some last => !is_whitespace_byte first && !is_whitespace_byte last
  | _, _ => false

/-- The matches lie one after the other between `lo` and `hi`. -/
def placed : Nat → Nat → List (Nat × Nat) → Prop
  | lo, hi, [] => lo ≤ hi
  | lo, hi, m :: ms => lo ≤ m.1 ∧ placed (m.1 + m.2) hi ms

/-! ## Vocabulary of the properties of the scores -/

/-- The literals of one category found in the query, in dictionary order: what the inner
loop of `extract_keywords` appends while it visits that category. -/
def found_literals (query : Str) (category : Category) : List Str :=
  (keyword_dict_ category).filter fun word => str_contains query word

/-- The factual formula `min(1, 0.4·T + 0.4·M + 0.5·F)` of the specification, in binary32
arithmetic. -/
def factual_of_counts (t m f : Nat) : F32 :=
  F32.min (F32.lit 1 1)
    (F32.add
      (F32.add (F32.mul (F32.lit 4 10) (F32.ofNat t)) (F32.mul (F32.lit 4 10) (F32.ofNat m)))
      (F32.mul (F32.lit 5 10) (F32.ofNat f)))

/-- The running sum of `calculate_factual_score` after `0.4f` was added `n4` times and
then `0.5f` was added `n5` times. -/
def factual_sum (n4 n5 : Nat) : F32 :=
  (List.replicate n4 (F32.lit 4 10) ++ List.replicate n5 (F32.lit 5 10)).foldl F32.add
    (F32.lit 0 1)

/-- What is known of the running sum of `calculate_factual_score` once `0.4f` was added
`n4` times and `0.5f` was added `n5` times, in any order: its value up to two additions,
and that it has reached `1.0f` from three additions on. -/
def factual_state (n4 n5 : Nat) (score : F32) : Prop :=
  (n4 + n5 ≤ 2 ∧ score = factual_sum n4 n5) ∨ (3 ≤ n4 + n5 ∧ (F32.lit 1 1).ulps ≤ score.ulps)

/-- The running sum of `calculate_creative_score` after `0.3f` was added `n` times. -/
def creative_sum (n : Nat) : F32 :=
  (List.replicate n (F32.lit 3 10)).foldl F32.add (F32.lit 0 1)

/-- The expression of `calculate_complexity_score` for a query of `len` bytes and a
keyword list of `k` entries, `t` of them of the technical category. -/
def complexity_of_counts (len k t : Nat) : F32 :=
  let score := F32.lit 0 1
  let score := F32.add score
    (F32.mul (F32.min (F32.lit 1 1) (F32.div (F32.ofNat len) (F32.lit 100 1))) (F32.lit 3 10))
  let score := F32.add score
    (F32.mul (F32.min (F32.lit 1 1) (F32.div (F32.ofNat k) (F32.lit 10 1))) (F32.lit 4 10))
  let score := F32.add score
    (F32.mul (F32.min (F32.lit 1 1) (F32.div (F32.ofNat t) (F32.lit 5 1))) (F32.lit 3 10))
  F32.min (F32.lit 1 1) score

/-- The bound `0.3 + 0.4·(3/10) + 0.3·(1/5)` of the specification, in binary32
arithmetic. -/
def complexity_bound_without_question : F32 :=
  F32.add
    (F32.add (F32.lit 3 10) (F32.mul (F32.lit 4 10) (F32.div (F32.ofNat 3) (F32.ofNat 10))))
    (F32.mul (F32.lit 3 10) (F32.div (F32.ofNat 1) (F32.ofNat 5)))

/-- A query made of question literals only. -/
def question_query : Str :=
  utf8 "为什么怎么如何哪里何时多少哪个吗呢能不能可不可以有没有"

/-- A query with one technical and two creative literals and no question word. -/
def advice_query : Str := utf8 "发动机推荐建议"

/-- The position just past the last delimiter match of the text, 0 when the text has no
delimiter match: where the scan of the text makes its last cut. -/
def last_cut (decoded : WStr) : Nat :=
  ((regex_matches 0 decoded).getLast?.map fun m => m.1 + m.2).getD 0

/-! ## String search -/

theorem str_find_isSome_iff (s w : Str) : (str_find s w).isSome = true ↔ w <:+: s := by
  induction s with
  | nil => simp [str_find, List.infix_nil]
  | cons c s ih =>
    rw [List.infix_cons_iff, ← ih]
    by_cases h : w.isPrefixOf (c :: s) = true
    · simp [str_find, h, List.isPrefixOf_iff_prefix.mp h]
    · have h2 : ¬ w <+: c :: s := fun hp => h (List.isPrefixOf_iff_prefix.mpr hp)
      simp [str_find, h, h2]

theorem str_contains_iff (s w : Str) : str_contains s w = true ↔ w <:+: s :=
  str_find_isSome_iff s w

theorem detect_words_iff (c : Category) (query : Str) :
    detect_words c query = true ↔ ∃ w ∈ keyword_dict_ c, w <:+: query := by
  simp [detect_words, List.any_eq_true, str_contains_iff]

/-! ## Classifier decision -/

/-- C1: a query that contains a literal of the `emergency` category as a substring is
classified `EMERGENCY_QUERY`, whatever the scores are. -/
theorem emergency_keyword_forces_emergency (qc : QueryClassifier) (query : Str)
    (h : ∃ w ∈ keyword_dict_ .emergency, w <:+: query) :
    (qc.classify_query query).query_type = .EMERGENCY_QUERY := by
  have hd : detect_words .emergency query = true := (detect_words_iff _ _).mpr h
  simp [QueryClassifier.classify_query, QueryClassifier.analyze_query_features, hd]

theorem emergency_keyword_forces_emergency_witness :
    (sample_classifier.classify_query (utf8 "发动机故障警告")).query_type = .EMERGENCY_QUERY :=
  emergency_keyword_forces_emergency sample_classifier (utf8 "发动机故障警告")
    ⟨utf8 "故障", by decide, utf8 "发动机", utf8 "警告", by decide⟩

/-- C2: the classification is the variant of the first matching rule of the ordered rule
list applied to the features of the query, and `requires_immediate_response` is the
test `urgency_score > 0.7f`. -/
theorem classify_query_first_matching_rule (qc : QueryClassifier) (query : Str) :
    some (qc.classify_query query).query_type
        = first_matching_rule (qc.analyze_query_features query)
      ∧ (qc.classify_query query).requires_immediate_response
        = F32.gt (qc.analyze_query_features query).urgency_score (F32.lit 7 10) := by
  refine ⟨?_, by simp only [QueryClassifier.classify_query]⟩
  simp only [QueryClassifier.classify_query, first_matching_rule, decision_rules]
  generalize qc.analyze_query_features query = f
  cases h1 : (F32.gt f.urgency_score (F32.lit 7 10) || f.contains_emergency_words) <;>
  cases h2 : F32.ge f.factual_score (F32.lit 5 10) <;>
  cases h3 : F32.gt f.creative_score (F32.lit 6 10) <;>
  cases h4 : F32.gt f.complexity_score (F32.lit 6 10) <;>
  simp [List.find?, h1, h2, h3, h4]

/-! ## Frame lemmas of the orchestrator -/

namespace EdgeLLMRAGSystem

theorem send_chunks_cache (env : Collaborators) (chunks : List Str) (s : EdgeLLMRAGSystem) :
    (send_chunks env chunks s).2.query_cache_ = s.query_cache_ := by
  induction chunks generalizing s with
  | nil => rfl
  | cons chunk rest ih =>
    simp only [send_chunks]
    split
    · rfl
    · rw [ih]

theorem rag_message_worker_cache (s : EdgeLLMRAGSystem) (env : Collaborators) (rag_text : Str) :
    (s.rag_message_worker env rag_text).2.query_cache_ = s.query_cache_ := by
  simp only [rag_message_worker]
  split
  · rfl
  · exact send_chunks_cache env _ s

theorem rag_only_response_cache (s : EdgeLLMRAGSystem) (env : Collaborators) (query : Str)
    (preload : Bool) :
    (s.rag_only_response env query preload).2.query_cache_ = s.query_cache_ := by
  simp only [rag_only_response]
  split
  · rfl
  · split
    · rfl
    · split
      · split
        · next h =>
          exact (congrArg (fun o => o.2.query_cache_) h).symm.trans
            (rag_message_worker_cache _ env _)
        · next h =>
          exact (congrArg (fun o => o.2.query_cache_) h).symm.trans
            (rag_message_worker_cache _ env _)
      · rfl

theorem llm_only_response_cache (s : EdgeLLMRAGSystem) (env : Collaborators) (query : Str) :
    (s.llm_only_response env query).2.query_cache_ = s.query_cache_ := rfl

theorem hybrid_response_cache (s : EdgeLLMRAGSystem) (env : Collaborators) (query : Str) :
    (s.hybrid_response env query).2.query_cache_ = s.query_cache_ := by
  simp only [hybrid_response]
  split
  · next h =>
    exact (congrArg (fun o => o.2.query_cache_) h).symm.trans
      (rag_only_response_cache s env query true)
  · next h =>
    have hc := rag_only_response_cache s env query true
    rw [h] at hc
    split <;> exact hc

theorem add_to_cache_requests (s : EdgeLLMRAGSystem) (query response : Str) :
    (s.add_to_cache query response).2.requests = s.requests := rfl

theorem add_to_cache_size_le (s : EdgeLLMRAGSystem) (query response : Str) :
    (s.add_to_cache query response).2.cache_size ≤ 100 := by
  simp only [add_to_cache, cache_size, AList.insert_entries, List.length_cons]
  split
  · simp
  · next h =>
    have := (List.kerase_sublist query s.query_cache_.entries).length_le
    omega

theorem lookup_add_to_cache (s : EdgeLLMRAGSystem) (query response : Str) :
    (s.add_to_cache query response).2.query_cache_.lookup query = some response := by
  simp [add_to_cache, AList.lookup_insert]

theorem store_outcome (o : Option Str × EdgeLLMRAGSystem) (query : Str) :
    (match o with
      | (none, s1) => (none, s1)
      | (some response, s1) => (some response, (s1.add_to_cache query response).2)).1 = o.1
    ∧ (match o with
      | (none, s1) => (none, s1)
      | (some response, s1) =>
        (some response, (s1.add_to_cache query response).2)).2.requests = o.2.requests := by
  rcases o with ⟨_ | response, s1⟩ <;> exact ⟨rfl, rfl⟩

theorem store_outcome_size (o : Option Str × EdgeLLMRAGSystem) (query : Str)
    (h : o.2.cache_size ≤ 100) :
    (match o with
      | (none, s1) => (none, s1)
      | (some response, s1) =>
        (some response, (s1.add_to_cache query response).2)).2.cache_size ≤ 100 := by
  rcases o with ⟨_ | response, s1⟩
  · exact h
  · exact add_to_cache_size_le s1 query response

theorem store_outcome_lookup (o : Option Str × EdgeLLMRAGSystem) (query a : Str)
    (h : (match o with
      | (none, s1) => (none, s1)
      | (some response, s1) =>
        (some response, (s1.add_to_cache query response).2)).1 = some a) :
    (match o with
      | (none, s1) => (none, s1)
      | (some response, s1) =>
        (some response, (s1.add_to_cache query response).2)).2.query_cache_.lookup query
      = some a := by
  rcases o with ⟨_ | response, s1⟩
  · simp at h
  · simp only [Option.some.injEq] at h
    subst h
    exact lookup_add_to_cache s1 query response

theorem process_query_of_miss (s : EdgeLLMRAGSystem) (env : Collaborators)
    (query user_id context : Str)
    (hinit : s.is_initialized_ = true) (hmiss : s.get_from_cache query = []) :
    s.process_query env query user_id context =
      match (match (s.classify_query query).query_type with
        | .EMERGENCY_QUERY => s.rag_only_response env query false
        | .FACTUAL_QUERY => s.rag_only_response env query false
        | .COMPLEX_QUERY => s.hybrid_response env query
        | .CREATIVE_QUERY => s.llm_only_response env query
        | _ => s.hybrid_response env query) with
      | (none, s1) => (none, s1)
      | (some response, s1) => (some response, (s1.add_to_cache query response).2) := by
  simp [process_query, hinit, hmiss]

theorem strategy_cache (s : EdgeLLMRAGSystem) (env : Collaborators) (query : Str)
    (t : QueryType) :
    (match t with
      | .EMERGENCY_QUERY => s.rag_only_response env query false
      | .FACTUAL_QUERY => s.rag_only_response env query false
      | .COMPLEX_QUERY => s.hybrid_response env query
      | .CREATIVE_QUERY => s.llm_only_response env query
      | _ => s.hybrid_response env query).2.query_cache_ = s.query_cache_ := by
  cases t
  · exact rag_only_response_cache s env query false
  · exact hybrid_response_cache s env query
  · exact llm_only_response_cache s env query
  · exact rag_only_response_cache s env query false
  · exact hybrid_response_cache s env query

theorem process_query_size_le (s : EdgeLLMRAGSystem) (env : Collaborators)
    (query user_id context : Str) (h : s.cache_size ≤ 100) :
    (s.process_query env query user_id context).2.cache_size ≤ 100 := by
  by_cases hinit : s.is_initialized_ = true
  · by_cases hmiss : s.get_from_cache query = []
    · rw [process_query_of_miss s env query user_id context hinit hmiss]
      apply store_outcome_size
      simp only [cache_size, strategy_cache]
      exact h
    · have hhit : s.process_query env query user_id context
          = (some (s.get_from_cache query), s) := by
        simp [process_query, hinit, hmiss]
      rw [hhit]
      exact h
  · have hoff : s.process_query env query user_id context
        = (some (utf8 "系统未初始化"), s) := by
      simp [process_query, hinit]
    rw [hoff]
    exact h

theorem preload_loop_size_le (env : Collaborators) (queries : List Str) (s : EdgeLLMRAGSystem)
    (h : s.cache_size ≤ 100) : (preload_loop env queries s).2.cache_size ≤ 100 := by
  induction queries generalizing s with
  | nil => exact h
  | cons query rest ih =>
    simp only [preload_loop]
    split
    · split
      · next heq =>
        have hc := rag_only_response_cache s env query true
        rw [heq] at hc
        dsimp only at hc
        unfold cache_size
        dsimp only
        rw [hc]
        exact h
      · exact ih _ (add_to_cache_size_le _ _ _)
    · exact ih s h

theorem preload_common_queries_size_le (s : EdgeLLMRAGSystem) (env : Collaborators)
    (h : s.cache_size ≤ 100) : (s.preload_common_queries env).2.cache_size ≤ 100 := by
  have hl := preload_loop_size_le env
    (List.map utf8 ["发动机故障", "制动系统", "空调不制冷", "保养周期"]) s h
  simp only [preload_common_queries]
  split
  · next heq => rw [heq] at hl; exact hl
  · next heq => rw [heq] at hl; exact hl

end EdgeLLMRAGSystem

theorem run_operations_size_le (env : Collaborators) (ops : List Operation)
    (s : EdgeLLMRAGSystem) (h : s.cache_size ≤ 100) :
    (run_operations env s ops).cache_size ≤ 100 := by
  induction ops generalizing s with
  | nil => exact h
  | cons op rest ih =>
    simp only [run_operations, List.foldl_cons]
    apply ih
    cases op with
    | add_to_cache query response => exact EdgeLLMRAGSystem.add_to_cache_size_le s query response
    | process_query query user_id context =>
      exact EdgeLLMRAGSystem.process_query_size_le s env query user_id context h
    | preload_common_queries => exact EdgeLLMRAGSystem.preload_common_queries_size_le s env h

/-! ## Dispatch and cache of `process_query` -/

/-- C3: on an initialized orchestrator and a cache miss, `process_query` answers with the
result of the strategy selected by the classification, and sends the collaborators the
requests of that strategy: retrieval-only with streaming for `EMERGENCY_QUERY` and
`FACTUAL_QUERY`, generative-only on the query for `CREATIVE_QUERY`, hybrid for
`COMPLEX_QUERY` and `UNKNOWN_QUERY`. -/
theorem process_query_dispatch (s : EdgeLLMRAGSystem) (env : Collaborators)
    (query user_id context : Str)
    (hinit : s.is_initialized_ = true) (hmiss : s.get_from_cache query = []) :
    ((s.classify_query query).query_type = .EMERGENCY_QUERY
        ∨ (s.classify_query query).query_type = .FACTUAL_QUERY →
      (s.process_query env query user_id context).1 = (s.rag_only_response env query false).1
      ∧ (s.process_query env query user_id context).2.requests
        = (s.rag_only_response env query false).2.requests)
    ∧ ((s.classify_query query).query_type = .CREATIVE_QUERY →
      (s.process_query env query user_id context).1 = (s.llm_only_response env query).1
      ∧ (s.process_query env query user_id context).2.requests
        = (s.llm_only_response env query).2.requests)
    ∧ ((s.classify_query query).query_type = .COMPLEX_QUERY
        ∨ (s.classify_query query).query_type = .UNKNOWN_QUERY →
      (s.process_query env query user_id context).1 = (s.hybrid_response env query).1
      ∧ (s.process_query env query user_id context).2.requests
        = (s.hybrid_response env query).2.requests) := by
  rw [EdgeLLMRAGSystem.process_query_of_miss s env query user_id context hinit hmiss]
  refine ⟨?_, ?_, ?_⟩
  · rintro (h | h) <;> rw [h] <;> exact EdgeLLMRAGSystem.store_outcome _ query
  · intro h
    rw [h]
    exact EdgeLLMRAGSystem.store_outcome _ query
  · rintro (h | h) <;> rw [h] <;> exact EdgeLLMRAGSystem.store_outcome _ query

/-- C4: an orchestrator that is not initialized answers every query with the fixed
message and is left exactly as it was: same cache, no request to any collaborator. -/
theorem process_query_uninitialized (s : EdgeLLMRAGSystem) (env : Collaborators)
    (query user_id context : Str) (h : s.is_initialized_ = false) :
    s.process_query env query user_id context = (some (utf8 "系统未初始化"), s) := by
  simp [EdgeLLMRAGSystem.process_query, h]

/-- C5 (amended): on an initialized orchestrator, a query stored in the cache with a
non-empty answer is answered with the stored answer and the orchestrator is left exactly
as it was, whatever its classifier, `user_id` and `context` are. -/
theorem process_query_cache_hit (s : EdgeLLMRAGSystem) (env : Collaborators)
    (query user_id context response : Str)
    (hinit : s.is_initialized_ = true)
    (hkey : s.query_cache_.lookup query = some response) (hne : response ≠ []) :
    s.process_query env query user_id context = (some response, s) := by
  have hget : s.get_from_cache query = response := by
    simp [EdgeLLMRAGSystem.get_from_cache, hkey]
  simp [EdgeLLMRAGSystem.process_query, hinit, hget, hne]

/-- C6: from the empty cache made by `initialize`, no sequence of `add_to_cache`,
`process_query` and `preload_common_queries` brings the cache above 100 entries. -/
theorem cache_size_le_capacity (env : Collaborators) (s0 : EdgeLLMRAGSystem)
    (classifier : QueryClassifier) (ops : List Operation) :
    (run_operations env (s0.initialize_ classifier).2 ops).cache_size ≤ 100 := by
  apply run_operations_size_le
  simp [EdgeLLMRAGSystem.initialize_, EdgeLLMRAGSystem.cache_size]

/-- C7: adding a new query to a cache of 100 entries leaves exactly the new entry, and
every query cached before misses. -/
theorem add_to_full_cache_clears (s : EdgeLLMRAGSystem) (query response : Str)
    (hfull : s.cache_size = 100) (hnew : query ∉ s.query_cache_) :
    (s.add_to_cache query response).2.query_cache_.entries = [⟨query, response⟩]
    ∧ ∀ old ∈ s.query_cache_, (s.add_to_cache query response).2.get_from_cache old = [] := by
  have hc : (s.add_to_cache query response).2.query_cache_
      = (AList.singleton query response : AList fun _ : Str => Str) := by
    simp [EdgeLLMRAGSystem.add_to_cache, hfull]
  refine ⟨by rw [hc]; rfl, ?_⟩
  intro old hold
  have hne : old ≠ query := fun h => hnew (h ▸ hold)
  have hnone : AList.lookup old (AList.singleton query response : AList fun _ : Str => Str)
      = none := by
    rw [← AList.insert_empty, AList.lookup_insert_ne hne, AList.lookup_empty]
  simp only [EdgeLLMRAGSystem.get_from_cache, hc, hnone]

/-- C8 (amended): when the cache holds fewer than 100 entries, `add_to_cache` keeps every
entry stored under a different key, with the same value. -/
theorem add_to_cache_keeps_other_entries (s : EdgeLLMRAGSystem) (query response key : Str)
    (hroom : s.cache_size < 100) (hkey : key ≠ query) :
    (s.add_to_cache query response).2.query_cache_.lookup key = s.query_cache_.lookup key := by
  have h : ¬ 100 ≤ s.cache_size := by omega
  simp [EdgeLLMRAGSystem.add_to_cache, h, AList.lookup_insert_ne hkey]

/-- C9: after `add_to_cache(q, r1)` and then `add_to_cache(q, r2)` the cache answers `q`
with `r2`, and `q` is a key exactly once. -/
theorem add_to_cache_last_write_wins (s : EdgeLLMRAGSystem) (q r1 r2 : Str) :
    ((s.add_to_cache q r1).2.add_to_cache q r2).2.get_from_cache q = r2
    ∧ ((s.add_to_cache q r1).2.add_to_cache q r2).2.query_cache_.lookup q = some r2
    ∧ (((s.add_to_cache q r1).2.add_to_cache q r2).2.query_cache_.keys.filter
        fun key => decide (key = q)) = [q] := by
  have hl := EdgeLLMRAGSystem.lookup_add_to_cache (s.add_to_cache q r1).2 q r2
  refine ⟨by simp [EdgeLLMRAGSystem.get_from_cache, hl], hl, ?_⟩
  have hmem : q ∈ ((s.add_to_cache q r1).2.add_to_cache q r2).2.query_cache_.keys := by
    rw [← AList.mem_keys, ← AList.lookup_isSome, hl]
    rfl
  have hnd := AList.keys_nodup ((s.add_to_cache q r1).2.add_to_cache q r2).2.query_cache_
  rw [List.filter_eq, List.count_eq_one_of_mem hnd hmem]
  rfl

/-- C10: on an initialized orchestrator and a cache miss, when `process_query` returns
an answer the cache maps the query text to that answer. -/
theorem process_query_caches_answer (s : EdgeLLMRAGSystem) (env : Collaborators)
    (query user_id context answer : Str)
    (hinit : s.is_initialized_ = true) (hmiss : s.get_from_cache query = [])
    (hret : (s.process_query env query user_id context).1 = some answer) :
    (s.process_query env query user_id context).2.query_cache_.lookup query = some answer
    ∧ (s.process_query env query user_id context).2.get_from_cache query = answer := by
  rw [EdgeLLMRAGSystem.process_query_of_miss s env query user_id context hinit hmiss] at hret ⊢
  have hl := EdgeLLMRAGSystem.store_outcome_lookup _ query answer hret
  exact ⟨hl, by simp only [EdgeLLMRAGSystem.get_from_cache, hl]⟩

theorem process_query_dispatch_witness :
    ready.is_initialized_ = true ∧ ready.get_from_cache (utf8 "你好") = []
    ∧ (ready.classify_query (utf8 "你好")).query_type = .UNKNOWN_QUERY
    ∧ (ready.process_query (plain_collaborators (utf8 "ok")) (utf8 "你好") [] []).1
        = (ready.hybrid_response (plain_collaborators (utf8 "ok")) (utf8 "你好")).1 :=
  ⟨rfl, rfl, by decide!,
    ((process_query_dispatch ready (plain_collaborators (utf8 "ok")) (utf8 "你好") [] []
      rfl rfl).2.2 (Or.inr (by decide!))).1⟩

theorem process_query_uninitialized_witness :
    EdgeLLMRAGSystem.constructed.is_initialized_ = false
    ∧ EdgeLLMRAGSystem.constructed.process_query (plain_collaborators []) (utf8 "你好") [] []
        = (some (utf8 "系统未初始化"), EdgeLLMRAGSystem.constructed) :=
  ⟨rfl, process_query_uninitialized EdgeLLMRAGSystem.constructed (plain_collaborators [])
    (utf8 "你好") [] [] rfl⟩

/-- C5 (counterexample): `"你好"` is a key of the cache of `after_empty_answer`, stored with
the empty answer; processing it again sends new requests, returns `"later"` instead of
the stored answer and changes the cache. -/
theorem cached_empty_answer_is_recomputed :
    after_empty_answer.is_initialized_ = true
    ∧ after_empty_answer.query_cache_.lookup (utf8 "你好") = some []
    ∧ (after_empty_answer.process_query changing_collaborators (utf8 "你好") [] []).1
        = some (utf8 "later")
    ∧ (after_empty_answer.process_query changing_collaborators (utf8 "你好") [] []).2.requests
        ≠ after_empty_answer.requests
    ∧ (after_empty_answer.process_query changing_collaborators (utf8 "你好") [] []
        ).2.query_cache_.lookup (utf8 "你好") = some (utf8 "later") := by
  decide!

theorem process_query_cache_hit_witness :
    full.is_initialized_ = true
    ∧ full.query_cache_.lookup [byte 7] = some (utf8 "answer")
    ∧ full.process_query (plain_collaborators []) [byte 7] [] [] = (some (utf8 "answer"), full) :=
  ⟨rfl, by decide, process_query_cache_hit full (plain_collaborators []) [byte 7] [] []
    (utf8 "answer") rfl (by decide) (by decide)⟩

theorem add_to_full_cache_clears_witness :
    full.cache_size = 100 ∧ utf8 "new" ∉ full.query_cache_
    ∧ (full.add_to_cache (utf8 "new") (utf8 "text")).2.query_cache_.entries
        = [⟨utf8 "new", utf8 "text"⟩]
    ∧ ∀ old ∈ full.query_cache_,
        (full.add_to_cache (utf8 "new") (utf8 "text")).2.get_from_cache old = [] :=
  ⟨by decide!, by decide!,
    add_to_full_cache_clears full (utf8 "new") (utf8 "text") (by decide!) (by decide!)⟩

/-- C8 (counterexample): the cache of `full` holds 100 entries and `[0]` is one of its
keys, so that assigning `[0]` would leave 100 entries; yet `add_to_cache` drops the
entry stored under the other key `[1]`. -/
theorem add_to_cache_existing_key_at_capacity_clears :
    full.cache_size = 100 ∧ [byte 0] ∈ full.query_cache_ ∧ ([byte 1] : Str) ≠ [byte 0]
    ∧ full.query_cache_.lookup [byte 1] = some (utf8 "answer")
    ∧ (full.add_to_cache [byte 0] (utf8 "text")).2.query_cache_.lookup [byte 1] = none := by
  decide!

theorem add_to_cache_keeps_other_entries_witness :
    one_entry.cache_size < 100 ∧ utf8 "a" ≠ utf8 "c"
    ∧ (one_entry.add_to_cache (utf8 "c") (utf8 "d")).2.query_cache_.lookup (utf8 "a")
        = one_entry.query_cache_.lookup (utf8 "a")
    ∧ one_entry.query_cache_.lookup (utf8 "a") = some (utf8 "b") :=
  ⟨by decide, by decide,
    add_to_cache_keeps_other_entries one_entry (utf8 "c") (utf8 "d") (utf8 "a")
      (by decide) (by decide), by decide⟩

theorem process_query_caches_answer_witness :
    ready.is_initialized_ = true ∧ ready.get_from_cache (utf8 "你好") = []
    ∧ (ready.process_query (plain_collaborators (utf8 "ok")) (utf8 "你好") [] []).1
        = some (utf8 "ok")
    ∧ (ready.process_query (plain_collaborators (utf8 "ok")) (utf8 "你好") [] []
        ).2.query_cache_.lookup (utf8 "你好") = some (utf8 "ok") :=
  ⟨rfl, rfl, by decide!,
    (process_query_caches_answer ready (plain_collaborators (utf8 "ok")) (utf8 "你好") [] []
      (utf8 "ok") rfl rfl (by decide!)).1⟩

/-! ## Requests sent by the strategies -/

namespace EdgeLLMRAGSystem

theorem send_chunks_requests (env : Collaborators) (chunks : List Str) (s : EdgeLLMRAGSystem) :
    ∃ sent : List Str, sent <+: chunks
      ∧ (send_chunks env chunks s).2.requests = s.requests ++ sent.map .tts
      ∧ ((send_chunks env chunks s).1 = some () → sent = chunks) := by
  induction chunks generalizing s with
  | nil => exact ⟨[], List.prefix_refl _, by simp [send_chunks], fun _ => rfl⟩
  | cons chunk rest ih =>
    simp only [send_chunks]
    split
    · exact ⟨[chunk], by simp, by simp, fun h => by simp at h⟩
    · obtain ⟨sent, h0, h1, h2⟩ := ih { s with requests := s.requests ++ [.tts chunk] }
      exact ⟨chunk :: sent, by simpa using h0, by simp [h1], fun h => by rw [h2 h]⟩

theorem rag_message_worker_requests (s : EdgeLLMRAGSystem) (env : Collaborators)
    (rag_text : Str) :
    ∃ sent : List Str,
      (s.rag_message_worker env rag_text).2.requests = s.requests ++ sent.map .tts
      ∧ ((s.rag_message_worker env rag_text).1 = some () → speech_chunks rag_text = some sent)
      ∧ (speech_chunks rag_text = none → sent = [])
      ∧ (∀ chunks, speech_chunks rag_text = some chunks → sent <+: chunks) := by
  simp only [rag_message_worker]
  split
  · next hc =>
    exact ⟨[], by simp, fun h => by simp at h, fun _ => rfl,
      fun chunks h => by rw [hc] at h; exact Option.noConfusion h⟩
  · next chunks hc =>
    obtain ⟨sent, h0, h1, h2⟩ := send_chunks_requests env chunks s
    refine ⟨sent, h1, fun h => by rw [h2 h]; exact hc, fun h => ?_, fun chunks2 h => ?_⟩
    · rw [hc] at h
      exact Option.noConfusion h
    · rw [hc] at h
      rw [← Option.some.inj h]
      exact h0

theorem foldl_text_eq_last (results : List SearchResult) (last : SearchResult) (init : Str)
    (h : results.getLast? = some last) :
    results.foldl (fun _ item => item.text) init = last.text := by
  induction results generalizing init with
  | nil => simp at h
  | cons item rest ih =>
    cases rest with
    | nil =>
      simp at h
      simp [h]
    | cons item2 rest2 =>
      rw [List.getLast?_cons_cons] at h
      rw [List.foldl_cons]
      exact ih _ h

theorem rag_only_response_preload (s : EdgeLLMRAGSystem) (env : Collaborators) (query : Str) :
    (s.rag_only_response env query true).2
      = { s with requests := s.requests ++ [.search query 1 (1 / 2)] } := by
  simp only [rag_only_response]
  split
  · rfl
  · split <;> rfl

theorem rag_only_response_of_results (s : EdgeLLMRAGSystem) (env : Collaborators)
    (query : Str) (preload : Bool) (results : List SearchResult) (last : SearchResult)
    (hs : env.search s.requests query 1 (1 / 2) = some results)
    (hl : results.getLast? = some last) :
    s.rag_only_response env query preload =
      if preload then
        (some last.text, { s with requests := s.requests ++ [.search query 1 (1 / 2)] })
      else
        (((rag_message_worker { s with requests := s.requests ++ [.search query 1 (1 / 2)] }
            env last.text).1.map fun _ => last.text),
          (rag_message_worker { s with requests := s.requests ++ [.search query 1 (1 / 2)] }
            env last.text).2) := by
  have hne : results.length ≠ 0 := by
    intro h0
    rw [List.length_eq_zero] at h0
    rw [h0] at hl
    exact Option.noConfusion hl
  have hf := foldl_text_eq_last results last [] hl
  unfold rag_only_response
  simp only [hs, hne, if_false, hf]
  cases preload
  · simp only [Bool.not_false, if_true, Bool.false_eq_true, if_false]
    generalize rag_message_worker _ env last.text = o
    rcases o with ⟨_ | u, s2⟩ <;> rfl
  · rfl

theorem rag_only_response_of_no_results (s : EdgeLLMRAGSystem) (env : Collaborators)
    (query : Str) (preload : Bool)
    (hs : env.search s.requests query 1 (1 / 2) = some []) :
    s.rag_only_response env query preload =
      (some (utf8 "No results !!!"),
        { s with requests := s.requests ++ [.search query 1 (1 / 2)] }) := by
  unfold rag_only_response
  simp only [hs, List.length_nil, if_true]

theorem rag_only_response_of_failure (s : EdgeLLMRAGSystem) (env : Collaborators)
    (query : Str) (preload : Bool)
    (hs : env.search s.requests query 1 (1 / 2) = none) :
    s.rag_only_response env query preload =
      (none, { s with requests := s.requests ++ [.search query 1 (1 / 2)] }) := by
  unfold rag_only_response
  simp only [hs]

theorem rag_only_response_requests (s : EdgeLLMRAGSystem) (env : Collaborators) (query : Str)
    (preload : Bool) :
    ∃ sent : List Str, (s.rag_only_response env query preload).2.requests
      = s.requests ++ .search query 1 (1 / 2) :: sent.map .tts := by
  cases hs : env.search s.requests query 1 (1 / 2) with
  | none =>
    rw [rag_only_response_of_failure s env query preload hs]
    exact ⟨[], rfl⟩
  | some results =>
    cases hl : results.getLast? with
    | none =>
      have h0 : results = [] := List.getLast?_eq_none_iff.mp hl
      rw [h0] at hs
      rw [rag_only_response_of_no_results s env query preload hs]
      exact ⟨[], rfl⟩
    | some last =>
      rw [rag_only_response_of_results s env query preload results last hs hl]
      cases preload
      · obtain ⟨sent, h1, _⟩ := rag_message_worker_requests
          { s with requests := s.requests ++ [.search query 1 (1 / 2)] } env last.text
        refine ⟨sent, ?_⟩
        simp only [Bool.false_eq_true, if_false]
        rw [h1, List.append_assoc]
        rfl
      · exact ⟨[], rfl⟩

end EdgeLLMRAGSystem

/-! ## Strategies -/

/-- C11 (amended): once the candidate is obtained, `hybrid_response` asks the generative
model exactly once; the prompt is the query alone when the candidate contains the text
`"No results"`, and `query + "<rag>" + candidate` otherwise; the completion is returned. -/
theorem hybrid_response_contract (s s1 : EdgeLLMRAGSystem) (env : Collaborators)
    (query candidate : Str)
    (hc : s.rag_only_response env query true = (some candidate, s1)) :
    (utf8 "No results" <:+: candidate →
      s.hybrid_response env query = s1.llm_only_response env query
      ∧ (s.hybrid_response env query).2.requests
        = s.requests ++ [.search query 1 (1 / 2), .llm query])
    ∧ (¬ utf8 "No results" <:+: candidate →
      s.hybrid_response env query
        = s1.llm_only_response env (query ++ utf8 "<rag>" ++ candidate)
      ∧ (s.hybrid_response env query).2.requests
        = s.requests ++ [.search query 1 (1 / 2), .llm (query ++ utf8 "<rag>" ++ candidate)]) := by
  have hs1 : s1 = { s with requests := s.requests ++ [.search query 1 (1 / 2)] } := by
    have h := EdgeLLMRAGSystem.rag_only_response_preload s env query
    rw [hc] at h
    exact h
  have hreq : s1.requests = s.requests ++ [.search query 1 (1 / 2)] := by rw [hs1]
  refine ⟨?_, ?_⟩
  · intro h
    have hb : str_contains candidate (utf8 "No results") = true := (str_contains_iff _ _).mpr h
    have he : s.hybrid_response env query = s1.llm_only_response env query := by
      simp only [EdgeLLMRAGSystem.hybrid_response, hc, hb, if_true]
    refine ⟨he, ?_⟩
    rw [he]
    simp only [EdgeLLMRAGSystem.llm_only_response, hreq, List.append_assoc, List.singleton_append]
  · intro h
    have hb : str_contains candidate (utf8 "No results") = false := by
      cases hb : str_contains candidate (utf8 "No results")
      · rfl
      · exact absurd ((str_contains_iff _ _).mp hb) h
    have he : s.hybrid_response env query
        = s1.llm_only_response env (query ++ utf8 "<rag>" ++ candidate) := by
      simp only [EdgeLLMRAGSystem.hybrid_response, hc, hb, Bool.false_eq_true, if_false]
    refine ⟨he, ?_⟩
    rw [he]
    simp only [EdgeLLMRAGSystem.llm_only_response, hreq, List.append_assoc, List.singleton_append]

theorem hybrid_response_contract_witness :
    ready.rag_only_response (retrieving_collaborators [item_with_text (utf8 "机油每年更换")])
        (utf8 "你好") true
      = (some (utf8 "机油每年更换"),
          (ready.rag_only_response (retrieving_collaborators [item_with_text (utf8 "机油每年更换")])
            (utf8 "你好") true).2)
    ∧ ¬ utf8 "No results" <:+: utf8 "机油每年更换"
    ∧ (ready.hybrid_response (retrieving_collaborators [item_with_text (utf8 "机油每年更换")])
        (utf8 "你好")).2.requests
      = ready.requests ++ [.search (utf8 "你好") 1 (1 / 2),
          .llm (utf8 "你好" ++ utf8 "<rag>" ++ utf8 "机油每年更换")] :=
  ⟨rfl, by decide,
    ((hybrid_response_contract ready _ (retrieving_collaborators
      [item_with_text (utf8 "机油每年更换")]) (utf8 "你好") (utf8 "机油每年更换") rfl).2
        (by decide)).2⟩

/-- C11 (counterexample): the retrieved text `"No results yet"` does not contain the
sentinel `"No results !!!"`, yet `hybrid_response` sends the query alone to the
generative model. -/
theorem hybrid_falls_back_without_sentinel :
    (ready.rag_only_response (retrieving_collaborators [item_with_text (utf8 "No results yet")])
        (utf8 "你好") true).1 = some (utf8 "No results yet")
    ∧ ¬ utf8 "No results !!!" <:+: utf8 "No results yet"
    ∧ (ready.hybrid_response (retrieving_collaborators [item_with_text (utf8 "No results yet")])
        (utf8 "你好")).2.requests
      = [.search (utf8 "你好") 1 (1 / 2), .llm (utf8 "你好")] := by
  decide!

/-- C12: `rag_only_response` sends exactly one search request, with `top_k = 1` and
threshold `0.5`, and besides it only speech chunks; on an empty result it returns the
sentinel and sends nothing else; on a non-empty result every answer it returns is the
text of the last item, which it returns as soon as the streaming (if any) succeeds. -/
theorem rag_only_response_contract (s : EdgeLLMRAGSystem) (env : Collaborators)
    (query : Str) (preload : Bool) :
    (∃ chunks : List Str, (s.rag_only_response env query preload).2.requests
        = s.requests ++ .search query 1 (1 / 2) :: chunks.map .tts)
    ∧ (env.search s.requests query 1 (1 / 2) = some [] →
        s.rag_only_response env query preload
          = (some (utf8 "No results !!!"),
              { s with requests := s.requests ++ [.search query 1 (1 / 2)] }))
    ∧ (∀ results last, env.search s.requests query 1 (1 / 2) = some results →
        results.getLast? = some last →
        (∀ answer, (s.rag_only_response env query preload).1 = some answer →
          answer = last.text)
        ∧ (preload = true → (s.rag_only_response env query preload).1 = some last.text)
        ∧ (preload = false →
          (EdgeLLMRAGSystem.rag_message_worker
            { s with requests := s.requests ++ [.search query 1 (1 / 2)] } env last.text).1
              = some () →
          (s.rag_only_response env query preload).1 = some last.text)) := by
  refine ⟨EdgeLLMRAGSystem.rag_only_response_requests s env query preload,
    EdgeLLMRAGSystem.rag_only_response_of_no_results s env query preload, ?_⟩
  intro results last hs hl
  rw [EdgeLLMRAGSystem.rag_only_response_of_results s env query preload results last hs hl]
  refine ⟨?_, ?_, ?_⟩
  · intro answer h
    cases preload
    · simp only [Bool.false_eq_true, if_false, Option.map_eq_some'] at h
      obtain ⟨_, _, h⟩ := h
      exact h.symm
    · simp only [if_true, Option.some.injEq] at h
      exact h.symm
  · intro hp
    rw [hp]
    rfl
  · intro hp hw
    rw [hp]
    simp only [Bool.false_eq_true, if_false, hw, Option.map_some']

theorem rag_only_response_contract_witness :
    (retrieving_collaborators [item_with_text (utf8 "first"), item_with_text (utf8 "second")]
        ).search ready.requests (utf8 "你好") 1 (1 / 2)
      = some [item_with_text (utf8 "first"), item_with_text (utf8 "second")]
    ∧ (ready.rag_only_response (retrieving_collaborators
        [item_with_text (utf8 "first"), item_with_text (utf8 "second")])
        (utf8 "你好") true).1 = some (utf8 "second") :=
  ⟨rfl, ((rag_only_response_contract ready (retrieving_collaborators
      [item_with_text (utf8 "first"), item_with_text (utf8 "second")]) (utf8 "你好") true).2.2
      [item_with_text (utf8 "first"), item_with_text (utf8 "second")]
      (item_with_text (utf8 "second")) rfl rfl).2.1 rfl⟩

/-! ## Rounding to binary32 is monotone -/

theorem roundNearestEven_mono (den a b : Nat) (h : a ≤ b) :
    roundNearestEven a den ≤ roundNearestEven b den := by
  have hq : a / den ≤ b / den := Nat.div_le_div_right h
  unfold roundNearestEven
  simp only []
  rcases Nat.lt_or_ge (a / den) (b / den) with hlt | hge
  · split_ifs <;> omega
  · have heq : a / den = b / den := Nat.le_antisymm hq hge
    have hr : a % den ≤ b % den := by
      have ha := Nat.div_add_mod a den
      have hb := Nat.div_add_mod b den
      rw [heq] at ha
      omega
    rw [heq]
    split_ifs <;> omega

theorem roundNearestEven_exact (den k : Nat) (hden : 0 < den) :
    roundNearestEven (k * den) den = k := by
  unfold roundNearestEven
  simp only [Nat.mul_div_cancel k hden, Nat.mul_mod_left, Nat.mul_zero, hden, if_true]

theorem F32.excess_acc (fuel q s : Nat) : F32.excess fuel q s = s + F32.excess fuel q 0 := by
  induction fuel generalizing q s with
  | zero => simp [F32.excess]
  | succ fuel ih =>
    simp only [F32.excess]
    split
    · simp
    · rw [ih (q / 2) (s + 1), ih (q / 2) (0 + 1)]
      omega

theorem F32.excess_spec (fuel q : Nat) (h : q < 2 ^ (24 + fuel)) :
    q < 2 ^ (24 + F32.excess fuel q 0)
      ∧ (F32.excess fuel q 0 = 0 ∨ 2 ^ (23 + F32.excess fuel q 0) ≤ q) := by
  induction fuel generalizing q with
  | zero => exact ⟨by simpa [F32.excess] using h, Or.inl rfl⟩
  | succ fuel ih =>
    simp only [F32.excess]
    split
    · next hlt => exact ⟨by simpa using hlt, Or.inl rfl⟩
    · next hge =>
      rw [F32.excess_acc]
      have hq2 : q / 2 < 2 ^ (24 + fuel) := by
        have : 2 ^ (24 + (fuel + 1)) = 2 * 2 ^ (24 + fuel) := by ring
        omega
      obtain ⟨h1, h2⟩ := ih (q / 2) hq2
      generalize F32.excess fuel (q / 2) 0 = e at h1 h2
      have e1 : 2 ^ (24 + (0 + 1 + e)) = 2 * 2 ^ (24 + e) := by ring
      have e2 : 2 ^ (23 + (0 + 1 + e)) = 2 * 2 ^ (23 + e) := by ring
      refine ⟨by omega, Or.inr ?_⟩
      rcases h2 with h0 | hle
      · subst h0
        simp only [Nat.add_zero] at *
        omega
      · omega

theorem F32.excess_self_spec (q : Nat) :
    q < 2 ^ (24 + F32.excess q q 0)
      ∧ (F32.excess q q 0 = 0 ∨ 2 ^ (23 + F32.excess q q 0) ≤ q) := by
  apply F32.excess_spec
  calc q < 2 ^ q := Nat.lt_two_pow q
    _ ≤ 2 ^ (24 + q) := Nat.pow_le_pow_right (by decide) (by omega)

theorem F32.excess_mono (a b : Nat) (h : a ≤ b) : F32.excess a a 0 ≤ F32.excess b b 0 := by
  obtain ⟨_, ha2⟩ := F32.excess_self_spec a
  obtain ⟨hb1, _⟩ := F32.excess_self_spec b
  by_contra hlt
  have hlt : F32.excess b b 0 + 1 ≤ F32.excess a a 0 := by omega
  rcases ha2 with h0 | hle
  · omega
  · have : 2 ^ (24 + F32.excess b b 0) ≤ 2 ^ (23 + F32.excess a a 0) :=
      Nat.pow_le_pow_right (by decide) (by omega)
    omega

theorem F32.round_mono (den a b : Nat) (hden : 0 < den) (h : a ≤ b) :
    (F32.round a den).ulps ≤ (F32.round b den).ulps := by
  have hq : a / den ≤ b / den := Nat.div_le_div_right h
  have hs := F32.excess_mono _ _ hq
  obtain ⟨ha1, _⟩ := F32.excess_self_spec (a / den)
  obtain ⟨_, hb2⟩ := F32.excess_self_spec (b / den)
  simp only [F32.round]
  generalize F32.excess (a / den) (a / den) 0 = s1 at *
  generalize F32.excess (b / den) (b / den) 0 = s2 at *
  rcases Nat.eq_or_lt_of_le hs with heq | hlt
  · subst heq
    exact Nat.mul_le_mul_right _ (roundNearestEven_mono _ _ _ h)
  · have hD1 : 0 < den * 2 ^ s1 := Nat.mul_pos hden (Nat.two_pow_pos _)
    have hD2 : 0 < den * 2 ^ s2 := Nat.mul_pos hden (Nat.two_pow_pos _)
    -- the smaller value rounds to at most `2 ^ (24 + s1)`
    have hA : a ≤ 2 ^ 24 * (den * 2 ^ s1) := by
      have h1 : a < (a / den + 1) * den := by
        have := Nat.div_add_mod a den
        have := Nat.mod_lt a hden
        nlinarith
      have h2 : (a / den + 1) * den ≤ 2 ^ (24 + s1) * den := Nat.mul_le_mul_right _ ha1
      have h3 : 2 ^ (24 + s1) * den = 2 ^ 24 * (den * 2 ^ s1) := by ring
      omega
    have hRA : roundNearestEven a (den * 2 ^ s1) ≤ 2 ^ 24 := by
      have := roundNearestEven_mono (den * 2 ^ s1) _ _ hA
      rwa [roundNearestEven_exact _ _ hD1] at this
    -- the larger value rounds to at least `2 ^ (23 + s2)`
    have hb2 : 2 ^ (23 + s2) ≤ b / den := by
      rcases hb2 with h0 | hle
      · omega
      · exact hle
    have hB : 2 ^ 23 * (den * 2 ^ s2) ≤ b := by
      have h1 : b / den * den ≤ b := Nat.div_mul_le_self b den
      have h2 : 2 ^ (23 + s2) * den ≤ b / den * den := Nat.mul_le_mul_right _ hb2
      have h3 : 2 ^ (23 + s2) * den = 2 ^ 23 * (den * 2 ^ s2) := by ring
      omega
    have hRB : 2 ^ 23 ≤ roundNearestEven b (den * 2 ^ s2) := by
      have := roundNearestEven_mono (den * 2 ^ s2) _ _ hB
      rwa [roundNearestEven_exact _ _ hD2] at this
    calc roundNearestEven a (den * 2 ^ s1) * 2 ^ s1
        ≤ 2 ^ 24 * 2 ^ s1 := Nat.mul_le_mul_right _ hRA
      _ = 2 ^ (24 + s1) := by ring
      _ ≤ 2 ^ (23 + s2) := Nat.pow_le_pow_right (by decide) (by omega)
      _ = 2 ^ 23 * 2 ^ s2 := by ring
      _ ≤ roundNearestEven b (den * 2 ^ s2) * 2 ^ s2 := Nat.mul_le_mul_right _ hRB

theorem F32.ofNat_mono (a b : Nat) (h : a ≤ b) : (F32.ofNat a).ulps ≤ (F32.ofNat b).ulps :=
  F32.round_mono 1 _ _ (by decide) (Nat.mul_le_mul_right _ h)

theorem F32.mul_mono (a b c : F32) (h : a.ulps ≤ b.ulps) :
    (F32.mul a c).ulps ≤ (F32.mul b c).ulps :=
  F32.round_mono _ _ _ (Nat.two_pow_pos _) (Nat.mul_le_mul_right _ h)

theorem F32.add_mono (a b c d : F32) (h1 : a.ulps ≤ b.ulps) (h2 : c.ulps ≤ d.ulps) :
    (F32.add a c).ulps ≤ (F32.add b d).ulps :=
  F32.round_mono 1 _ _ (by decide) (Nat.add_le_add h1 h2)

theorem F32.min_le_left (a b : F32) : (F32.min a b).ulps ≤ a.ulps := by
  simp only [F32.min, F32.lt]
  split
  · next h => exact Nat.le_of_lt (of_decide_eq_true h)
  · exact Nat.le_refl _

theorem F32.min_le_right (a b : F32) : (F32.min a b).ulps ≤ b.ulps := by
  simp only [F32.min, F32.lt]
  split
  · exact Nat.le_refl _
  · next h =>
    have : ¬ b.ulps < a.ulps := fun hlt => h (decide_eq_true hlt)
    omega

theorem F32.min_mono (a b c : F32) (h : b.ulps ≤ c.ulps) :
    (F32.min a b).ulps ≤ (F32.min a c).ulps := by
  simp only [F32.min, F32.lt]
  split <;> split <;> simp_all <;> omega

/-! ## Scores -/

theorem foldl_count (p : Str → Bool) (keywords : List Str) (init : Nat) :
    keywords.foldl (fun n keyword => if p keyword then n + 1 else n) init
      = init + keywords.countP p := by
  induction keywords generalizing init with
  | nil => simp
  | cons k rest ih =>
    rw [List.foldl_cons, ih, List.countP_cons]
    by_cases hp : p k = true <;> simp [hp]
    omega

theorem calculate_urgency_score_eq (keywords : List Str) :
    calculate_urgency_score keywords
      = urgency_of_count (keywords.countP (in_category .emergency)) := by
  simp only [calculate_urgency_score, urgency_of_count, foldl_count, Nat.zero_add]

theorem F32.one_ulps : (F32.lit 1 1).ulps = 2 ^ 149 := by decide!

theorem F32.zero_ulps : (F32.lit 0 1).ulps = 0 := by decide!

theorem F32.ge_of_le (a b : F32) (h : b.ulps ≤ a.ulps) : F32.ge a b = true :=
  decide_eq_true h

theorem F32.le_of_ge (a b : F32) (h : F32.ge a b = true) : b.ulps ≤ a.ulps :=
  of_decide_eq_true h

theorem F32.lt_of_lt (a b : F32) (h : a.ulps < b.ulps) : F32.lt a b = true :=
  decide_eq_true h

theorem F32.lt_false_of_le (a b : F32) (h : b.ulps ≤ a.ulps) : F32.lt a b = false :=
  decide_eq_false (Nat.not_lt.mpr h)

theorem urgency_of_count_mono (n m : Nat) (h : n ≤ m) :
    (urgency_of_count n).ulps ≤ (urgency_of_count m).ulps :=
  F32.min_mono _ _ _ (F32.mul_mono _ _ _ (F32.ofNat_mono n m h))

theorem urgency_of_count_saturated (n : Nat) (h : 4 ≤ n) :
    urgency_of_count n = F32.lit 1 1 := by
  have h4 : (F32.lit 1 1).ulps ≤ (F32.mul (F32.ofNat 4) (F32.lit 3 10)).ulps := by decide!
  have hn := F32.mul_mono _ _ (F32.lit 3 10) (F32.ofNat_mono 4 n h)
  have hle : (F32.lit 1 1).ulps ≤ (F32.mul (F32.ofNat n) (F32.lit 3 10)).ulps :=
    Nat.le_trans h4 hn
  unfold urgency_of_count F32.min
  rw [F32.lt_false_of_le _ _ hle]
  rfl

theorem urgency_of_count_below_one (n : Nat) (h : n ≤ 3) :
    F32.lt (urgency_of_count n) (F32.lit 1 1) = true := by
  have hall : ∀ k, k < 4 → F32.lt (urgency_of_count k) (F32.lit 1 1) = true := by decide!
  exact hall n (by omega)

/-- C18: the four scores of `analyze_query_features` lie between `0.0f` and `1.0f`. -/
theorem scores_within_unit_interval (qc : QueryClassifier) (query : Str) :
    (F32.lit 0 1).ulps = 0 ∧ (F32.lit 1 1).ulps = 2 ^ 149
    ∧ F32.ge (qc.analyze_query_features query).urgency_score (F32.lit 0 1) = true
    ∧ F32.ge (F32.lit 1 1) (qc.analyze_query_features query).urgency_score = true
    ∧ F32.ge (qc.analyze_query_features query).complexity_score (F32.lit 0 1) = true
    ∧ F32.ge (F32.lit 1 1) (qc.analyze_query_features query).complexity_score = true
    ∧ F32.ge (qc.analyze_query_features query).factual_score (F32.lit 0 1) = true
    ∧ F32.ge (F32.lit 1 1) (qc.analyze_query_features query).factual_score = true
    ∧ F32.ge (qc.analyze_query_features query).creative_score (F32.lit 0 1) = true
    ∧ F32.ge (F32.lit 1 1) (qc.analyze_query_features query).creative_score = true := by
  have h0 : ∀ x : F32, F32.ge x (F32.lit 0 1) = true := fun x =>
    F32.ge_of_le _ _ (by rw [F32.zero_ulps]; exact Nat.zero_le _)
  have h1 : ∀ x : F32, F32.ge (F32.lit 1 1) (F32.min (F32.lit 1 1) x) = true := fun x =>
    F32.ge_of_le _ _ (F32.min_le_left _ _)
  refine ⟨F32.zero_ulps, F32.one_ulps, h0 _, ?_, h0 _, ?_, h0 _, ?_, h0 _, ?_⟩
  · simp only [QueryClassifier.analyze_query_features, calculate_urgency_score]
    exact h1 _
  · simp only [QueryClassifier.analyze_query_features, calculate_complexity_score]
    exact h1 _
  · simp only [QueryClassifier.analyze_query_features, calculate_factual_score]
    exact h1 _
  · simp only [QueryClassifier.analyze_query_features, calculate_creative_score]
    exact h1 _

/-- C19: the urgency score is `min(1, 0.3 × n)` in binary32 arithmetic, `n` being the
number of extracted keywords that belong to the emergency category; it is non-decreasing
in `n`, equals `1.0f` from `n = 4` on and is below `1.0f` up to `n = 3`. -/
theorem urgency_score_of_emergency_count (qc : QueryClassifier) (query : Str) :
    (qc.analyze_query_features query).urgency_score
      = urgency_of_count ((qc.extract_keywords query).countP (in_category .emergency))
    ∧ (∀ n m, n ≤ m → F32.ge (urgency_of_count m) (urgency_of_count n) = true)
    ∧ (∀ n, 4 ≤ n → urgency_of_count n = F32.lit 1 1)
    ∧ (∀ n, n ≤ 3 → F32.lt (urgency_of_count n) (F32.lit 1 1) = true) := by
  refine ⟨?_, ?_, urgency_of_count_saturated, urgency_of_count_below_one⟩
  · simp only [QueryClassifier.analyze_query_features]
    exact calculate_urgency_score_eq _
  intro n m h
  exact F32.ge_of_le _ _ (urgency_of_count_mono n m h)

theorem urgency_score_of_emergency_count_witness :
    (3 : Nat) ≤ 5 ∧ (4 : Nat) ≤ 5 ∧ (3 : Nat) ≤ 3
    ∧ F32.ge (urgency_of_count 5) (urgency_of_count 3) = true
    ∧ urgency_of_count 5 = F32.lit 1 1
    ∧ F32.lt (urgency_of_count 3) (F32.lit 1 1) = true :=
  ⟨by decide, by decide, by decide,
    (urgency_score_of_emergency_count sample_classifier (utf8 "故障")).2.1 3 5 (by decide),
    (urgency_score_of_emergency_count sample_classifier (utf8 "故障")).2.2.1 5 (by decide),
    (urgency_score_of_emergency_count sample_classifier (utf8 "故障")).2.2.2 3 (by decide)⟩

/-! ## End-to-end properties of `process_query` -/

theorem Category.mem_iteration (qc : QueryClassifier) (c : Category) : c ∈ qc.iteration := by
  rw [qc.iteration_perm.mem_iff]
  cases c <;> decide

theorem emergency_count_pos (qc : QueryClassifier) (query : Str)
    (h : ∃ w ∈ keyword_dict_ .emergency, w <:+: query) :
    1 ≤ (qc.extract_keywords query).countP (in_category .emergency) := by
  obtain ⟨w, hw, hin⟩ := h
  apply List.countP_pos_iff.mpr
  refine ⟨w, ?_, ?_⟩
  · simp only [QueryClassifier.extract_keywords, List.mem_flatMap, List.mem_filter]
    exact ⟨.emergency, Category.mem_iteration qc _, hw, (str_contains_iff _ _).mpr hin⟩
  · simp only [in_category, List.contains_iff_exists_mem_beq]
    exact ⟨w, hw, by simp⟩

theorem extract_keywords_eq_nil (qc : QueryClassifier) (query : Str)
    (h : ∀ c, ∀ w ∈ keyword_dict_ c, ¬ w <:+: query) : qc.extract_keywords query = [] := by
  simp only [QueryClassifier.extract_keywords, List.flatMap_eq_nil_iff, List.filter_eq_nil_iff]
  intro c _ w hw hc
  exact h c w hw ((str_contains_iff _ _).mp hc)

theorem detect_words_eq_false (query : Str) (c : Category)
    (h : ∀ c, ∀ w ∈ keyword_dict_ c, ¬ w <:+: query) : detect_words c query = false := by
  cases hd : detect_words c query
  · rfl
  · obtain ⟨w, hw, hin⟩ := (detect_words_iff c query).mp hd
    exact absurd hin (h c w hw)

theorem complexity_without_keywords_le (query : Str) :
    (calculate_complexity_score query []).ulps ≤ (F32.lit 3 10).ulps := by
  have e1 : F32.mul (F32.lit 1 1) (F32.lit 3 10) = F32.lit 3 10 := by decide!
  have e2 : F32.add (F32.lit 0 1) (F32.lit 3 10) = F32.lit 3 10 := by decide!
  have e3 : F32.add (F32.lit 3 10)
      (F32.mul (F32.min (F32.lit 1 1) (F32.div (F32.ofNat 0) (F32.lit 10 1))) (F32.lit 4 10))
      = F32.lit 3 10 := by decide!
  have e4 : F32.add (F32.lit 3 10)
      (F32.mul (F32.min (F32.lit 1 1) (F32.div (F32.ofNat 0) (F32.lit 5 1))) (F32.lit 3 10))
      = F32.lit 3 10 := by decide!
  have h1 := F32.mul_mono _ _ (F32.lit 3 10)
    (F32.min_le_left (F32.lit 1 1) (F32.div (F32.ofNat query.length) (F32.lit 100 1)))
  rw [e1] at h1
  have h2 := F32.add_mono (F32.lit 0 1) (F32.lit 0 1) _ _ (Nat.le_refl _) h1
  rw [e2] at h2
  have h3 := F32.add_mono _ _
    (F32.mul (F32.min (F32.lit 1 1) (F32.div (F32.ofNat 0) (F32.lit 10 1))) (F32.lit 4 10))
    _ h2 (Nat.le_refl _)
  rw [e3] at h3
  have h4 := F32.add_mono _ _
    (F32.mul (F32.min (F32.lit 1 1) (F32.div (F32.ofNat 0) (F32.lit 5 1))) (F32.lit 3 10))
    _ h3 (Nat.le_refl _)
  rw [e4] at h4
  simp only [calculate_complexity_score, List.length_nil, List.foldl_nil]
  exact Nat.le_trans (F32.min_le_right _ _) h4

theorem complexity_without_keywords_lt (query : Str) (h : query.length < 100) :
    F32.lt (calculate_complexity_score query []) (F32.lit 3 10) = true := by
  have hall : ∀ n, n < 100 →
      F32.lt (calculate_complexity_score (List.replicate n (byte 0)) []) (F32.lit 3 10)
        = true := by decide!
  have hlen : calculate_complexity_score query []
      = calculate_complexity_score (List.replicate query.length (byte 0)) [] := by
    simp only [calculate_complexity_score, List.length_replicate]
  rw [hlen]
  exact hall _ h

theorem classify_of_no_keyword (s : EdgeLLMRAGSystem) (query : Str)
    (h : ∀ c, ∀ w ∈ keyword_dict_ c, ¬ w <:+: query) :
    (s.classify_query query).query_type = .UNKNOWN_QUERY := by
  cases hq : s.query_classifier_ with
  | none => simp only [EdgeLLMRAGSystem.classify_query, hq]
  | some qc =>
    have hu : F32.gt (calculate_urgency_score []) (F32.lit 7 10) = false := by decide!
    have hf : F32.ge (calculate_factual_score []) (F32.lit 5 10) = false := by decide!
    have hc : F32.gt (calculate_creative_score []) (F32.lit 6 10) = false := by decide!
    have hx : F32.gt (calculate_complexity_score query []) (F32.lit 6 10) = false := by
      have h36 : (F32.lit 3 10).ulps ≤ (F32.lit 6 10).ulps := by decide!
      exact F32.lt_false_of_le _ _
        (Nat.le_trans (complexity_without_keywords_le query) h36)
    simp only [EdgeLLMRAGSystem.classify_query, hq, QueryClassifier.classify_query,
      QueryClassifier.analyze_query_features, extract_keywords_eq_nil qc query h,
      detect_words_eq_false query _ h, hu, hf, hc, hx, Bool.or_self, Bool.false_eq_true,
      if_false]

namespace EdgeLLMRAGSystem

theorem hybrid_response_requests (s : EdgeLLMRAGSystem) (env : Collaborators) (query : Str) :
    (s.hybrid_response env query).2.requests = s.requests ++ [.search query 1 (1 / 2)]
    ∨ ∃ prompt, (s.hybrid_response env query).2.requests
        = s.requests ++ [.search query 1 (1 / 2), .llm prompt] := by
  cases hr : s.rag_only_response env query true with
  | mk answer s1 =>
    have hs1 := rag_only_response_preload s env query
    rw [hr] at hs1
    have hreq : s1.requests = s.requests ++ [.search query 1 (1 / 2)] := by
      rw [show s1 = _ from hs1]
    cases answer with
    | none =>
      left
      simp only [hybrid_response, hr, hreq]
    | some candidate =>
      right
      simp only [hybrid_response, hr]
      split
      · exact ⟨query, by
          simp only [llm_only_response, hreq, List.append_assoc, List.singleton_append]⟩
      · exact ⟨query ++ utf8 "<rag>" ++ candidate, by
          simp only [llm_only_response, hreq, List.append_assoc, List.singleton_append]⟩

theorem hybrid_response_of_no_results (s : EdgeLLMRAGSystem) (env : Collaborators)
    (query : Str) (hs : env.search s.requests query 1 (1 / 2) = some []) :
    s.hybrid_response env query
      = (env.llm_request (s.requests ++ [.search query 1 (1 / 2)]) query,
          { s with requests := s.requests ++ [.search query 1 (1 / 2), .llm query] }) := by
  have hb : str_contains (utf8 "No results !!!") (utf8 "No results") = true := by decide
  simp only [hybrid_response, rag_only_response_of_no_results s env query true hs, hb, if_true,
    llm_only_response, List.append_assoc, List.singleton_append]

theorem process_query_of_type (s : EdgeLLMRAGSystem) (env : Collaborators)
    (query user_id context : Str)
    (hinit : s.is_initialized_ = true) (hmiss : s.get_from_cache query = []) :
    ((s.classify_query query).query_type = .EMERGENCY_QUERY
        ∨ (s.classify_query query).query_type = .FACTUAL_QUERY →
      (s.process_query env query user_id context).1 = (s.rag_only_response env query false).1
      ∧ (s.process_query env query user_id context).2.requests
        = (s.rag_only_response env query false).2.requests)
    ∧ ((s.classify_query query).query_type = .CREATIVE_QUERY →
      (s.process_query env query user_id context).1 = (s.llm_only_response env query).1
      ∧ (s.process_query env query user_id context).2.requests
        = (s.llm_only_response env query).2.requests)
    ∧ ((s.classify_query query).query_type = .COMPLEX_QUERY
        ∨ (s.classify_query query).query_type = .UNKNOWN_QUERY →
      (s.process_query env query user_id context).1 = (s.hybrid_response env query).1
      ∧ (s.process_query env query user_id context).2.requests
        = (s.hybrid_response env query).2.requests) := by
  rw [process_query_of_miss s env query user_id context hinit hmiss]
  refine ⟨?_, ?_, ?_⟩
  · rintro (h | h) <;> rw [h] <;> exact store_outcome _ query
  · intro h
    rw [h]
    exact store_outcome _ query
  · rintro (h | h) <;> rw [h] <;> exact store_outcome _ query

theorem process_query_unchanged (s : EdgeLLMRAGSystem) (env : Collaborators)
    (query user_id context : Str)
    (h : ¬ (s.is_initialized_ = true ∧ s.get_from_cache query = [])) :
    (s.process_query env query user_id context).2 = s := by
  by_cases hinit : s.is_initialized_ = true
  · have hmiss : ¬ s.get_from_cache query = [] := fun hm => h ⟨hinit, hm⟩
    simp [process_query, hinit, hmiss]
  · simp [process_query, hinit]

end EdgeLLMRAGSystem

/-- C13: on an initialized orchestrator and a cache miss, a query that contains an
emergency keyword has `contains_emergency_words` set and an urgency score of at least
`0.3f`, is classified `EMERGENCY_QUERY` and answered by the retrieval-only strategy; the
requests sent are one search followed by speech chunks, none to the generative model. -/
theorem emergency_query_never_reaches_llm (s : EdgeLLMRAGSystem) (env : Collaborators)
    (qc : QueryClassifier) (query user_id context : Str)
    (hinit : s.is_initialized_ = true) (hqc : s.query_classifier_ = some qc)
    (hmiss : s.get_from_cache query = [])
    (hkw : ∃ w ∈ keyword_dict_ .emergency, w <:+: query) :
    (qc.analyze_query_features query).contains_emergency_words = true
    ∧ F32.ge (qc.analyze_query_features query).urgency_score (F32.lit 3 10) = true
    ∧ (s.classify_query query).query_type = .EMERGENCY_QUERY
    ∧ (s.process_query env query user_id context).1 = (s.rag_only_response env query false).1
    ∧ ∃ chunks : List Str, (s.process_query env query user_id context).2.requests
        = s.requests ++ .search query 1 (1 / 2) :: chunks.map .tts
      ∧ ∀ prompt, Request.llm prompt ∉ Request.search query 1 (1 / 2) :: chunks.map .tts := by
  have hcls : (s.classify_query query).query_type = .EMERGENCY_QUERY := by
    have hd : detect_words .emergency query = true := (detect_words_iff _ _).mpr hkw
    simp [EdgeLLMRAGSystem.classify_query, hqc, QueryClassifier.classify_query,
      QueryClassifier.analyze_query_features, hd]
  have hp := (EdgeLLMRAGSystem.process_query_of_type s env query user_id context hinit hmiss).1
    (Or.inl hcls)
  refine ⟨?_, ?_, hcls, hp.1, ?_⟩
  · simp only [QueryClassifier.analyze_query_features]
    exact (detect_words_iff _ _).mpr hkw
  · have h1 : (F32.lit 3 10).ulps ≤ (urgency_of_count 1).ulps := by decide!
    have hn := urgency_of_count_mono 1 _ (emergency_count_pos qc query hkw)
    simp only [QueryClassifier.analyze_query_features, calculate_urgency_score_eq]
    exact F32.ge_of_le _ _ (Nat.le_trans h1 hn)
  · obtain ⟨chunks, hc⟩ := EdgeLLMRAGSystem.rag_only_response_requests s env query false
    refine ⟨chunks, by rw [hp.2, hc], ?_⟩
    intro prompt hmem
    simp at hmem

theorem emergency_query_never_reaches_llm_witness :
    ready.is_initialized_ = true ∧ ready.query_classifier_ = some sample_classifier
    ∧ ready.get_from_cache (utf8 "发动机故障警告") = []
    ∧ (∃ w ∈ keyword_dict_ .emergency, w <:+: utf8 "发动机故障警告")
    ∧ (ready.classify_query (utf8 "发动机故障警告")).query_type = .EMERGENCY_QUERY
    ∧ (ready.process_query (plain_collaborators (utf8 "ok")) (utf8 "发动机故障警告") [] []
        ).2.requests = [.search (utf8 "发动机故障警告") 1 (1 / 2)] :=
  ⟨rfl, rfl, rfl, ⟨utf8 "故障", by decide, utf8 "发动机", utf8 "警告", by decide⟩,
    (emergency_query_never_reaches_llm ready (plain_collaborators (utf8 "ok"))
      sample_classifier (utf8 "发动机故障警告") [] [] rfl rfl rfl
      ⟨utf8 "故障", by decide, utf8 "发动机", utf8 "警告", by decide⟩).2.2.1,
    by decide!⟩

/-- C14 (amended): a query in which no dictionary literal occurs has urgency, factual and
creative scores `0.0f` and a complexity score of at most `0.3f` (below `0.3f` when the
query is shorter than 100 bytes), hence not above `0.6f`; it is classified
`UNKNOWN_QUERY`, and on an initialized orchestrator and a cache miss `process_query`
takes the hybrid strategy: when retrieval returns no results the generative model is
asked exactly once, with the query as prompt, and its completion is the answer. -/
theorem no_keyword_query_is_unknown (s : EdgeLLMRAGSystem) (env : Collaborators)
    (qc : QueryClassifier) (query user_id context : Str)
    (hno : ∀ c, ∀ w ∈ keyword_dict_ c, ¬ w <:+: query) :
    (qc.analyze_query_features query).urgency_score = F32.lit 0 1
    ∧ (qc.analyze_query_features query).factual_score = F32.lit 0 1
    ∧ (qc.analyze_query_features query).creative_score = F32.lit 0 1
    ∧ F32.ge (F32.lit 3 10) (qc.analyze_query_features query).complexity_score = true
    ∧ (query.length < 100 →
        F32.lt (qc.analyze_query_features query).complexity_score (F32.lit 3 10) = true)
    ∧ F32.gt (qc.analyze_query_features query).complexity_score (F32.lit 6 10) = false
    ∧ (qc.classify_query query).query_type = .UNKNOWN_QUERY
    ∧ (s.is_initialized_ = true → s.get_from_cache query = [] →
        (s.process_query env query user_id context).1 = (s.hybrid_response env query).1
        ∧ (s.process_query env query user_id context).2.requests
          = (s.hybrid_response env query).2.requests
        ∧ (env.search s.requests query 1 (1 / 2) = some [] →
          (s.process_query env query user_id context).1
            = env.llm_request (s.requests ++ [.search query 1 (1 / 2)]) query
          ∧ (s.process_query env query user_id context).2.requests
            = s.requests ++ [.search query 1 (1 / 2), .llm query])) := by
  have hk := extract_keywords_eq_nil qc query hno
  have h36 : (F32.lit 3 10).ulps ≤ (F32.lit 6 10).ulps := by decide!
  have hcls := classify_of_no_keyword
    { is_initialized_ := true, query_classifier_ := some qc, query_cache_ := ∅, requests := [] }
    query hno
  refine ⟨?_, ?_, ?_, ?_, ?_, ?_, hcls, ?_⟩
  · simp only [QueryClassifier.analyze_query_features, hk]
    decide!
  · simp only [QueryClassifier.analyze_query_features, hk]
    decide!
  · simp only [QueryClassifier.analyze_query_features, hk]
    decide!
  · simp only [QueryClassifier.analyze_query_features, hk]
    exact F32.ge_of_le _ _ (complexity_without_keywords_le query)
  · intro hlen
    simp only [QueryClassifier.analyze_query_features, hk]
    exact complexity_without_keywords_lt query hlen
  · simp only [QueryClassifier.analyze_query_features, hk]
    exact F32.lt_false_of_le _ _ (Nat.le_trans (complexity_without_keywords_le query) h36)
  · intro hinit hmiss
    have hp := (EdgeLLMRAGSystem.process_query_of_type s env query user_id context hinit
      hmiss).2.2 (Or.inr (classify_of_no_keyword s query hno))
    refine ⟨hp.1, hp.2, ?_⟩
    intro hs
    rw [hp.1, hp.2, EdgeLLMRAGSystem.hybrid_response_of_no_results s env query hs]
    exact ⟨rfl, rfl⟩

theorem no_keyword_query_is_unknown_witness :
    (∀ c, ∀ w ∈ keyword_dict_ c, ¬ w <:+: utf8 "你好")
    ∧ (utf8 "你好").length < 100
    ∧ ready.is_initialized_ = true ∧ ready.get_from_cache (utf8 "你好") = []
    ∧ (plain_collaborators (utf8 "ok")).search ready.requests (utf8 "你好") 1 (1 / 2) = some []
    ∧ F32.lt (sample_classifier.analyze_query_features (utf8 "你好")).complexity_score
        (F32.lit 3 10) = true
    ∧ (ready.process_query (plain_collaborators (utf8 "ok")) (utf8 "你好") [] []).2.requests
        = ready.requests ++ [.search (utf8 "你好") 1 (1 / 2), .llm (utf8 "你好")] :=
  have hno : ∀ c, ∀ w ∈ keyword_dict_ c, ¬ w <:+: utf8 "你好" := fun c w hw hin =>
    have hd : detect_words c (utf8 "你好") = true := (detect_words_iff c _).mpr ⟨w, hw, hin⟩
    have hf : ∀ c, detect_words c (utf8 "你好") = false := by
      intro c
      cases c <;> decide!
    Bool.noConfusion ((hf c).symm.trans hd)
  ⟨hno, by decide, rfl, rfl, rfl,
    (no_keyword_query_is_unknown ready (plain_collaborators (utf8 "ok")) sample_classifier
      (utf8 "你好") [] [] hno).2.2.2.2.1 (by decide),
    ((no_keyword_query_is_unknown ready (plain_collaborators (utf8 "ok")) sample_classifier
      (utf8 "你好") [] [] hno).2.2.2.2.2.2.2 rfl rfl).2.2 rfl |>.2⟩

/-- C14 (counterexample): `emoji_query` has 25 code points and contains no dictionary
literal, yet its complexity score is `0.3f`, which is not below `0.3`. -/
theorem short_query_with_complexity_three_tenths :
    (from_bytes emoji_query).map List.length = some 25
    ∧ sample_classifier.extract_keywords emoji_query = []
    ∧ (sample_classifier.analyze_query_features emoji_query).complexity_score = F32.lit 3 10
    ∧ F32.lt (sample_classifier.analyze_query_features emoji_query).complexity_score
        (F32.lit 3 10) = false := by
  decide!

/-- C15: for a query classified `CREATIVE_QUERY`, `COMPLEX_QUERY` or `UNKNOWN_QUERY`,
`process_query` sends no request to the speech output; for `EMERGENCY_QUERY` and
`FACTUAL_QUERY` (initialized, cache miss) with a non-empty retrieval result, the text of
the last item goes through `rag_message_worker` before it is returned. -/
theorem speech_output_only_from_retrieval_only (s : EdgeLLMRAGSystem) (env : Collaborators)
    (query user_id context : Str) :
    ((s.classify_query query).query_type = .CREATIVE_QUERY
        ∨ (s.classify_query query).query_type = .COMPLEX_QUERY
        ∨ (s.classify_query query).query_type = .UNKNOWN_QUERY →
      ∃ added, (s.process_query env query user_id context).2.requests = s.requests ++ added
        ∧ ∀ chunk, Request.tts chunk ∉ added)
    ∧ (s.is_initialized_ = true → s.get_from_cache query = [] →
        (s.classify_query query).query_type = .EMERGENCY_QUERY
          ∨ (s.classify_query query).query_type = .FACTUAL_QUERY →
        ∀ results last, env.search s.requests query 1 (1 / 2) = some results →
          results.getLast? = some last →
          (s.process_query env query user_id context).1
            = (EdgeLLMRAGSystem.rag_message_worker
                { s with requests := s.requests ++ [.search query 1 (1 / 2)] } env last.text
              ).1.map (fun _ => last.text)
          ∧ (s.process_query env query user_id context).2.requests
            = (EdgeLLMRAGSystem.rag_message_worker
                { s with requests := s.requests ++ [.search query 1 (1 / 2)] } env last.text
              ).2.requests) := by
  constructor
  · intro ht
    by_cases hm : s.is_initialized_ = true ∧ s.get_from_cache query = []
    · obtain ⟨hinit, hmiss⟩ := hm
      have hp := EdgeLLMRAGSystem.process_query_of_type s env query user_id context hinit hmiss
      rcases ht with h | h | h
      · refine ⟨[.llm query], by rw [(hp.2.1 h).2]; rfl, ?_⟩
        intro chunk hmem
        simp at hmem
      · rw [(hp.2.2 (Or.inl h)).2]
        rcases EdgeLLMRAGSystem.hybrid_response_requests s env query with hr | ⟨prompt, hr⟩
        · exact ⟨_, hr, fun chunk hmem => by simp at hmem⟩
        · exact ⟨_, hr, fun chunk hmem => by simp at hmem⟩
      · rw [(hp.2.2 (Or.inr h)).2]
        rcases EdgeLLMRAGSystem.hybrid_response_requests s env query with hr | ⟨prompt, hr⟩
        · exact ⟨_, hr, fun chunk hmem => by simp at hmem⟩
        · exact ⟨_, hr, fun chunk hmem => by simp at hmem⟩
    · rw [EdgeLLMRAGSystem.process_query_unchanged s env query user_id context hm]
      exact ⟨[], by simp, fun chunk hmem => by simp at hmem⟩
  · intro hinit hmiss ht results last hs hl
    have hp := (EdgeLLMRAGSystem.process_query_of_type s env query user_id context hinit
      hmiss).1 ht
    rw [hp.1, hp.2,
      EdgeLLMRAGSystem.rag_only_response_of_results s env query false results last hs hl]
    exact ⟨rfl, rfl⟩

theorem speech_output_only_from_retrieval_only_witness :
    (ready.classify_query (utf8 "你好")).query_type = .UNKNOWN_QUERY
    ∧ (∃ added, (ready.process_query (retrieving_collaborators
          [item_with_text (utf8 "一。二。三。四")]) (utf8 "你好") [] []).2.requests
        = ready.requests ++ added ∧ ∀ chunk, Request.tts chunk ∉ added)
    ∧ (ready.classify_query (utf8 "发动机故障警告")).query_type = .EMERGENCY_QUERY
    ∧ (ready.process_query (retrieving_collaborators
          [item_with_text (utf8 "一。二。三。四")]) (utf8 "发动机故障警告") [] []).2.requests
        = [.search (utf8 "发动机故障警告") 1 (1 / 2), .tts (utf8 "三"), .tts (utf8 "四END")] :=
  ⟨by decide!,
    (speech_output_only_from_retrieval_only ready (retrieving_collaborators
      [item_with_text (utf8 "一。二。三。四")]) (utf8 "你好") [] []).1
      (Or.inr (Or.inr (by decide!))),
    by decide!, by decide!⟩

/-- C20 (evaluation at the failing input): `QueryClassifier::classify_query` never assigns
`confidence` (nor `reasoning`, which stays the empty string), while the degraded
classification of the orchestrator assigns every field. -/
theorem classify_query_leaves_confidence_unassigned :
    (sample_classifier.classify_query (utf8 "你好")).confidence = none
    ∧ (sample_classifier.classify_query (utf8 "你好")).reasoning = []
    ∧ (EdgeLLMRAGSystem.constructed.classify_query (utf8 "你好")).confidence
        = some (F32.lit 0 1) := by
  exact ⟨rfl, rfl, rfl⟩

/-! ## Sentence segmentation -/

theorem occur_in_order_append_left {α : Type} (chunks : List (List α)) (before text : List α)
    (h : occur_in_order chunks text) : occur_in_order chunks (before ++ text) := by
  cases chunks with
  | nil => trivial
  | cons chunk rest =>
    obtain ⟨b, a, ht, hr⟩ := h
    exact ⟨before ++ b, a, by rw [ht]; simp only [List.append_assoc], hr⟩

theorem occur_in_order_map {α β : Type} (f : List α → List β)
    (hf : ∀ a b, f (a ++ b) = f a ++ f b) (chunks : List (List α)) (text : List α)
    (h : occur_in_order chunks text) : occur_in_order (chunks.map f) (f text) := by
  induction chunks generalizing text with
  | nil => trivial
  | cons chunk rest ih =>
    obtain ⟨b, a, ht, hr⟩ := h
    exact ⟨f b, f a, by rw [ht, hf, hf], ih a hr⟩

theorem trim_decompose (w : WStr) : ∃ before after, w = before ++ trim w ++ after := by
  refine ⟨w.takeWhile is_trimmed_char,
    ((w.dropWhile is_trimmed_char).reverse.takeWhile is_trimmed_char).reverse, ?_⟩
  have h1 := List.takeWhile_append_dropWhile is_trimmed_char w
  have h2 := List.takeWhile_append_dropWhile is_trimmed_char
    (w.dropWhile is_trimmed_char).reverse
  have h3 := congrArg List.reverse h2
  rw [List.reverse_append, List.reverse_reverse] at h3
  unfold trim
  rw [List.append_assoc, h3, h1]

theorem trim_outer_trimmed (w : WStr) (h : trim w ≠ []) : outer_trimmed (trim w) = true := by
  have hfirst := List.head?_dropWhile_not is_trimmed_char w
  unfold trim at h
  unfold outer_trimmed trim
  generalize w.dropWhile is_trimmed_char = a at h hfirst ⊢
  have hlast := List.head?_dropWhile_not is_trimmed_char a.reverse
  obtain ⟨t, ht⟩ := @List.dropWhile_suffix _ a.reverse is_trimmed_char
  generalize a.reverse.dropWhile is_trimmed_char = b at h hlast ht ⊢
  have hb : b ≠ [] := by
    intro hnil
    apply h
    rw [hnil]
    rfl
  have hg : b.getLast? = a.head? := by
    have e1 : a.head? = (t ++ b).getLast? := by rw [ht, List.getLast?_reverse]
    rw [e1, List.getLast?_append]
    cases hx : b.getLast? with
    | none => exact absurd (List.getLast?_eq_none_iff.mp hx) hb
    | some x => rfl
  rw [List.head?_reverse, List.getLast?_reverse, hg]
  cases hx : a.head? with
  | none =>
    rw [hx] at hg
    exact absurd (List.getLast?_eq_none_iff.mp hg) hb
  | some x =>
    rw [hx] at hfirst
    cases hy : b.head? with
    | none => exact absurd (List.head?_eq_none_iff.mp hy) hb
    | some y =>
      rw [hy] at hlast
      simp only [] at hfirst hlast
      simp only [hfirst, hlast, Bool.not_false, Bool.and_self]

theorem placed_le (lo hi : Nat) (ms : List (Nat × Nat)) (h : placed lo hi ms) : lo ≤ hi := by
  induction ms generalizing lo with
  | nil => exact h
  | cons m ms ih =>
    have := ih _ h.2
    have := h.1
    omega

theorem placed_mono (lo hi hi2 : Nat) (ms : List (Nat × Nat)) (h : placed lo hi ms)
    (hh : hi ≤ hi2) : placed lo hi2 ms := by
  induction ms generalizing lo with
  | nil => exact Nat.le_trans h hh
  | cons m ms ih => exact ⟨h.1, ih _ h.2⟩

theorem placed_lower (lo lo2 hi : Nat) (ms : List (Nat × Nat)) (h : placed lo hi ms)
    (hh : lo2 ≤ lo) : placed lo2 hi ms := by
  cases ms with
  | nil => exact Nat.le_trans hh h
  | cons m ms => exact ⟨Nat.le_trans hh h.1, h.2⟩

theorem regex_matches_single (pos : Nat) (c : Char) :
    regex_matches pos [c]
      = if in_delimiter_class c || is_escaped_delimiter c then [(pos, 1)] else [] := by
  rw [regex_matches]

theorem regex_matches_cons_cons (pos : Nat) (c d : Char) (rest : WStr) :
    regex_matches pos (c :: d :: rest)
      = if in_delimiter_class c then (pos, 1) :: regex_matches (pos + 1) (d :: rest)
        else if is_mark_then_space c d then (pos, 2) :: regex_matches (pos + 2) rest
        else if is_escaped_delimiter c then (pos, 1) :: regex_matches (pos + 1) (d :: rest)
        else regex_matches (pos + 1) (d :: rest) := by
  rw [regex_matches]

theorem regex_matches_placed (n : Nat) :
    ∀ (w : WStr), w.length ≤ n → ∀ pos, placed pos (pos + w.length) (regex_matches pos w) := by
  induction n with
  | zero =>
    intro w hw pos
    have : w = [] := List.length_eq_zero.mp (Nat.le_zero.mp hw)
    subst this
    simp [regex_matches, placed]
  | succ n ih =>
    intro w hw pos
    match w, hw with
    | [], _ => simp [regex_matches, placed]
    | [c], _ =>
      rw [regex_matches_single]
      split <;> simp [placed]
    | c :: d :: rest, hw =>
      have h1 := ih (d :: rest) (by simp only [List.length_cons] at hw ⊢; omega) (pos + 1)
      have h2 := ih rest (by simp only [List.length_cons] at hw ⊢; omega) (pos + 2)
      have e1 : pos + 1 + (d :: rest).length = pos + (c :: d :: rest).length := by
        simp only [List.length_cons]; omega
      have e2 : pos + 2 + rest.length = pos + (c :: d :: rest).length := by
        simp only [List.length_cons]; omega
      rw [e1] at h1
      rw [e2] at h2
      rw [regex_matches_cons_cons]
      split
      · exact ⟨Nat.le_refl _, h1⟩
      · split
        · exact ⟨Nat.le_refl _, h2⟩
        · split
          · exact ⟨Nat.le_refl _, h1⟩
          · exact placed_lower _ _ _ _ h1 (by omega)

theorem regex_matches_END (pos : Nat) : regex_matches pos "END".data = [] := by
  have h1 : in_delimiter_class 'E' = false := by decide
  have h2 : is_mark_then_space 'E' 'N' = false := by decide
  have h3 : is_escaped_delimiter 'E' = false := by decide
  have h4 : in_delimiter_class 'N' = false := by decide
  have h5 : is_mark_then_space 'N' 'D' = false := by decide
  have h6 : is_escaped_delimiter 'N' = false := by decide
  have h7 : in_delimiter_class 'D' = false := by decide
  have h8 : is_escaped_delimiter 'D' = false := by decide
  show regex_matches pos ['E', 'N', 'D'] = []
  simp [regex_matches, h1, h2, h3, h4, h5, h6, h7, h8]

theorem regex_matches_append_END (n : Nat) :
    ∀ (w : WStr), w.length ≤ n →
      ∀ pos, regex_matches pos (w ++ "END".data) = regex_matches pos w := by
  induction n with
  | zero =>
    intro w hw pos
    have : w = [] := List.length_eq_zero.mp (Nat.le_zero.mp hw)
    subst this
    rw [List.nil_append, regex_matches_END, regex_matches]
  | succ n ih =>
    intro w hw pos
    match w, hw with
    | [], _ => rw [List.nil_append, regex_matches_END, regex_matches]
    | [c], _ =>
      have hE : regex_matches (pos + 1) ('E' :: ['N', 'D']) = [] := regex_matches_END (pos + 1)
      have hs : is_mark_then_space c 'E' = false := by
        have : is_space 'E' = false := by decide
        simp [is_mark_then_space, this]
      show regex_matches pos (c :: 'E' :: ['N', 'D']) = regex_matches pos [c]
      rw [regex_matches_cons_cons, regex_matches_single, hs, hE]
      cases h1 : in_delimiter_class c <;> cases h2 : is_escaped_delimiter c <;> simp
    | c :: d :: rest, hw =>
      have h1 := ih (d :: rest) (by simp only [List.length_cons] at hw ⊢; omega) (pos + 1)
      have h2 := ih rest (by simp only [List.length_cons] at hw ⊢; omega) (pos + 2)
      show regex_matches pos (c :: d :: (rest ++ "END".data)) = regex_matches pos (c :: d :: rest)
      rw [regex_matches_cons_cons, regex_matches_cons_cons,
        show d :: (rest ++ "END".data) = (d :: rest) ++ "END".data from rfl, h1, h2]

theorem skip_loop_placed (hi : Nat) (ms : List (Nat × Nat)) :
    ∀ k lp lo, lp ≤ lo → placed lo hi ms →
      placed (skip_loop k lp ms).1 hi (skip_loop k lp ms).2 := by
  induction ms with
  | nil =>
    intro k lp lo hlp h
    simp only [skip_loop]
    exact Nat.le_trans hlp h
  | cons m it ih =>
    intro k lp lo hlp h
    simp only [skip_loop]
    split
    · exact ih (k + 1) (m.1 + m.2) (m.1 + m.2) (Nat.le_refl _) h.2
    · exact ⟨Nat.le_trans hlp h.1, h.2⟩

theorem substr_append_left (D E : WStr) (a b : Nat) (hb : b ≤ D.length) (hab : a ≤ b) :
    substr (D ++ E) a (b - a) = substr D a (b - a) := by
  unfold substr
  rw [List.drop_append_of_le_length (by omega),
    List.take_append_of_le_length (by rw [List.length_drop]; omega)]

theorem drop_eq_substr_append (D : WStr) (a b : Nat) (hab : a ≤ b) :
    D.drop a = substr D a (b - a) ++ D.drop b := by
  unfold substr
  have h := List.take_append_drop (b - a) (D.drop a)
  rw [List.drop_drop, show a + (b - a) = b by omega] at h
  exact h.symm

theorem segment_loop_spec (D E : WStr) (ms : List (Nat × Nat)) :
    ∀ lo, placed lo D.length ms →
      (segment_loop (D ++ E) lo ms).2 ≤ D.length
      ∧ (∀ seg ∈ (segment_loop (D ++ E) lo ms).1, outer_trimmed seg = true)
      ∧ occur_in_order
          ((segment_loop (D ++ E) lo ms).1 ++ [D.drop (segment_loop (D ++ E) lo ms).2])
          (D.drop lo) := by
  induction ms with
  | nil =>
    intro lo h
    simp only [segment_loop]
    exact ⟨h, fun seg hs => by simp at hs, [], [], by simp, trivial⟩
  | cons m it ih =>
    intro lo h
    obtain ⟨hlo, hrest⟩ := h
    have hhi := placed_le _ _ _ hrest
    obtain ⟨h1, h2, h3⟩ := ih (m.1 + m.2) hrest
    have hsub : substr (D ++ E) lo (m.1 - lo) = substr D lo (m.1 - lo) :=
      substr_append_left D E lo m.1 (by omega) hlo
    have hd1 := drop_eq_substr_append D lo m.1 hlo
    have hd2 := drop_eq_substr_append D m.1 (m.1 + m.2) (by omega)
    obtain ⟨before, after, htrim⟩ := trim_decompose (substr D lo (m.1 - lo))
    simp only [segment_loop, hsub]
    refine ⟨h1, ?_, ?_⟩
    · intro seg hs
      split at hs
      · exact h2 seg hs
      · next hne =>
        rcases List.mem_cons.mp hs with heq | hmem
        · rw [heq]
          apply trim_outer_trimmed
          intro hnil
          apply hne
          rw [hnil]
          rfl
        · exact h2 seg hmem
    · split
      · rw [hd1, hd2, ← List.append_assoc]
        exact occur_in_order_append_left _ _ _ h3
      · refine ⟨before, after ++ substr D m.1 (m.1 + m.2 - m.1) ++ D.drop (m.1 + m.2), ?_, ?_⟩
        · rw [hd1, hd2]
          conv_lhs => rw [htrim]
          simp only [List.append_assoc]
        · rw [List.append_assoc]
          exact occur_in_order_append_left _ _ _ (occur_in_order_append_left _ _ _ h3)

theorem wide_chunks_spec (D : WStr) :
    ∃ segs rest, wide_chunks D = segs ++ [rest ++ "END".data]
      ∧ (∀ seg ∈ segs, outer_trimmed seg = true)
      ∧ occur_in_order (segs ++ [rest]) D := by
  have hm : regex_matches 0 (D ++ "END".data) = regex_matches 0 D :=
    regex_matches_append_END D.length D (Nat.le_refl _) 0
  have hp : placed 0 D.length (regex_matches 0 D) := by
    have := regex_matches_placed D.length D (Nat.le_refl _) 0
    rwa [Nat.zero_add] at this
  have hs := skip_loop_placed D.length (regex_matches 0 D) 0 0 0 (Nat.le_refl _) hp
  obtain ⟨h1, h2, h3⟩ := segment_loop_spec D "END".data _ _ hs
  refine ⟨(segment_loop (D ++ "END".data) (skip_loop 0 0 (regex_matches 0 D)).1
      (skip_loop 0 0 (regex_matches 0 D)).2).1,
    D.drop (segment_loop (D ++ "END".data) (skip_loop 0 0 (regex_matches 0 D)).1
      (skip_loop 0 0 (regex_matches 0 D)).2).2, ?_, h2, ?_⟩
  · have hlen : (segment_loop (D ++ "END".data) (skip_loop 0 0 (regex_matches 0 D)).1
        (skip_loop 0 0 (regex_matches 0 D)).2).2 < (D ++ "END".data).length := by
      rw [List.length_append]
      have : "END".data.length = 3 := rfl
      omega
    have hdrop := @List.drop_append_of_le_length _ D "END".data _ h1
    simp only [wide_chunks, hm, hlen, if_true, hdrop]
    have hne : (List.drop (segment_loop (D ++ "END".data) (skip_loop 0 0 (regex_matches 0 D)).1
        (skip_loop 0 0 (regex_matches 0 D)).2).2 D ++ "END".data).isEmpty = false := by
      rw [List.isEmpty_eq_false]
      intro h
      have := congrArg List.length h
      rw [List.length_append] at this
      have : "END".data.length = 3 := rfl
      simp only [List.length_nil] at *
      omega
    simp only [hne, Bool.false_eq_true, if_false]
  · have := occur_in_order_append_left _
      (D.take (skip_loop 0 0 (regex_matches 0 D)).1) _ h3
    rwa [List.take_append_drop] at this

/-! ## UTF-8 conversion -/

theorem Char.toNat_ofNat_of_valid (n : Nat) (h : n.isValidChar) : (Char.ofNat n).toNat = n := by
  simp only [Char.ofNat, h, dif_pos, Char.ofNatAux, Char.toNat]
  rfl

theorem Char.eq_of_toNat_eq (c d : Char) (h : c.toNat = d.toNat) : c = d :=
  Char.ext (UInt32.ext h)

theorem Char.toNat_lt (c : Char) : c.toNat < 0x110000 := by
  have h := c.valid
  simp only [UInt32.isValidChar, Nat.isValidChar] at h
  show c.val.toNat < 0x110000
  omega

theorem Char.toNat_not_surrogate (c : Char) : c.toNat < 0xD800 ∨ 0xDFFF < c.toNat := by
  have h := c.valid
  simp only [UInt32.isValidChar, Nat.isValidChar] at h
  show c.val.toNat < 0xD800 ∨ 0xDFFF < c.val.toNat
  omega

theorem is_trimmed_char_iff (c : Char) :
    is_trimmed_char c = true
      ↔ c.toNat = 0x20 ∨ c.toNat = 0x09 ∨ c.toNat = 0x0A ∨ c.toNat = 0x0D := by
  have e : " \t\n\r".data = [' ', '\t', '\n', '\r'] := rfl
  simp only [is_trimmed_char, e, List.contains_iff_exists_mem_beq, List.mem_cons,
    List.mem_singleton, List.not_mem_nil, or_false, beq_iff_eq]
  constructor
  · rintro ⟨a, (h | h | h | h), hc⟩ <;> subst h <;> subst hc
    · exact Or.inl rfl
    · exact Or.inr (Or.inl rfl)
    · exact Or.inr (Or.inr (Or.inl rfl))
    · exact Or.inr (Or.inr (Or.inr rfl))
  · rintro (h | h | h | h)
    · exact ⟨' ', Or.inl rfl, Char.eq_of_toNat_eq _ _ h⟩
    · exact ⟨'\t', Or.inr (Or.inl rfl), Char.eq_of_toNat_eq _ _ h⟩
    · exact ⟨'\n', Or.inr (Or.inr (Or.inl rfl)), Char.eq_of_toNat_eq _ _ h⟩
    · exact ⟨'\r', Or.inr (Or.inr (Or.inr rfl)), Char.eq_of_toNat_eq _ _ h⟩

theorem is_whitespace_byte_iff (b : Byte) :
    is_whitespace_byte b = true
      ↔ b.val = 0x20 ∨ b.val = 0x09 ∨ b.val = 0x0A ∨ b.val = 0x0D := by
  simp [is_whitespace_byte, or_assoc]

theorem byte_val (n : Nat) (h : n < 256) : (byte n).val = n := Nat.mod_eq_of_lt h

theorem utf8_encode_head (c : Char) :
    ∃ b bs, utf8_encode c.toNat = b :: bs
      ∧ (is_whitespace_byte b = true ↔ is_trimmed_char c = true) := by
  have hlt := Char.toNat_lt c
  rw [is_trimmed_char_iff]
  unfold utf8_encode
  split
  · refine ⟨_, _, rfl, ?_⟩
    rw [is_whitespace_byte_iff, byte_val _ (by omega)]
  · split
    · refine ⟨_, _, rfl, ?_⟩
      rw [is_whitespace_byte_iff, byte_val _ (by omega)]
      omega
    · split
      · refine ⟨_, _, rfl, ?_⟩
        rw [is_whitespace_byte_iff, byte_val _ (by omega)]
        omega
      · refine ⟨_, _, rfl, ?_⟩
        rw [is_whitespace_byte_iff, byte_val _ (by omega)]
        omega

theorem utf8_encode_last (c : Char) :
    ∃ bs b, utf8_encode c.toNat = bs ++ [b]
      ∧ (is_whitespace_byte b = true ↔ is_trimmed_char c = true) := by
  have hlt := Char.toNat_lt c
  rw [is_trimmed_char_iff]
  unfold utf8_encode
  split
  · refine ⟨[], _, rfl, ?_⟩
    rw [is_whitespace_byte_iff, byte_val _ (by omega)]
  · split
    · refine ⟨[_], _, rfl, ?_⟩
      rw [is_whitespace_byte_iff, byte_val _ (by omega)]
      omega
    · split
      · refine ⟨[_, _], _, rfl, ?_⟩
        rw [is_whitespace_byte_iff, byte_val _ (by omega)]
        omega
      · refine ⟨[_, _, _], _, rfl, ?_⟩
        rw [is_whitespace_byte_iff, byte_val _ (by omega)]
        omega

theorem to_bytes_append (a b : WStr) : to_bytes (a ++ b) = to_bytes a ++ to_bytes b :=
  List.flatMap_append a b _

theorem to_bytes_cons (c : Char) (w : WStr) :
    to_bytes (c :: w) = utf8_encode c.toNat ++ to_bytes w :=
  List.flatMap_cons c w _

theorem to_bytes_data (s : String) : to_bytes s.data = utf8 s := rfl

theorem is_segment_text_to_bytes (w : WStr) (h : outer_trimmed w = true) :
    is_segment_text (to_bytes w) = true := by
  unfold outer_trimmed at h
  cases hw : w.head? with
  | none => rw [hw] at h; simp at h
  | some first =>
    cases hl : w.getLast? with
    | none => rw [hw, hl] at h; simp at h
    | some last =>
      rw [hw, hl] at h
      simp only [Bool.and_eq_true, Bool.not_eq_true'] at h
      obtain ⟨hf, hla⟩ := h
      obtain ⟨tl, htl⟩ : ∃ tl, w = first :: tl := by
        cases w with
        | nil => simp at hw
        | cons a tl => exact ⟨tl, by simp at hw; rw [hw]⟩
      obtain ⟨ini, hini⟩ : ∃ ini, w = ini ++ [last] := by
        have hne : w ≠ [] := by rw [htl]; simp
        refine ⟨w.dropLast, ?_⟩
        have h1 := List.dropLast_append_getLast hne
        have h2 : w.getLast hne = last := by
          have := List.getLast?_eq_getLast w hne
          rw [hl] at this
          exact (Option.some.inj this).symm
        rw [h2] at h1
        exact h1.symm
      obtain ⟨b, bs, hb, hbw⟩ := utf8_encode_head first
      obtain ⟨cs, c, hc, hcw⟩ := utf8_encode_last last
      have hhead : (to_bytes w).head? = some b := by
        rw [htl, to_bytes_cons, hb]
        rfl
      have hlast : (to_bytes w).getLast? = some c := by
        rw [hini, to_bytes_append, to_bytes_cons, hc]
        simp [to_bytes]
      unfold is_segment_text
      rw [hhead, hlast]
      have hb' : is_whitespace_byte b = false := by
        cases hx : is_whitespace_byte b
        · rfl
        · rw [hbw.mp hx] at hf
          exact Bool.noConfusion hf
      have hc' : is_whitespace_byte c = false := by
        cases hx : is_whitespace_byte c
        · rfl
        · rw [hcw.mp hx] at hla
          exact Bool.noConfusion hla
      simp only [hb', hc', Bool.not_false, Bool.and_self]

theorem is_continuation_iff (b : Byte) : is_continuation b = true ↔ 0x80 ≤ b.val ∧ b.val < 0xC0 := by
  simp [is_continuation]

theorem byte_eq (n : Nat) (b : Byte) (h : n = b.val) : byte n = b := by
  apply Fin.ext
  rw [h]
  exact Nat.mod_eq_of_lt b.isLt

theorem utf8_encode_one (c1 : Byte) (h : c1.val < 0x80) : utf8_encode c1.val = [c1] := by
  simp only [utf8_encode, h, if_true, byte_eq c1.val c1 rfl]

theorem utf8_encode_two (c1 c2 : Byte) (h1 : ¬ c1.val < 0xC2) (h2 : c1.val < 0xE0)
    (hc2 : is_continuation c2 = true) :
    utf8_encode ((c1.val - 0xC0) * 64 + (c2.val - 0x80)) = [c1, c2] := by
  rw [is_continuation_iff] at hc2
  have e1 : ¬ (c1.val - 0xC0) * 64 + (c2.val - 0x80) < 0x80 := by omega
  have e2 : (c1.val - 0xC0) * 64 + (c2.val - 0x80) < 0x800 := by omega
  simp only [utf8_encode, e1, e2, if_true, if_false]
  rw [byte_eq _ c1 (by omega), byte_eq _ c2 (by omega)]

theorem utf8_encode_three (c1 c2 c3 : Byte) (h1 : ¬ c1.val < 0xE0) (h2 : c1.val < 0xF0)
    (hc2 : is_continuation c2 = true) (hc3 : is_continuation c3 = true)
    (hover : ¬ (c1.val = 0xE0 ∧ c2.val < 0xA0)) :
    utf8_encode ((c1.val - 0xE0) * 4096 + (c2.val - 0x80) * 64 + (c3.val - 0x80))
      = [c1, c2, c3] := by
  rw [is_continuation_iff] at hc2 hc3
  have e1 : ¬ (c1.val - 0xE0) * 4096 + (c2.val - 0x80) * 64 + (c3.val - 0x80) < 0x80 := by
    omega
  have e2 : ¬ (c1.val - 0xE0) * 4096 + (c2.val - 0x80) * 64 + (c3.val - 0x80) < 0x800 := by
    omega
  have e3 : (c1.val - 0xE0) * 4096 + (c2.val - 0x80) * 64 + (c3.val - 0x80) < 0x10000 := by
    omega
  simp only [utf8_encode, e1, e2, e3, if_true, if_false]
  rw [byte_eq _ c1 (by omega), byte_eq _ c2 (by omega), byte_eq _ c3 (by omega)]

theorem utf8_encode_four (c1 c2 c3 c4 : Byte) (h1 : ¬ c1.val < 0xF0) (h2 : c1.val < 0xF5)
    (hc2 : is_continuation c2 = true) (hc3 : is_continuation c3 = true)
    (hc4 : is_continuation c4 = true) (hover : ¬ (c1.val = 0xF0 ∧ c2.val < 0x90)) :
    utf8_encode ((c1.val - 0xF0) * 262144 + (c2.val - 0x80) * 4096 + (c3.val - 0x80) * 64
      + (c4.val - 0x80)) = [c1, c2, c3, c4] := by
  rw [is_continuation_iff] at hc2 hc3 hc4
  have e1 : ¬ (c1.val - 0xF0) * 262144 + (c2.val - 0x80) * 4096 + (c3.val - 0x80) * 64
      + (c4.val - 0x80) < 0x80 := by omega
  have e2 : ¬ (c1.val - 0xF0) * 262144 + (c2.val - 0x80) * 4096 + (c3.val - 0x80) * 64
      + (c4.val - 0x80) < 0x800 := by omega
  have e3 : ¬ (c1.val - 0xF0) * 262144 + (c2.val - 0x80) * 4096 + (c3.val - 0x80) * 64
      + (c4.val - 0x80) < 0x10000 := by omega
  simp only [utf8_encode, e1, e2, e3, if_false]
  rw [byte_eq _ c1 (by omega), byte_eq _ c2 (by omega), byte_eq _ c3 (by omega),
    byte_eq _ c4 (by omega)]

theorem map_cons_eq_some (c : Char) (o : Option WStr) (w : WStr)
    (h : o.map (fun w => c :: w) = some w) : ∃ w1, o = some w1 ∧ w = c :: w1 := by
  cases o with
  | none => simp at h
  | some w1 => exact ⟨w1, rfl, by simp at h; exact h.symm⟩

theorem from_bytes_nil : from_bytes [] = some [] := rfl

theorem from_bytes_cons (c1 : Byte) (rest : Str) :
    from_bytes (c1 :: rest) =
    if c1.val < 0x80 then (from_bytes rest).map fun w => Char.ofNat c1.val :: w
    else if c1.val < 0xC2 then none
    else if c1.val < 0xE0 then
      match rest with
      | c2 :: rest =>
        if is_continuation c2 then
          (from_bytes rest).map fun w =>
            Char.ofNat ((c1.val - 0xC0) * 64 + (c2.val - 0x80)) :: w
        else none
      | _ => none
    else if c1.val < 0xF0 then
      match rest with
      | c2 :: c3 :: rest =>
        if is_continuation c2 && is_continuation c3
            && !(c1.val = 0xE0 && c2.val < 0xA0) && !(c1.val = 0xED && 0xA0 ≤ c2.val) then
          (from_bytes rest).map fun w =>
            Char.ofNat ((c1.val - 0xE0) * 4096 + (c2.val - 0x80) * 64 + (c3.val - 0x80)) :: w
        else none
      | _ => none
    else if c1.val < 0xF5 then
      match rest with
      | c2 :: c3 :: c4 :: rest =>
        if is_continuation c2 && is_continuation c3 && is_continuation c4
            && !(c1.val = 0xF0 && c2.val < 0x90) && !(c1.val = 0xF4 && 0x90 ≤ c2.val) then
          (from_bytes rest).map fun w =>
            Char.ofNat ((c1.val - 0xF0) * 262144 + (c2.val - 0x80) * 4096
              + (c3.val - 0x80) * 64 + (c4.val - 0x80)) :: w
        else none
      | _ => none
    else none := by
  cases rest with
  | nil => rfl
  | cons c2 rest =>
    cases rest with
    | nil => rfl
    | cons c3 rest =>
      cases rest with
      | nil => rfl
      | cons c4 rest => rfl
theorem to_bytes_from_bytes (n : Nat) :
    ∀ (b : Str), b.length ≤ n → ∀ w, from_bytes b = some w → to_bytes w = b := by
  induction n with
  | zero =>
    intro b hb w h
    have : b = [] := List.length_eq_zero.mp (Nat.le_zero.mp hb)
    subst this
    rw [from_bytes_nil] at h
    rw [← Option.some.inj h]
    rfl
  | succ n ih =>
    intro b hb w h
    match b, hb with
    | [], _ =>
      rw [from_bytes_nil] at h
      rw [← Option.some.inj h]
      rfl
    | c1 :: rest, hb =>
      rw [from_bytes_cons] at h
      simp only [List.length_cons] at hb
      split at h
      · next h1 =>
        obtain ⟨w1, hw1, hw⟩ := map_cons_eq_some _ _ _ h
        rw [hw, to_bytes_cons, ih rest (by omega) w1 hw1,
          Char.toNat_ofNat_of_valid _ (by simp only [Nat.isValidChar]; omega),
          utf8_encode_one c1 h1]
        rfl
      · split at h
        · exact Option.noConfusion h
        · next h1 h2 =>
          split at h
          · next h3 =>
            split at h
            · next c2 rest2 =>
              split at h
              · next hc2 =>
                obtain ⟨w1, hw1, hw⟩ := map_cons_eq_some _ _ _ h
                have hc2' := (is_continuation_iff c2).mp hc2
                simp only [List.length_cons] at hb
                rw [hw, to_bytes_cons, ih rest2 (by omega) w1 hw1,
                  Char.toNat_ofNat_of_valid _ (by simp only [Nat.isValidChar]; omega),
                  utf8_encode_two c1 c2 h2 h3 hc2]
                rfl
              · exact Option.noConfusion h
            · exact Option.noConfusion h
          · split at h
            · next h3 h4 =>
              split at h
              · next c2 c3 rest3 =>
                split at h
                · next hcond =>
                  simp only [Bool.and_eq_true, Bool.not_eq_true', decide_eq_true_eq,
                    Bool.and_eq_false_iff, decide_eq_false_iff_not] at hcond
                  obtain ⟨⟨⟨hc2, hc3⟩, hov⟩, hsur⟩ := hcond
                  obtain ⟨w1, hw1, hw⟩ := map_cons_eq_some _ _ _ h
                  have hc2' := (is_continuation_iff c2).mp hc2
                  have hc3' := (is_continuation_iff c3).mp hc3
                  simp only [List.length_cons] at hb
                  rw [hw, to_bytes_cons, ih rest3 (by omega) w1 hw1,
                    Char.toNat_ofNat_of_valid _ (by simp only [Nat.isValidChar]; omega),
                    utf8_encode_three c1 c2 c3 h3 h4 hc2 hc3 (by omega)]
                  rfl
                · exact Option.noConfusion h
              · exact Option.noConfusion h
            · split at h
              · next h4 h5 =>
                split at h
                · next c2 c3 c4 rest4 =>
                  split at h
                  · next hcond =>
                    simp only [Bool.and_eq_true, Bool.not_eq_true', decide_eq_true_eq,
                      Bool.and_eq_false_iff, decide_eq_false_iff_not] at hcond
                    obtain ⟨⟨⟨⟨hc2, hc3⟩, hc4⟩, hov⟩, hbig⟩ := hcond
                    obtain ⟨w1, hw1, hw⟩ := map_cons_eq_some _ _ _ h
                    have hc2' := (is_continuation_iff c2).mp hc2
                    have hc3' := (is_continuation_iff c3).mp hc3
                    have hc4' := (is_continuation_iff c4).mp hc4
                    simp only [List.length_cons] at hb
                    rw [hw, to_bytes_cons, ih rest4 (by omega) w1 hw1,
                      Char.toNat_ofNat_of_valid _ (by simp only [Nat.isValidChar]; omega),
                      utf8_encode_four c1 c2 c3 c4 h4 h5 hc2 hc3 hc4 (by omega)]
                    rfl
                  · exact Option.noConfusion h
                · exact Option.noConfusion h
              · exact Option.noConfusion h

theorem speech_chunks_spec (rag_text : Str) (decoded : WStr)
    (h : from_bytes rag_text = some decoded) :
    ∃ segments rest, speech_chunks rag_text = some (segments ++ [rest ++ utf8 "END"])
      ∧ (∀ seg ∈ segments, is_segment_text seg = true)
      ∧ occur_in_order (segments ++ [rest]) rag_text := by
  obtain ⟨segs, rest, hw, ht, ho⟩ := wide_chunks_spec decoded
  have hround := to_bytes_from_bytes rag_text.length rag_text (Nat.le_refl _) decoded h
  refine ⟨segs.map to_bytes, to_bytes rest, ?_, ?_, ?_⟩
  · simp only [speech_chunks, h, Option.map_some', hw, List.map_append, List.map_cons,
      List.map_nil, to_bytes_append]
    rfl
  · intro seg hs
    obtain ⟨w, hwm, rfl⟩ := List.mem_map.mp hs
    exact is_segment_text_to_bytes w (ht w hwm)
  · have := occur_in_order_map to_bytes to_bytes_append _ _ ho
    rw [hround, List.map_append] at this
    exact this

/-- C16 (amended): the chunks `rag_message_worker` sends are, in this order, segments of
the answer text (non-empty contiguous parts of it with no leading and no trailing
whitespace) taken from left to right, and then one last chunk: a remaining part of the
text that lies after all of them, followed by the marker `END`. -/
theorem sent_chunks_are_segments (s : EdgeLLMRAGSystem) (env : Collaborators)
    (rag_text : Str) :
    ∃ sent : List Str,
      (s.rag_message_worker env rag_text).2.requests = s.requests ++ sent.map .tts
      ∧ (from_bytes rag_text = none → sent = [])
      ∧ (from_bytes rag_text ≠ none →
          ∃ segments rest, sent <+: segments ++ [rest ++ utf8 "END"]
            ∧ ((s.rag_message_worker env rag_text).1 = some () →
                sent = segments ++ [rest ++ utf8 "END"])
            ∧ (∀ seg ∈ segments, is_segment_text seg = true)
            ∧ occur_in_order (segments ++ [rest]) rag_text) := by
  obtain ⟨sent, h1, h2, h3, h4⟩ := EdgeLLMRAGSystem.rag_message_worker_requests s env rag_text
  refine ⟨sent, h1, ?_, ?_⟩
  · intro hnone
    apply h3
    simp only [speech_chunks, hnone, Option.map_none']
  · intro hsome
    cases hfb : from_bytes rag_text with
    | none => exact absurd hfb hsome
    | some decoded =>
      obtain ⟨segments, rest, hc, ht, ho⟩ := speech_chunks_spec rag_text decoded hfb
      refine ⟨segments, rest, h4 _ hc, ?_, ht, ho⟩
      intro hok
      have := h2 hok
      rw [hc] at this
      exact (Option.some.inj this).symm

theorem sent_chunks_are_segments_witness :
    from_bytes (utf8 "一。二。 三 。四？五") ≠ none
    ∧ ∃ sent : List Str,
      (ready.rag_message_worker (plain_collaborators []) (utf8 "一。二。 三 。四？五")).2.requests
        = ready.requests ++ sent.map .tts
      ∧ ∃ segments rest, sent <+: segments ++ [rest ++ utf8 "END"]
        ∧ (∀ seg ∈ segments, is_segment_text seg = true)
        ∧ occur_in_order (segments ++ [rest]) (utf8 "一。二。 三 。四？五") :=
  ⟨by decide,
    (sent_chunks_are_segments ready (plain_collaborators []) (utf8 "一。二。 三 。四？五")).elim
      fun sent h => ⟨sent, h.1, (h.2.2 (by decide)).elim fun segments h2 =>
        h2.elim fun rest h3 => ⟨segments, rest, h3.1, h3.2.2.1, h3.2.2.2⟩⟩⟩

/-- C16 (counterexample): for the answer `"一。二。三。 四"` the chunks sent are `"三"` and
`" 四END"`; the second starts with a space and is not a part of the answer text. -/
theorem last_chunk_is_not_a_segment :
    (ready.rag_message_worker (plain_collaborators []) (utf8 "一。二。三。 四")).2.requests
      = [.tts (utf8 "三"), .tts (utf8 " 四END")]
    ∧ is_segment_text (utf8 " 四END") = false
    ∧ ¬ utf8 " 四END" <:+: utf8 "一。二。三。 四" := by
  decide

theorem substr_of_eq (text a b c : WStr) (n k : Nat) (ht : text = a ++ b ++ c)
    (hn : n = a.length) (hk : k = b.length) : substr text n k = b := by
  subst ht hn hk
  unfold substr
  rw [List.append_assoc, List.drop_left, List.take_left]

theorem drop_of_eq (text a b : WStr) (n : Nat) (ht : text = a ++ b) (hn : n = a.length) :
    text.drop n = b := by
  subst ht hn
  exact List.drop_left a b

/-- C17 (amended): when the decoded answer is made of five clauses separated by the four
delimiter matches `d1 .. d4` of the scan, and the third and fourth clause are not blank,
exactly three chunks are sent, in this order: the trimmed third clause, the trimmed fourth
clause, and the fifth clause followed by the marker `END`. -/
theorem five_clauses_three_chunks (rag_text : Str) (c1 c2 c3 c4 c5 d1 d2 d3 d4 : WStr)
    (htext : from_bytes rag_text = some (c1 ++ d1 ++ c2 ++ d2 ++ c3 ++ d3 ++ c4 ++ d4 ++ c5))
    (hmatches : regex_matches 0 (c1 ++ d1 ++ c2 ++ d2 ++ c3 ++ d3 ++ c4 ++ d4 ++ c5)
      = [(c1.length, d1.length),
         (c1.length + d1.length + c2.length, d2.length),
         (c1.length + d1.length + c2.length + d2.length + c3.length, d3.length),
         (c1.length + d1.length + c2.length + d2.length + c3.length + d3.length + c4.length,
           d4.length)])
    (h3 : trim c3 ≠ []) (h4 : trim c4 ≠ []) :
    speech_chunks rag_text
      = some [to_bytes (trim c3), to_bytes (trim c4), to_bytes c5 ++ utf8 "END"] := by
  have hm := regex_matches_append_END _
    (c1 ++ d1 ++ c2 ++ d2 ++ c3 ++ d3 ++ c4 ++ d4 ++ c5) (Nat.le_refl _) 0
  rw [hmatches] at hm
  have s3 : substr (c1 ++ d1 ++ c2 ++ d2 ++ c3 ++ d3 ++ c4 ++ d4 ++ c5 ++ "END".data)
      (c1.length + d1.length + c2.length + d2.length)
      (c1.length + d1.length + c2.length + d2.length + c3.length
        - (c1.length + d1.length + c2.length + d2.length)) = c3 :=
    substr_of_eq _ (c1 ++ d1 ++ c2 ++ d2) c3 (d3 ++ c4 ++ d4 ++ c5 ++ "END".data) _ _
      (by simp only [List.append_assoc]) (by simp only [List.length_append]) (by omega)
  have s4 : substr (c1 ++ d1 ++ c2 ++ d2 ++ c3 ++ d3 ++ c4 ++ d4 ++ c5 ++ "END".data)
      (c1.length + d1.length + c2.length + d2.length + c3.length + d3.length)
      (c1.length + d1.length + c2.length + d2.length + c3.length + d3.length + c4.length
        - (c1.length + d1.length + c2.length + d2.length + c3.length + d3.length)) = c4 :=
    substr_of_eq _ (c1 ++ d1 ++ c2 ++ d2 ++ c3 ++ d3) c4 (d4 ++ c5 ++ "END".data) _ _
      (by simp only [List.append_assoc]) (by simp only [List.length_append]) (by omega)
  have s5 : (c1 ++ d1 ++ c2 ++ d2 ++ c3 ++ d3 ++ c4 ++ d4 ++ c5 ++ "END".data).drop
      (c1.length + d1.length + c2.length + d2.length + c3.length + d3.length + c4.length
        + d4.length) = c5 ++ "END".data :=
    drop_of_eq _ (c1 ++ d1 ++ c2 ++ d2 ++ c3 ++ d3 ++ c4 ++ d4) (c5 ++ "END".data) _
      (by simp only [List.append_assoc]) (by simp only [List.length_append])
  have hlen : c1.length + d1.length + c2.length + d2.length + c3.length + d3.length + c4.length
      + d4.length
      < (c1 ++ d1 ++ c2 ++ d2 ++ c3 ++ d3 ++ c4 ++ d4 ++ c5 ++ "END".data).length := by
    simp only [List.length_append]
    have : ['E', 'N', 'D'].length = 3 := rfl
    omega
  have e3 : (trim c3).isEmpty = false := by
    rw [List.isEmpty_eq_false]
    exact h3
  have e4 : (trim c4).isEmpty = false := by
    rw [List.isEmpty_eq_false]
    exact h4
  have e5 : (c5 ++ "END".data).isEmpty = false := by
    rw [List.isEmpty_eq_false]
    intro h
    have := congrArg List.length h
    have : "END".data.length = 3 := rfl
    simp only [List.length_append, List.length_nil] at *
    omega
  simp only [speech_chunks, htext, Option.map_some', wide_chunks, hm, skip_loop,
    show (0 : Nat) < 2 from by decide, show (0 : Nat) + 1 < 2 from by decide,
    show ¬ (0 : Nat) + 1 + 1 < 2 from by decide, if_true, if_false, segment_loop, s3, s4, e3,
    e4, Bool.false_eq_true, hlen, s5, e5, List.cons_append, List.nil_append, List.map_cons,
    List.map_nil, to_bytes_append]
  rfl

theorem five_clauses_three_chunks_witness :
    from_bytes (utf8 "一。二？ 三 ；四，五")
      = some ("一".data ++ "。".data ++ "二".data ++ "？".data ++ " 三 ".data ++ "；".data
          ++ "四".data ++ "，".data ++ "五".data)
    ∧ trim " 三 ".data ≠ [] ∧ trim "四".data ≠ []
    ∧ speech_chunks (utf8 "一。二？ 三 ；四，五")
      = some [to_bytes (trim " 三 ".data), to_bytes (trim "四".data),
          to_bytes "五".data ++ utf8 "END"] :=
  ⟨by decide, by decide, by decide,
    five_clauses_three_chunks (utf8 "一。二？ 三 ；四，五") "一".data "二".data " 三 ".data
      "四".data "五".data "。".data "？".data "；".data "，".data
      (by decide) (by decide) (by decide) (by decide)⟩

/-- C17 (counterexample): for `"c1。c2。c3。c4。c5"` the third chunk sent is `"c5END"`, not
the remainder `"c5"`. -/
theorem third_chunk_carries_END :
    speech_chunks (utf8 "c1。c2。c3。c4。c5") = some [utf8 "c3", utf8 "c4", utf8 "c5END"]
    ∧ speech_chunks (utf8 "c1。c2。c3。c4。c5") ≠ some [utf8 "c3", utf8 "c4", utf8 "c5"] := by
  decide

/-! ## Query length (`analyze_query_features`) -/

theorem to_int_of_lt (n : Nat) (h : n < 2 ^ 31) : to_int n = n := by
  unfold to_int
  have hm : n % 2 ^ 32 = n := Nat.mod_eq_of_lt (by omega)
  rw [hm, if_pos h]

theorem utf8_encode_length_three (n : Nat) (h1 : 0x800 ≤ n) (h2 : n < 0x10000) :
    (utf8_encode n).length = 3 := by
  unfold utf8_encode
  rw [if_neg (by omega), if_neg (by omega), if_pos h2]
  rfl

theorem to_bytes_length_three (w : WStr)
    (h : ∀ c ∈ w, 0x800 ≤ c.toNat ∧ c.toNat < 0x10000) : (to_bytes w).length = 3 * w.length := by
  induction w with
  | nil => rfl
  | cons c w ih =>
    rw [to_bytes_cons, List.length_append, List.length_cons,
      utf8_encode_length_three _ (h c (List.mem_cons_self _ _)).1 (h c (List.mem_cons_self _ _)).2,
      ih fun d hd => h d (List.mem_cons_of_mem _ hd)]
    omega

/-- C21 (counterexample): the query `"你好"` is made of two code points, and its
`query_length` is 6. -/
theorem query_length_of_two_characters :
    from_bytes (utf8 "你好") = some "你好".data ∧ "你好".data.length = 2
    ∧ (sample_classifier.analyze_query_features (utf8 "你好")).query_length = 6 := by
  decide

/-- C21 (amended): the `query_length` field of `analyze_query_features(query)` is the
number of bytes of the query, read as a 32-bit `int`: below `2^31` bytes it is the byte
count itself, so a query of `k` code points of the range U+0800..U+FFFF (three bytes
each in UTF-8, as Chinese characters are) has `query_length` `3k`. -/
theorem query_length_is_byte_count (qc : QueryClassifier) (query : Str)
    (h : query.length < 2 ^ 31) :
    (qc.analyze_query_features query).query_length = to_int query.length
    ∧ (qc.analyze_query_features query).query_length = query.length
    ∧ ∀ w : WStr, query = to_bytes w → (∀ c ∈ w, 0x800 ≤ c.toNat ∧ c.toNat < 0x10000) →
        (qc.analyze_query_features query).query_length = 3 * (w.length : Int) := by
  refine ⟨rfl, to_int_of_lt _ h, ?_⟩
  intro w hw hc
  have h1 : (qc.analyze_query_features query).query_length = query.length := to_int_of_lt _ h
  rw [h1, hw, to_bytes_length_three w hc]
  push_cast
  rfl

theorem query_length_is_byte_count_witness :
    (utf8 "你好").length < 2 ^ 31
    ∧ (sample_classifier.analyze_query_features (utf8 "你好")).query_length
        = ((utf8 "你好").length : Int)
    ∧ (sample_classifier.analyze_query_features (utf8 "你好")).query_length
        = 3 * ("你好".data.length : Int) :=
  ⟨by decide, (query_length_is_byte_count sample_classifier (utf8 "你好") (by decide)).2.1,
    (query_length_is_byte_count sample_classifier (utf8 "你好") (by decide)).2.2 "你好".data
      (by decide) (by decide)⟩

/-! ## Classification without a classifier (`EdgeLLMRAGSystem::classify_query`) -/

/-- C22: an orchestrator without a classifier, as the constructor leaves it, answers
`classify_query` for every query with the degraded classification: `UNKNOWN_QUERY`,
confidence `0.0f`, a non-empty reasoning text and no immediate response; an orchestrator
with a classifier answers with that classifier's `classify_query(query)`. -/
theorem classify_query_without_classifier (s : EdgeLLMRAGSystem) (query : Str) :
    EdgeLLMRAGSystem.constructed.query_classifier_ = none
    ∧ (s.query_classifier_ = none →
        s.classify_query query
          = { query_type := .UNKNOWN_QUERY, confidence := some (F32.lit 0 1),
              reasoning := utf8 "分类器未初始化", requires_immediate_response := false }
        ∧ (F32.lit 0 1).ulps = 0 ∧ utf8 "分类器未初始化" ≠ [])
    ∧ (∀ classifier, s.query_classifier_ = some classifier →
        s.classify_query query = classifier.classify_query query) := by
  refine ⟨rfl, ?_, ?_⟩
  · intro h
    refine ⟨?_, F32.zero_ulps, by decide⟩
    simp only [EdgeLLMRAGSystem.classify_query, h]
  · intro classifier h
    simp only [EdgeLLMRAGSystem.classify_query, h]

theorem classify_query_without_classifier_witness :
    EdgeLLMRAGSystem.constructed.query_classifier_ = none
    ∧ (EdgeLLMRAGSystem.constructed.classify_query (utf8 "发动机故障")).query_type
        = .UNKNOWN_QUERY
    ∧ ready.query_classifier_ = some sample_classifier
    ∧ ready.classify_query (utf8 "发动机故障")
        = sample_classifier.classify_query (utf8 "发动机故障") :=
  ⟨rfl,
    congrArg QueryClassification.query_type
      ((classify_query_without_classifier EdgeLLMRAGSystem.constructed
        (utf8 "发动机故障")).2.1 rfl).1,
    rfl,
    (classify_query_without_classifier ready (utf8 "发动机故障")).2.2 sample_classifier rfl⟩

/-! ## The final chunk (`EdgeLLMRAGSystem::rag_message_worker`) -/

theorem getLast?_cons_getD (m : Nat × Nat) (ms : List (Nat × Nat)) (lp : Nat) :
    (((m :: ms).getLast?).map fun m => m.1 + m.2).getD lp
      = ((ms.getLast?).map fun m => m.1 + m.2).getD (m.1 + m.2) := by
  cases ms with
  | nil => rfl
  | cons b l =>
    rw [List.getLast?_cons_cons]
    cases h : (b :: l).getLast? with
    | none => exact absurd (List.getLast?_eq_none_iff.mp h) (List.cons_ne_nil _ _)
    | some x => rfl

theorem segment_loop_last_pos (text : WStr) (ms : List (Nat × Nat)) :
    ∀ lp, (segment_loop text lp ms).2 = ((ms.getLast?).map fun m => m.1 + m.2).getD lp := by
  induction ms with
  | nil =>
    intro lp
    rfl
  | cons m it ih =>
    intro lp
    rw [getLast?_cons_getD, ← ih]
    rfl

theorem skip_loop_last_pos (ms : List (Nat × Nat)) :
    ∀ k lp, (((skip_loop k lp ms).2.getLast?).map fun m => m.1 + m.2).getD (skip_loop k lp ms).1
      = ((ms.getLast?).map fun m => m.1 + m.2).getD lp := by
  induction ms with
  | nil =>
    intro k lp
    rfl
  | cons m it ih =>
    intro k lp
    by_cases hk : k < 2
    · have hs : skip_loop k lp (m :: it) = skip_loop (k + 1) (m.1 + m.2) it := by
        simp only [skip_loop, hk, if_true]
      rw [hs, ih, getLast?_cons_getD]
    · have hs : skip_loop k lp (m :: it) = (lp, m :: it) := by
        simp only [skip_loop, hk, if_false]
      rw [hs]

theorem wide_chunks_eq (D : WStr) :
    last_cut D ≤ D.length
    ∧ wide_chunks D
      = (segment_loop (D ++ "END".data) (skip_loop 0 0 (regex_matches 0 D)).1
          (skip_loop 0 0 (regex_matches 0 D)).2).1 ++ [D.drop (last_cut D) ++ "END".data] := by
  have hm : regex_matches 0 (D ++ "END".data) = regex_matches 0 D :=
    regex_matches_append_END D.length D (Nat.le_refl _) 0
  have hp : placed 0 D.length (regex_matches 0 D) := by
    have := regex_matches_placed D.length D (Nat.le_refl _) 0
    rwa [Nat.zero_add] at this
  have hs := skip_loop_placed D.length (regex_matches 0 D) 0 0 0 (Nat.le_refl _) hp
  obtain ⟨h1, _, _⟩ := segment_loop_spec D "END".data _ _ hs
  have hlast : (segment_loop (D ++ "END".data) (skip_loop 0 0 (regex_matches 0 D)).1
      (skip_loop 0 0 (regex_matches 0 D)).2).2 = last_cut D := by
    rw [segment_loop_last_pos, skip_loop_last_pos]
    rfl
  rw [hlast] at h1
  refine ⟨h1, ?_⟩
  have hlen : last_cut D < (D ++ "END".data).length := by
    rw [List.length_append]
    have : "END".data.length = 3 := rfl
    omega
  have hdrop := @List.drop_append_of_le_length _ D "END".data _ h1
  have hne : (List.drop (last_cut D) D ++ "END".data).isEmpty = false := by
    rw [List.isEmpty_eq_false]
    intro h
    have := congrArg List.length h
    rw [List.length_append] at this
    have : "END".data.length = 3 := rfl
    simp only [List.length_nil] at *
    omega
  simp only [wide_chunks, hm, hlast, hlen, if_true, hdrop, hne, Bool.false_eq_true, if_false]

theorem speech_chunks_eq (rag_text : Str) (decoded : WStr)
    (h : from_bytes rag_text = some decoded) :
    ∃ segments, speech_chunks rag_text
      = some (segments ++ [to_bytes (decoded.drop (last_cut decoded)) ++ utf8 "END"]) := by
  refine ⟨(segment_loop (decoded ++ "END".data) (skip_loop 0 0 (regex_matches 0 decoded)).1
    (skip_loop 0 0 (regex_matches 0 decoded)).2).1.map to_bytes, ?_⟩
  simp only [speech_chunks, h, Option.map_some', (wide_chunks_eq decoded).2, List.map_append,
    List.map_cons, List.map_nil, to_bytes_append]
  rfl

/-- C23 (counterexample): for the answer `"一。二。三。"`, which ends exactly at the end of
a delimiter match, a final chunk `"END"` is sent after the segment `"三"`; for the empty
answer the chunk `"END"` is sent; and for `"甲。乙。丙。 丁"` the final chunk is `" 丁END"`:
it starts with a space and ends with the marker. -/
theorem final_chunk_sent_at_end_of_delimiter :
    (ready.rag_message_worker (plain_collaborators []) (utf8 "一。二。三。")).2.requests
      = [.tts (utf8 "三"), .tts (utf8 "END")]
    ∧ last_cut "一。二。三。".data = "一。二。三。".data.length
    ∧ (ready.rag_message_worker (plain_collaborators []) []).2.requests = [.tts (utf8 "END")]
    ∧ (ready.rag_message_worker (plain_collaborators []) (utf8 "甲。乙。丙。 丁")).2.requests
      = [.tts (utf8 "丙"), .tts (utf8 " 丁END")] := by
  decide

/-- C23 (amended): after the scan the segmenter always hands one final chunk to the
speech output: the answer text past the last cut (the end of the last delimiter match,
or the start of the text when there is none), as it stands, followed by the marker
`END`. For an answer that ends exactly at the end of a delimiter match, and for the
empty answer, the final chunk is the marker `END` alone. -/
theorem final_chunk_is_remainder_and_END (rag_text : Str) (decoded : WStr)
    (h : from_bytes rag_text = some decoded) :
    last_cut decoded ≤ decoded.length
    ∧ ∃ segments,
        speech_chunks rag_text
          = some (segments ++ [to_bytes (decoded.drop (last_cut decoded)) ++ utf8 "END"])
        ∧ (last_cut decoded = decoded.length →
            speech_chunks rag_text = some (segments ++ [utf8 "END"]))
        ∧ ∀ (s : EdgeLLMRAGSystem) (env : Collaborators),
            (s.rag_message_worker env rag_text).1 = some () →
            (s.rag_message_worker env rag_text).2.requests
              = s.requests ++ (segments
                  ++ [to_bytes (decoded.drop (last_cut decoded)) ++ utf8 "END"]).map .tts := by
  obtain ⟨segments, hc⟩ := speech_chunks_eq rag_text decoded h
  refine ⟨(wide_chunks_eq decoded).1, segments, hc, ?_, ?_⟩
  · intro hl
    rw [hc, hl, List.drop_length]
    rfl
  · intro s env hok
    obtain ⟨sent, h1, h2, _, _⟩ := EdgeLLMRAGSystem.rag_message_worker_requests s env rag_text
    have h3 := h2 hok
    rw [hc] at h3
    rw [h1, ← Option.some.inj h3]

theorem final_chunk_is_remainder_and_END_witness :
    from_bytes (utf8 "一。二。三。") = some "一。二。三。".data
    ∧ last_cut "一。二。三。".data = "一。二。三。".data.length
    ∧ ∃ segments, speech_chunks (utf8 "一。二。三。") = some (segments ++ [utf8 "END"]) :=
  ⟨by decide, by decide,
    (final_chunk_is_remainder_and_END (utf8 "一。二。三。") "一。二。三。".data
      (by decide)).2.elim fun segments hs => ⟨segments, hs.2.1 (by decide)⟩⟩

/-! ## The extracted keyword list -/

theorem extract_keywords_eq (qc : QueryClassifier) (query : Str) :
    qc.extract_keywords query = qc.iteration.flatMap (found_literals query) := rfl

theorem extract_keywords_perm (qc : QueryClassifier) (query : Str) :
    (qc.extract_keywords query).Perm
      (found_literals query .emergency ++ (found_literals query .technical
        ++ (found_literals query .maintenance ++ (found_literals query .feature
        ++ (found_literals query .question ++ found_literals query .creative))))) := by
  have h := List.Perm.flatMap_right (found_literals query) qc.iteration_perm
  rw [extract_keywords_eq]
  refine h.trans ?_
  simp only [Category.all, List.flatMap_cons, List.flatMap_nil, List.append_nil]
  exact List.Perm.refl _

theorem in_category_iff (c : Category) (k : Str) :
    in_category c k = true ↔ k ∈ keyword_dict_ c := by
  simp only [in_category, List.contains_iff_exists_mem_beq, beq_iff_eq]
  constructor
  · rintro ⟨w, hw, rfl⟩
    exact hw
  · intro h
    exact ⟨k, h, rfl⟩

theorem mem_found_literals (query : Str) (c : Category) (k : Str) :
    k ∈ found_literals query c ↔ k ∈ keyword_dict_ c ∧ k <:+: query := by
  simp only [found_literals, List.mem_filter, str_contains_iff]

theorem mem_extract_keywords (qc : QueryClassifier) (query k : Str) :
    k ∈ qc.extract_keywords query ↔ (∃ c, k ∈ keyword_dict_ c) ∧ k <:+: query := by
  rw [extract_keywords_eq, List.mem_flatMap]
  constructor
  · rintro ⟨c, _, hk⟩
    exact ⟨⟨c, ((mem_found_literals _ _ _).mp hk).1⟩, ((mem_found_literals _ _ _).mp hk).2⟩
  · rintro ⟨⟨c, hc⟩, hq⟩
    exact ⟨c, Category.mem_iteration qc c, (mem_found_literals _ _ _).mpr ⟨hc, hq⟩⟩

theorem found_literals_eq_nil (query : Str) (c : Category) :
    found_literals query c = [] ↔ detect_words c query = false := by
  simp only [found_literals, detect_words, List.filter_eq_nil_iff, List.any_eq_false]

theorem length_extract_keywords (qc : QueryClassifier) (query : Str) :
    (qc.extract_keywords query).length
      = (found_literals query .emergency).length + (found_literals query .technical).length
        + (found_literals query .maintenance).length + (found_literals query .feature).length
        + (found_literals query .question).length + (found_literals query .creative).length := by
  rw [(extract_keywords_perm qc query).length_eq]
  simp only [List.length_append]
  omega

theorem countP_found_literals (query : Str) (c : Category) :
    (found_literals query c).countP (in_category c) = (found_literals query c).length := by
  rw [List.countP_eq_length]
  intro k hk
  exact (in_category_iff c k).mpr ((mem_found_literals _ _ _).mp hk).1

theorem countP_extract_keywords (qc : QueryClassifier) (query : Str) (p : Str → Bool) :
    (qc.extract_keywords query).countP p
      = (found_literals query .emergency).countP p + (found_literals query .technical).countP p
        + (found_literals query .maintenance).countP p
        + (found_literals query .feature).countP p
        + (found_literals query .question).countP p
        + (found_literals query .creative).countP p := by
  rw [(extract_keywords_perm qc query).countP_eq]
  simp only [List.countP_append]
  omega

theorem length_found_le_countP (qc : QueryClassifier) (query : Str) (c : Category) :
    (found_literals query c).length
      ≤ (qc.extract_keywords query).countP (in_category c) := by
  rw [countP_extract_keywords, ← countP_found_literals]
  cases c <;> omega

theorem emergency_count_pos_iff (qc : QueryClassifier) (query : Str) :
    1 ≤ (qc.extract_keywords query).countP (in_category .emergency)
      ↔ detect_words .emergency query = true := by
  constructor
  · intro h
    obtain ⟨k, hk, hin⟩ := List.countP_pos_iff.mp h
    rw [detect_words_iff]
    exact ⟨k, (in_category_iff _ _).mp hin, ((mem_extract_keywords _ _ _).mp hk).2⟩
  · intro h
    exact emergency_count_pos qc query ((detect_words_iff _ _).mp h)

theorem urgency_of_count_pos_iff (n : Nat) :
    F32.gt (urgency_of_count n) (F32.lit 0 1) = true ↔ 1 ≤ n := by
  constructor
  · intro h
    cases n with
    | zero => exact absurd h (by decide!)
    | succ n => omega
  · intro h
    have h1 : (F32.lit 0 1).ulps < (urgency_of_count 1).ulps := by decide!
    exact F32.lt_of_lt _ _ (Nat.lt_of_lt_of_le h1 (urgency_of_count_mono 1 n h))

theorem urgency_of_count_gt_threshold (n : Nat)
    (h : F32.gt (urgency_of_count n) (F32.lit 7 10) = true) : 3 ≤ n := by
  by_contra hn
  have h2 : (urgency_of_count 2).ulps ≤ (F32.lit 7 10).ulps := by decide!
  have := F32.lt_false_of_le (F32.lit 7 10) (urgency_of_count n)
    (Nat.le_trans (urgency_of_count_mono n 2 (by omega)) h2)
  simp only [F32.gt] at h
  rw [this] at h
  exact Bool.noConfusion h

theorem features_urgency_score (qc : QueryClassifier) (query : Str) :
    (qc.analyze_query_features query).urgency_score
      = urgency_of_count ((qc.extract_keywords query).countP (in_category .emergency)) := by
  simp only [QueryClassifier.analyze_query_features]
  exact calculate_urgency_score_eq _

theorem features_factual_score (qc : QueryClassifier) (query : Str) :
    (qc.analyze_query_features query).factual_score
      = calculate_factual_score (qc.extract_keywords query) := by
  simp only [QueryClassifier.analyze_query_features]

theorem features_creative_score (qc : QueryClassifier) (query : Str) :
    (qc.analyze_query_features query).creative_score
      = calculate_creative_score (qc.extract_keywords query) := by
  simp only [QueryClassifier.analyze_query_features]

theorem features_complexity_score (qc : QueryClassifier) (query : Str) :
    (qc.analyze_query_features query).complexity_score
      = calculate_complexity_score query (qc.extract_keywords query) := by
  simp only [QueryClassifier.analyze_query_features]

theorem features_contains_emergency_words (qc : QueryClassifier) (query : Str) :
    (qc.analyze_query_features query).contains_emergency_words
      = detect_words .emergency query := by
  simp only [QueryClassifier.analyze_query_features]

theorem features_contains_question_words (qc : QueryClassifier) (query : Str) :
    (qc.analyze_query_features query).contains_question_words
      = detect_words .question query := by
  simp only [QueryClassifier.analyze_query_features]

/-- C26: for every query, `contains_emergency_words` holds exactly when `urgency_score`
is positive; so `classify_query` answers `EMERGENCY_QUERY` exactly when
`contains_emergency_words` holds, and `requires_immediate_response` (at least three
emergency entries in the keyword list) implies the answer `EMERGENCY_QUERY`. -/
theorem emergency_iff_contains_emergency_words (qc : QueryClassifier) (query : Str) :
    ((qc.analyze_query_features query).contains_emergency_words = true
      ↔ F32.gt (qc.analyze_query_features query).urgency_score (F32.lit 0 1) = true)
    ∧ (F32.gt (qc.analyze_query_features query).urgency_score (F32.lit 7 10) = true →
        (qc.analyze_query_features query).contains_emergency_words = true)
    ∧ ((qc.classify_query query).query_type = .EMERGENCY_QUERY
      ↔ (qc.analyze_query_features query).contains_emergency_words = true)
    ∧ ((qc.classify_query query).requires_immediate_response = true →
        3 ≤ (qc.extract_keywords query).countP (in_category .emergency)
        ∧ (qc.classify_query query).query_type = .EMERGENCY_QUERY) := by
  simp only [QueryClassifier.classify_query]
  rw [features_urgency_score, features_contains_emergency_words]
  have h0 := urgency_of_count_pos_iff
    ((qc.extract_keywords query).countP (in_category .emergency))
  have h7 := urgency_of_count_gt_threshold
    ((qc.extract_keywords query).countP (in_category .emergency))
  have hd := emergency_count_pos_iff qc query
  generalize (qc.extract_keywords query).countP (in_category .emergency) = n at h0 h7 hd
  generalize urgency_of_count n = u at h0 h7
  generalize detect_words .emergency query = d at hd
  generalize F32.gt u (F32.lit 7 10) = g7 at h7
  generalize F32.gt u (F32.lit 0 1) = g0 at h0
  have h3 : g7 = true → d = true := fun h => hd.mp (by have := h7 h; omega)
  refine ⟨hd.symm.trans h0.symm, h3, ?_, fun h => ⟨h7 h, ?_⟩⟩
  · constructor
    · intro h
      cases d
      · cases g7
        · simp only [Bool.or_self, Bool.false_eq_true, if_false] at h
          split_ifs at h
        · exact h3 rfl
      · rfl
    · intro h
      rw [h, Bool.or_true, if_pos rfl]
  · rw [h, Bool.true_or, if_pos rfl]

theorem emergency_iff_contains_emergency_words_witness :
    (sample_classifier.classify_query (utf8 "故障警告危险")).requires_immediate_response = true
    ∧ 3 ≤ (sample_classifier.extract_keywords (utf8 "故障警告危险")).countP
        (in_category .emergency)
    ∧ (sample_classifier.classify_query (utf8 "故障警告危险")).query_type = .EMERGENCY_QUERY :=
  ⟨by decide!,
    ((emergency_iff_contains_emergency_words sample_classifier (utf8 "故障警告危险")).2.2.2
      (by decide!)).1,
    ((emergency_iff_contains_emergency_words sample_classifier (utf8 "故障警告危险")).2.2.2
      (by decide!)).2⟩

/-! ## Multiplicities in the keyword list -/

theorem keyword_dict_nodup (c : Category) : (keyword_dict_ c).Nodup := by
  cases c <;> decide!

theorem countP_eq_filter_of_nodup (q : Str → Bool) (w : Str) :
    ∀ l : List Str, l.Nodup →
      (l.filter q).countP (fun k => decide (k = w)) = if w ∈ l ∧ q w = true then 1 else 0 := by
  intro l
  induction l with
  | nil => intro _; simp
  | cons a l ih =>
    intro hl
    obtain ⟨ha, hl⟩ := List.nodup_cons.mp hl
    by_cases haw : a = w
    · subst haw
      have hnot : ¬ (a ∈ l ∧ q a = true) := fun h => ha h.1
      have ih2 := ih hl
      rw [if_neg hnot] at ih2
      by_cases hq : q a = true
      · rw [List.filter_cons_of_pos hq, List.countP_cons_of_pos _ _ (by simp), ih2,
          if_pos ⟨List.mem_cons_self _ _, hq⟩]
      · rw [List.filter_cons_of_neg hq, ih2, if_neg fun h => hq h.2]
    · have hiff : (w ∈ a :: l ∧ q w = true) ↔ (w ∈ l ∧ q w = true) := by
        simp only [List.mem_cons]
        constructor
        · rintro ⟨h1 | h1, h2⟩
          · exact absurd h1.symm haw
          · exact ⟨h1, h2⟩
        · rintro ⟨h1, h2⟩
          exact ⟨Or.inr h1, h2⟩
      rw [if_congr hiff rfl rfl, ← ih hl]
      by_cases hq : q a = true
      · rw [List.filter_cons_of_pos hq, List.countP_cons_of_neg _ _ (by simp [haw])]
      · rw [List.filter_cons_of_neg hq]

theorem countP_eq_found_literals (query : Str) (c : Category) (w : Str) :
    (found_literals query c).countP (fun k => decide (k = w))
      = if w <:+: query ∧ in_category c w = true then 1 else 0 := by
  unfold found_literals
  rw [countP_eq_filter_of_nodup _ w _ (keyword_dict_nodup c)]
  apply if_congr _ rfl rfl
  rw [str_contains_iff, in_category_iff]
  exact And.comm

/-- C24: for every query and every literal `w`, the number of entries of
`extract_keywords(query)` equal to `w` is the number of dictionary categories that list
`w` when `w` occurs in the query as a substring, and 0 otherwise. Containment is the only
test: for the query `"发动机故障"` the literal `"故障"`, which lies inside the matched
literal `"发动机故障"`, is reported as well, and `"娱乐"`, listed by two categories, is
reported twice for a query that contains it. -/
theorem extract_keywords_multiplicity (qc : QueryClassifier) (query w : Str) :
    (qc.extract_keywords query).countP (fun k => decide (k = w))
        = (if w <:+: query then (Category.all.filter fun c => in_category c w).length else 0)
    ∧ (qc.extract_keywords (utf8 "发动机故障")).countP (fun k => decide (k = utf8 "故障")) = 1
    ∧ (qc.extract_keywords (utf8 "发动机故障")).countP
        (fun k => decide (k = utf8 "发动机故障")) = 1
    ∧ (qc.extract_keywords (utf8 "娱乐")).countP (fun k => decide (k = utf8 "娱乐")) = 2 := by
  have main : ∀ query w : Str, (qc.extract_keywords query).countP (fun k => decide (k = w))
      = (if w <:+: query then (Category.all.filter fun c => in_category c w).length
          else 0) := by
    intro query w
    rw [countP_extract_keywords]
    simp only [countP_eq_found_literals]
    by_cases hq : w <:+: query
    · simp only [hq, true_and, if_true, ← List.countP_eq_length_filter, Category.all,
        List.countP_cons, List.countP_nil]
      omega
    · simp only [hq, false_and, if_false]
  refine ⟨main query w, ?_, ?_, ?_⟩
  · rw [main]
    decide
  · rw [main]
    decide
  · rw [main]
    decide

/-! ## The factual score -/

theorem F32.mul_mono_right (a b c : F32) (h : b.ulps ≤ c.ulps) :
    (F32.mul a b).ulps ≤ (F32.mul a c).ulps :=
  F32.round_mono _ _ _ (Nat.two_pow_pos _) (Nat.mul_le_mul_left _ h)

theorem F32.min_eq_left (a b : F32) (h : a.ulps ≤ b.ulps) : F32.min a b = a := by
  unfold F32.min
  rw [F32.lt_false_of_le b a h]
  rfl

theorem factual_state_add_four (n4 n5 : Nat) (score : F32) (h : factual_state n4 n5 score) :
    factual_state (n4 + 1) n5 (F32.add score (F32.lit 4 10)) := by
  have hsmall : ∀ a < 3, ∀ b < 3,
      (a + b ≤ 1 → F32.add (factual_sum a b) (F32.lit 4 10) = factual_sum (a + 1) b)
      ∧ (a + b = 2 →
          (F32.lit 1 1).ulps ≤ (F32.add (factual_sum a b) (F32.lit 4 10)).ulps) := by
    decide!
  have hlarge : (F32.lit 1 1).ulps ≤ (F32.add (F32.lit 1 1) (F32.lit 4 10)).ulps := by decide!
  rcases h with ⟨hn, hs⟩ | ⟨hn, hs⟩
  · subst hs
    by_cases h1 : n4 + n5 ≤ 1
    · exact Or.inl ⟨by omega, (hsmall n4 (by omega) n5 (by omega)).1 h1⟩
    · exact Or.inr ⟨by omega, (hsmall n4 (by omega) n5 (by omega)).2 (by omega)⟩
  · exact Or.inr ⟨by omega,
      Nat.le_trans hlarge (F32.add_mono _ _ _ _ hs (Nat.le_refl _))⟩

theorem factual_state_add_five (n4 n5 : Nat) (score : F32) (h : factual_state n4 n5 score) :
    factual_state n4 (n5 + 1) (F32.add score (F32.lit 5 10)) := by
  have hsmall : ∀ a < 3, ∀ b < 3,
      (a + b ≤ 1 → F32.add (factual_sum a b) (F32.lit 5 10) = factual_sum a (b + 1))
      ∧ (a + b = 2 →
          (F32.lit 1 1).ulps ≤ (F32.add (factual_sum a b) (F32.lit 5 10)).ulps) := by
    decide!
  have hlarge : (F32.lit 1 1).ulps ≤ (F32.add (F32.lit 1 1) (F32.lit 5 10)).ulps := by decide!
  rcases h with ⟨hn, hs⟩ | ⟨hn, hs⟩
  · subst hs
    by_cases h1 : n4 + n5 ≤ 1
    · exact Or.inl ⟨by omega, (hsmall n4 (by omega) n5 (by omega)).1 h1⟩
    · exact Or.inr ⟨by omega, (hsmall n4 (by omega) n5 (by omega)).2 (by omega)⟩
  · exact Or.inr ⟨by omega,
      Nat.le_trans hlarge (F32.add_mono _ _ _ _ hs (Nat.le_refl _))⟩

theorem factual_state_foldl (keywords : List Str) :
    ∀ n4 n5 score, factual_state n4 n5 score →
      factual_state
        (n4 + (keywords.countP (in_category .technical)
          + keywords.countP (in_category .maintenance)))
        (n5 + keywords.countP (in_category .feature))
        (keywords.foldl (fun score keyword =>
          let score :=
            if in_category .technical keyword then F32.add score (F32.lit 4 10) else score
          let score :=
            if in_category .maintenance keyword then F32.add score (F32.lit 4 10) else score
          if in_category .feature keyword then F32.add score (F32.lit 5 10) else score)
          score) := by
  induction keywords with
  | nil =>
    intro n4 n5 score h
    exact h
  | cons k keywords ih =>
    intro n4 n5 score h
    rw [List.foldl_cons, List.countP_cons, List.countP_cons, List.countP_cons]
    cases ht : in_category .technical k <;> cases hm : in_category .maintenance k
      <;> cases hf : in_category .feature k
      <;> simp only [Bool.false_eq_true, if_false, if_true, Nat.add_zero]
    · exact ih _ _ _ h
    · have := ih _ _ _ (factual_state_add_five _ _ _ h)
      rwa [show n5 + 1 + List.countP (in_category .feature) keywords
        = n5 + (List.countP (in_category .feature) keywords + 1) from by omega] at this
    · have := ih _ _ _ (factual_state_add_four _ _ _ h)
      rwa [show n4 + 1 + (List.countP (in_category .technical) keywords
          + List.countP (in_category .maintenance) keywords)
        = n4 + (List.countP (in_category .technical) keywords
          + (List.countP (in_category .maintenance) keywords + 1)) from by omega] at this
    · have := ih _ _ _ (factual_state_add_five _ _ _ (factual_state_add_four _ _ _ h))
      rwa [show n4 + 1 + (List.countP (in_category .technical) keywords
          + List.countP (in_category .maintenance) keywords)
        = n4 + (List.countP (in_category .technical) keywords
          + (List.countP (in_category .maintenance) keywords + 1)) from by omega,
        show n5 + 1 + List.countP (in_category .feature) keywords
        = n5 + (List.countP (in_category .feature) keywords + 1) from by omega] at this
    · have := ih _ _ _ (factual_state_add_four _ _ _ h)
      rwa [show n4 + 1 + (List.countP (in_category .technical) keywords
          + List.countP (in_category .maintenance) keywords)
        = n4 + (List.countP (in_category .technical) keywords + 1
          + List.countP (in_category .maintenance) keywords) from by omega] at this
    · have := ih _ _ _ (factual_state_add_five _ _ _ (factual_state_add_four _ _ _ h))
      rwa [show n4 + 1 + (List.countP (in_category .technical) keywords
          + List.countP (in_category .maintenance) keywords)
        = n4 + (List.countP (in_category .technical) keywords + 1
          + List.countP (in_category .maintenance) keywords) from by omega,
        show n5 + 1 + List.countP (in_category .feature) keywords
        = n5 + (List.countP (in_category .feature) keywords + 1) from by omega] at this
    · have := ih _ _ _ (factual_state_add_four _ _ _ (factual_state_add_four _ _ _ h))
      rwa [show n4 + 1 + 1 + (List.countP (in_category .technical) keywords
          + List.countP (in_category .maintenance) keywords)
        = n4 + (List.countP (in_category .technical) keywords + 1
          + (List.countP (in_category .maintenance) keywords + 1)) from by omega] at this
    · have := ih _ _ _ (factual_state_add_five _ _ _
        (factual_state_add_four _ _ _ (factual_state_add_four _ _ _ h)))
      rwa [show n4 + 1 + 1 + (List.countP (in_category .technical) keywords
          + List.countP (in_category .maintenance) keywords)
        = n4 + (List.countP (in_category .technical) keywords + 1
          + (List.countP (in_category .maintenance) keywords + 1)) from by omega,
        show n5 + 1 + List.countP (in_category .feature) keywords
        = n5 + (List.countP (in_category .feature) keywords + 1) from by omega] at this

theorem factual_state_of_keywords (keywords : List Str) :
    ∃ score, calculate_factual_score keywords = F32.min (F32.lit 1 1) score
      ∧ factual_state
          (keywords.countP (in_category .technical) + keywords.countP (in_category .maintenance))
          (keywords.countP (in_category .feature)) score := by
  refine ⟨_, rfl, ?_⟩
  have h0 : factual_state 0 0 (F32.lit 0 1) := Or.inl ⟨by omega, by decide!⟩
  have := factual_state_foldl keywords 0 0 _ h0
  rwa [Nat.zero_add, Nat.zero_add] at this

theorem factual_inner_mono (t m f t2 m2 f2 : Nat) (ht : t ≤ t2) (hm : m ≤ m2) (hf : f ≤ f2) :
    (F32.add
      (F32.add (F32.mul (F32.lit 4 10) (F32.ofNat t)) (F32.mul (F32.lit 4 10) (F32.ofNat m)))
      (F32.mul (F32.lit 5 10) (F32.ofNat f))).ulps
    ≤ (F32.add
      (F32.add (F32.mul (F32.lit 4 10) (F32.ofNat t2)) (F32.mul (F32.lit 4 10) (F32.ofNat m2)))
      (F32.mul (F32.lit 5 10) (F32.ofNat f2))).ulps :=
  F32.add_mono _ _ _ _
    (F32.add_mono _ _ _ _ (F32.mul_mono_right _ _ _ (F32.ofNat_mono _ _ ht))
      (F32.mul_mono_right _ _ _ (F32.ofNat_mono _ _ hm)))
    (F32.mul_mono_right _ _ _ (F32.ofNat_mono _ _ hf))

theorem factual_of_counts_saturated (t m f : Nat) (h : 3 ≤ t + m + f) :
    factual_of_counts t m f = F32.lit 1 1 := by
  have hthree : ∀ a < 4, ∀ b < 4, a + b ≤ 3 →
      (F32.lit 1 1).ulps ≤ (F32.add
        (F32.add (F32.mul (F32.lit 4 10) (F32.ofNat a)) (F32.mul (F32.lit 4 10) (F32.ofNat b)))
        (F32.mul (F32.lit 5 10) (F32.ofNat (3 - a - b)))).ulps := by
    decide!
  have h1 := hthree (min t 3) (by omega) (min m (3 - min t 3)) (by omega) (by omega)
  have h2 := factual_inner_mono (min t 3) (min m (3 - min t 3))
    (3 - min t 3 - min m (3 - min t 3)) t m f (by omega) (by omega) (by omega)
  exact F32.min_eq_left _ _ (Nat.le_trans h1 h2)

theorem calculate_factual_score_eq (keywords : List Str) :
    calculate_factual_score keywords
      = factual_of_counts (keywords.countP (in_category .technical))
          (keywords.countP (in_category .maintenance))
          (keywords.countP (in_category .feature)) := by
  have hsmall : ∀ t < 3, ∀ m < 3, ∀ f < 3, t + m + f ≤ 2 →
      F32.min (F32.lit 1 1) (factual_sum (t + m) f) = factual_of_counts t m f := by
    decide!
  obtain ⟨score, hs, hst⟩ := factual_state_of_keywords keywords
  rw [hs]
  rcases hst with ⟨hn, hv⟩ | ⟨hn, hv⟩
  · rw [hv]
    exact hsmall _ (by omega) _ (by omega) _ (by omega) (by omega)
  · rw [F32.min_eq_left _ _ hv, factual_of_counts_saturated _ _ _ (by omega)]

theorem factual_of_counts_mono (t m f t2 m2 f2 : Nat) (ht : t ≤ t2) (hm : m ≤ m2)
    (hf : f ≤ f2) : (factual_of_counts t m f).ulps ≤ (factual_of_counts t2 m2 f2).ulps :=
  F32.min_mono _ _ _ (factual_inner_mono t m f t2 m2 f2 ht hm hf)

theorem factual_of_counts_ge_half (t m f : Nat) (h : 1 ≤ f ∨ 2 ≤ t + m) :
    (F32.lit 5 10).ulps ≤ (factual_of_counts t m f).ulps := by
  have h001 : (F32.lit 5 10).ulps ≤ (factual_of_counts 0 0 1).ulps := by decide!
  have h200 : (F32.lit 5 10).ulps ≤ (factual_of_counts 2 0 0).ulps := by decide!
  have h110 : (F32.lit 5 10).ulps ≤ (factual_of_counts 1 1 0).ulps := by decide!
  have h020 : (F32.lit 5 10).ulps ≤ (factual_of_counts 0 2 0).ulps := by decide!
  rcases h with h | h
  · exact Nat.le_trans h001 (factual_of_counts_mono _ _ _ _ _ _ (by omega) (by omega) h)
  · by_cases h2 : 2 ≤ t
    · exact Nat.le_trans h200 (factual_of_counts_mono _ _ _ _ _ _ h2 (by omega) (by omega))
    · by_cases h1 : 1 ≤ t
      · exact Nat.le_trans h110
          (factual_of_counts_mono _ _ _ _ _ _ h1 (by omega) (by omega))
      · exact Nat.le_trans h020
          (factual_of_counts_mono _ _ _ _ _ _ (by omega) (by omega) (by omega))

/-- C25: the factual score is `min(1, 0.4·T + 0.4·M + 0.5·F)` in binary32 arithmetic,
`T`, `M` and `F` being the numbers of entries of the extracted keyword list that belong
to the technical, maintenance and feature categories. So when exactly one entry is
technical or maintenance and none is a feature, the score is `0.4f` and the query is not
classified `FACTUAL_QUERY`; and when some entry is a feature the score is at least
`0.5f`. -/
theorem factual_score_of_counts (qc : QueryClassifier) (query : Str) :
    (qc.analyze_query_features query).factual_score
      = factual_of_counts ((qc.extract_keywords query).countP (in_category .technical))
          ((qc.extract_keywords query).countP (in_category .maintenance))
          ((qc.extract_keywords query).countP (in_category .feature))
    ∧ ((qc.extract_keywords query).countP (in_category .technical)
          + (qc.extract_keywords query).countP (in_category .maintenance) = 1 →
        (qc.extract_keywords query).countP (in_category .feature) = 0 →
        (qc.analyze_query_features query).factual_score = F32.lit 4 10
        ∧ (qc.classify_query query).query_type ≠ .FACTUAL_QUERY)
    ∧ (1 ≤ (qc.extract_keywords query).countP (in_category .feature) →
        F32.ge (qc.analyze_query_features query).factual_score (F32.lit 5 10) = true) := by
  have hf : (qc.analyze_query_features query).factual_score
      = factual_of_counts ((qc.extract_keywords query).countP (in_category .technical))
          ((qc.extract_keywords query).countP (in_category .maintenance))
          ((qc.extract_keywords query).countP (in_category .feature)) := by
    rw [features_factual_score]
    exact calculate_factual_score_eq _
  refine ⟨hf, ?_, ?_⟩
  · intro h1 h0
    have hone : ∀ t < 2, ∀ m < 2, t + m = 1 → factual_of_counts t m 0 = F32.lit 4 10 := by
      decide!
    have hv : (qc.analyze_query_features query).factual_score = F32.lit 4 10 := by
      rw [hf, h0]
      exact hone _ (by omega) _ (by omega) h1
    refine ⟨hv, ?_⟩
    simp only [QueryClassifier.classify_query]
    rw [hv]
    have hlt : F32.ge (F32.lit 4 10) (F32.lit 5 10) = false := by decide!
    rw [hlt]
    intro h
    simp only [Bool.false_eq_true, if_false] at h
    split_ifs at h
  · intro h
    rw [hf]
    exact F32.ge_of_le _ _ (factual_of_counts_ge_half _ _ _ (Or.inl h))

theorem factual_score_of_counts_witness :
    (sample_classifier.extract_keywords (utf8 "发动机")).countP (in_category .technical)
        + (sample_classifier.extract_keywords (utf8 "发动机")).countP
            (in_category .maintenance) = 1
    ∧ (sample_classifier.extract_keywords (utf8 "发动机")).countP (in_category .feature) = 0
    ∧ (sample_classifier.analyze_query_features (utf8 "发动机")).factual_score = F32.lit 4 10
    ∧ (sample_classifier.classify_query (utf8 "发动机")).query_type ≠ .FACTUAL_QUERY
    ∧ 1 ≤ (sample_classifier.extract_keywords (utf8 "导航")).countP (in_category .feature)
    ∧ F32.ge (sample_classifier.analyze_query_features (utf8 "导航")).factual_score
        (F32.lit 5 10) = true :=
  ⟨by decide, by decide,
    ((factual_score_of_counts sample_classifier (utf8 "发动机")).2.1 (by decide)
      (by decide)).1,
    ((factual_score_of_counts sample_classifier (utf8 "发动机")).2.1 (by decide)
      (by decide)).2,
    by decide,
    (factual_score_of_counts sample_classifier (utf8 "导航")).2.2 (by decide)⟩

/-! ## The complexity score and the `COMPLEX_QUERY` rule -/

theorem F32.div_mono (a b c : F32) (hc : 0 < c.ulps) (h : a.ulps ≤ b.ulps) :
    (F32.div a c).ulps ≤ (F32.div b c).ulps :=
  F32.round_mono _ _ _ hc (Nat.mul_le_mul_right _ h)

theorem calculate_complexity_score_eq (query : Str) (keywords : List Str) :
    calculate_complexity_score query keywords
      = complexity_of_counts query.length keywords.length
          (keywords.countP (in_category .technical)) := by
  simp only [calculate_complexity_score, complexity_of_counts, foldl_count, Nat.zero_add]

theorem complexity_of_counts_le (len k t k2 t2 : Nat) (hk : k ≤ k2) (ht : t ≤ t2) :
    (complexity_of_counts len k t).ulps ≤ (complexity_of_counts 100 k2 t2).ulps := by
  have h100 : F32.min (F32.lit 1 1) (F32.div (F32.ofNat 100) (F32.lit 100 1)) = F32.lit 1 1 := by
    decide!
  have p10 : 0 < (F32.lit 10 1).ulps := by decide!
  have p5 : 0 < (F32.lit 5 1).ulps := by decide!
  have h1 : (F32.min (F32.lit 1 1) (F32.div (F32.ofNat len) (F32.lit 100 1))).ulps
      ≤ (F32.min (F32.lit 1 1) (F32.div (F32.ofNat 100) (F32.lit 100 1))).ulps := by
    rw [h100]
    exact F32.min_le_left _ _
  have h2 : (F32.min (F32.lit 1 1) (F32.div (F32.ofNat k) (F32.lit 10 1))).ulps
      ≤ (F32.min (F32.lit 1 1) (F32.div (F32.ofNat k2) (F32.lit 10 1))).ulps :=
    F32.min_mono _ _ _ (F32.div_mono _ _ _ p10 (F32.ofNat_mono _ _ hk))
  have h3 : (F32.min (F32.lit 1 1) (F32.div (F32.ofNat t) (F32.lit 5 1))).ulps
      ≤ (F32.min (F32.lit 1 1) (F32.div (F32.ofNat t2) (F32.lit 5 1))).ulps :=
    F32.min_mono _ _ _ (F32.div_mono _ _ _ p5 (F32.ofNat_mono _ _ ht))
  simp only [complexity_of_counts]
  exact F32.min_mono _ _ _
    (F32.add_mono _ _ _ _
      (F32.add_mono _ _ _ _
        (F32.add_mono _ _ _ _ (Nat.le_refl _) (F32.mul_mono _ _ _ h1))
        (F32.mul_mono _ _ _ h2))
      (F32.mul_mono _ _ _ h3))

theorem creative_sum_foldl (keywords : List Str) :
    ∀ n score, (creative_sum (min n 3)).ulps ≤ score.ulps →
      (creative_sum (min (n + keywords.countP (in_category .creative)) 3)).ulps
        ≤ (keywords.foldl (fun score keyword =>
            if in_category .creative keyword then F32.add score (F32.lit 3 10) else score)
            score).ulps := by
  have hstep : ∀ j < 4, (creative_sum (min (j + 1) 3)).ulps
      ≤ (F32.add (creative_sum j) (F32.lit 3 10)).ulps := by decide!
  induction keywords with
  | nil =>
    intro n score h
    exact h
  | cons k keywords ih =>
    intro n score h
    rw [List.foldl_cons, List.countP_cons]
    cases hc : in_category .creative k
    · simp only [Bool.false_eq_true, if_false, Nat.add_zero]
      exact ih n score h
    · simp only [if_true]
      have h1 := hstep (min n 3) (by omega)
      have h2 := F32.add_mono _ _ (F32.lit 3 10) (F32.lit 3 10) h (Nat.le_refl _)
      have h3 := ih (n + 1) (F32.add score (F32.lit 3 10)) (by
        rw [show min (n + 1) 3 = min (min n 3 + 1) 3 from by omega]
        exact Nat.le_trans h1 h2)
      rwa [show n + 1 + List.countP (in_category .creative) keywords
        = n + (List.countP (in_category .creative) keywords + 1) from by omega] at h3

theorem creative_count_le_two (keywords : List Str)
    (h : F32.gt (calculate_creative_score keywords) (F32.lit 6 10) = false) :
    keywords.countP (in_category .creative) ≤ 2 := by
  by_contra hn
  have h0 : (creative_sum (min 0 3)).ulps ≤ (F32.lit 0 1).ulps := by decide!
  have h1 := creative_sum_foldl keywords 0 (F32.lit 0 1) h0
  rw [Nat.zero_add, show min (List.countP (in_category .creative) keywords) 3 = 3 from by omega]
    at h1
  have h2 : (F32.lit 6 10).ulps < (F32.min (F32.lit 1 1) (creative_sum 3)).ulps := by decide!
  have h3 : F32.gt (calculate_creative_score keywords) (F32.lit 6 10) = true :=
    F32.lt_of_lt _ _ (Nat.lt_of_lt_of_le h2 (F32.min_mono _ _ _ h1))
  rw [h] at h3
  exact Bool.noConfusion h3

theorem factual_counts_of_lt_half (keywords : List Str)
    (h : F32.ge (calculate_factual_score keywords) (F32.lit 5 10) = false) :
    keywords.countP (in_category .technical) + keywords.countP (in_category .maintenance) ≤ 1
    ∧ keywords.countP (in_category .feature) = 0 := by
  by_contra hn
  have h1 := factual_of_counts_ge_half (keywords.countP (in_category .technical))
    (keywords.countP (in_category .maintenance)) (keywords.countP (in_category .feature))
    (by omega)
  rw [← calculate_factual_score_eq] at h1
  rw [F32.ge_of_le _ _ h1] at h
  exact Bool.noConfusion h

theorem keywords_without_question_le (qc : QueryClassifier) (query : Str)
    (he : detect_words .emergency query = false)
    (hf : F32.ge (calculate_factual_score (qc.extract_keywords query)) (F32.lit 5 10) = false)
    (hc : F32.gt (calculate_creative_score (qc.extract_keywords query)) (F32.lit 6 10)
      = false) :
    (qc.extract_keywords query).countP (in_category .technical) ≤ 1
    ∧ (qc.extract_keywords query).length ≤ 3 + (found_literals query .question).length := by
  have h1 := factual_counts_of_lt_half _ hf
  have h2 := creative_count_le_two _ hc
  have h3 := (found_literals_eq_nil query .emergency).mpr he
  have ht := length_found_le_countP qc query .technical
  have hm := length_found_le_countP qc query .maintenance
  have hfe := length_found_le_countP qc query .feature
  have hcr := length_found_le_countP qc query .creative
  have hl := length_extract_keywords qc query
  rw [h3, List.length_nil] at hl
  omega

theorem complexity_le_of_counts (query : Str) (keywords : List Str) (k t : Nat)
    (hk : keywords.length ≤ k) (ht : keywords.countP (in_category .technical) ≤ t) :
    (calculate_complexity_score query keywords).ulps ≤ (complexity_of_counts 100 k t).ulps := by
  rw [calculate_complexity_score_eq]
  exact complexity_of_counts_le _ _ _ _ _ hk ht

/-- C27: with the built-in dictionary, every query that `classify_query` answers with
`COMPLEX_QUERY` contains question words, and at least four literals of the question
category occur in it. The reason: a query without emergency words, with a factual score
below `0.5f` and a creative score of at most `0.6f`, has at most three keyword entries
besides the question literals found and at most one technical entry; when it contains
no question word, its complexity score is at most the binary32 value of
`0.3 + 0.4·(3/10) + 0.3·(1/5)`, which is `0.48f` up to one unit in the last place and below
`0.6f`. -/
theorem complex_query_contains_question_words (qc : QueryClassifier) (query : Str) :
    ((qc.classify_query query).query_type = .COMPLEX_QUERY →
      (qc.analyze_query_features query).contains_question_words = true
      ∧ 4 ≤ ((keyword_dict_ .question).filter fun w => str_contains query w).length)
    ∧ ((qc.analyze_query_features query).contains_emergency_words = false →
        F32.ge (qc.analyze_query_features query).factual_score (F32.lit 5 10) = false →
        F32.gt (qc.analyze_query_features query).creative_score (F32.lit 6 10) = false →
        (qc.extract_keywords query).length
            ≤ 3 + ((keyword_dict_ .question).filter fun w => str_contains query w).length
        ∧ ((qc.analyze_query_features query).contains_question_words = false →
            (qc.extract_keywords query).length ≤ 3
            ∧ (qc.analyze_query_features query).complexity_score.ulps
                ≤ complexity_bound_without_question.ulps))
    ∧ (F32.lit 48 100).ulps ≤ complexity_bound_without_question.ulps
    ∧ complexity_bound_without_question.ulps ≤ (F32.lit 48 100).ulps + 2 ^ 124
    ∧ F32.lt complexity_bound_without_question (F32.lit 6 10) = true := by
  have hfound : ((keyword_dict_ .question).filter fun w => str_contains query w)
      = found_literals query .question := rfl
  rw [hfound, features_contains_emergency_words, features_factual_score,
    features_creative_score, features_contains_question_words, features_complexity_score]
  refine ⟨?_, ?_, by decide!, by decide!, by decide!⟩
  · intro h
    simp only [QueryClassifier.classify_query] at h
    rw [features_contains_emergency_words, features_factual_score,
      features_creative_score, features_complexity_score] at h
    have hfour : 4 ≤ (found_literals query .question).length := by
      by_contra hn
      split_ifs at h with h1 h2 h3 h4
      have he : detect_words .emergency query = false := by
        cases hd : detect_words .emergency query
        · rfl
        · rw [hd, Bool.or_true] at h1
          exact absurd rfl h1
      have hb := keywords_without_question_le qc query he
        (Bool.eq_false_iff.mpr h2) (Bool.eq_false_iff.mpr h3)
      have hx := complexity_le_of_counts query (qc.extract_keywords query) 6 1
        (by omega) hb.1
      have h6 : (complexity_of_counts 100 6 1).ulps ≤ (F32.lit 6 10).ulps := by decide!
      have := F32.lt_false_of_le (F32.lit 6 10) _ (Nat.le_trans hx h6)
      simp only [F32.gt] at h4
      rw [this] at h4
      exact Bool.noConfusion h4
    refine ⟨?_, hfour⟩
    cases hd : detect_words .question query
    · rw [(found_literals_eq_nil query .question).mpr hd, List.length_nil] at hfour
      omega
    · rfl
  · intro he hf hc
    have hb := keywords_without_question_le qc query he hf hc
    refine ⟨hb.2, ?_⟩
    intro hq
    have h0 := (found_literals_eq_nil query .question).mpr hq
    rw [h0, List.length_nil] at hb
    have hx := complexity_le_of_counts query (qc.extract_keywords query) 3 1 hb.2 hb.1
    have h3 : complexity_of_counts 100 3 1 = complexity_bound_without_question := by decide!
    rw [h3] at hx
    exact ⟨hb.2, hx⟩

theorem complex_query_contains_question_words_witness :
    (sample_classifier.classify_query question_query).query_type = .COMPLEX_QUERY
    ∧ (sample_classifier.analyze_query_features question_query).contains_question_words = true
    ∧ 4 ≤ ((keyword_dict_ .question).filter fun w => str_contains question_query w).length
    ∧ (sample_classifier.analyze_query_features advice_query).contains_emergency_words = false
    ∧ F32.ge (sample_classifier.analyze_query_features advice_query).factual_score
        (F32.lit 5 10) = false
    ∧ F32.gt (sample_classifier.analyze_query_features advice_query).creative_score
        (F32.lit 6 10) = false
    ∧ (sample_classifier.analyze_query_features advice_query).contains_question_words = false
    ∧ (sample_classifier.extract_keywords advice_query).length ≤ 3
    ∧ (sample_classifier.analyze_query_features advice_query).complexity_score.ulps
        ≤ complexity_bound_without_question.ulps :=
  ⟨by decide!,
    ((complex_query_contains_question_words sample_classifier question_query).1
      (by decide!)).1,
    ((complex_query_contains_question_words sample_classifier question_query).1
      (by decide!)).2,
    by decide!, by decide!, by decide!, by decide!,
    (((complex_query_contains_question_words sample_classifier advice_query).2.1
      (by decide!) (by decide!) (by decide!)).2 (by decide!)).1,
    (((complex_query_contains_question_words sample_classifier advice_query).2.1
      (by decide!) (by decide!) (by decide!)).2 (by decide!)).2⟩

end EdgeVoiceRAG
